import Mathlib

/-!
# WASI filesystem layer of the Go port: path resolution, directory reading, open rights

Shallow embedding of `src/syscall/fs_wasi.go`, `src/syscall/tables_wasi.go`,
`src/os/dir_wasi.go`, `src/internal/poll/fd_wasi.go` and `itoa` of
`src/time/zoneinfo_wasi.go`.

Conventions of the embedding:
* a Go `string` or `[]byte` is a list of bytes;
* host imports (`Path_readlink`, `Fd_readdir`, ...) are parameters: functions from the
  arguments of the import to the status code and the bytes the host wrote;
* package-level variables (`wd`, `rootRightsFile`) are explicit arguments;
* what the embedded functions use of code declared outside these files (the `O_*`
  constants, the allocation limit of `make`, the poll descriptor of a file) is a
  parameter;
* a loop with no bound of its own takes a fuel argument; running out of fuel is the
  outcome `Run.fuelOut`, a Go run-time panic is the outcome `Run.panic`.
-/

namespace Wasi

/-! ## Definitions -/

/-- A Go `byte`. -/
abbrev Byte := UInt8

/-- A Go `string` (or `[]byte`): a finite sequence of bytes. -/
abbrev GoString := List Byte

/-- The byte string of an ASCII literal. -/
def str (s : String) : GoString := s.toList.map (fun c => c.toNat.toUInt8)

/-- The path separator, the byte `'/'`. -/
def slash : Byte := 47

/-- The byte `'.'`. -/
def dot : Byte := 46

/-- Outcome of running a piece of Go code: it returns a value, it panics, or the
model ran out of fuel (the loop was still running). -/
inductive Run (α : Type) where
  | ret (a : α)
  | panic
  | fuelOut
  deriving DecidableEq, Repr

/-- `syscall.Errno`, a `uint32` status code; `0` is success. -/
abbrev Errno := Nat

def EAGAIN : Errno := 6
def EINVAL : Errno := 28
def ENOENT : Errno := 44
def ENOSYS : Errno := 52

def errEAGAIN : Errno := EAGAIN
def errEINVAL : Errno := EINVAL
def errENOENT : Errno := ENOENT

/-- `errnoErr` of `tables_wasi.go`: the Go `error` for a status code, `none` being `nil`. -/
def errnoErr (e : Errno) : Option Errno :=
  if e = 0 then none
  else if e = EAGAIN then some errEAGAIN
  else if e = EINVAL then some errEINVAL
  else if e = ENOENT then some errENOENT
  else some e

/-! ### Path resolver (`preparePath`, `readlink`) -/

/-- The host import `Path_readlink` on the root descriptor: from the path and `buf_len`
to the status code and the bytes `buf[:bufused]` the host reports written. -/
abbrev ReadlinkHost := GoString → Nat → Errno × GoString

/-- The loop of `readlink`: `for buflen := size_t(128); ; buflen *= 2`.
`buflen` is a `uint32`, so the doubling wraps to `0`, where `&buf[0]` panics. -/
def readlinkLoop (host : ReadlinkHost) (path : GoString) :
    Nat → Nat → Run (GoString × Option Errno)
  | 0, _ => .fuelOut
  | fuel + 1, buflen =>
    if path = [] then .panic
    else if buflen = 0 then .panic
    else
      let r := host path buflen
      if r.1 ≠ 0 then .ret ([], errnoErr r.1)
      else if r.2.length < buflen then .ret (r.2, none)
      else readlinkLoop host path fuel (buflen * 2 % 2 ^ 32)

/-- `readlink` of `fs_wasi.go`. The buffer length takes the values `128 * 2^k` for
`k ≤ 24` and then wraps to `0`, so 26 rounds cover every run of the loop. -/
def readlink (host : ReadlinkHost) (path : GoString) : Run (GoString × Option Errno) :=
  readlinkLoop host path 26 128

/-- `strings.Split(s, sep)` for a one-byte separator: the pieces of `s` between the
occurrences of `sep`; one (empty) piece for the empty string. -/
def split (sep : Byte) : GoString → List GoString
  | [] => [[]]
  | c :: cs =>
    if c = sep then [] :: split sep cs
    else
      match split sep cs with
      | [] => [[c]]
      | p :: ps => (c :: p) :: ps

/-- Index of the first `c` in `s` at or after position `i`, scanning forward and
remembering the last hit: the result is the last index of `c`, or `last` if none. -/
def lastIndexFrom (c : Byte) : GoString → Nat → Int → Int
  | [], _, last => last
  | b :: bs, i, last => lastIndexFrom c bs (i + 1) (if b = c then (i : Int) else last)

/-- `strings.LastIndexByte(s, c)`: the index of the last `c` in `s`, or `-1`. -/
def lastIndexByte (s : GoString) (c : Byte) : Int := lastIndexFrom c s 0 (-1)

/-- The inner `for { ... }` of `preparePath`: read the accumulated path as a symlink and
substitute the target, until a `readlink` fails. -/
def expandLoop (host : ReadlinkHost) : Nat → GoString → Run GoString
  | 0, _ => .fuelOut
  | fuel + 1, resolvedPath =>
    match readlink host (dot :: resolvedPath) with
    | .fuelOut => .fuelOut
    | .panic => .panic
    | .ret (_, some _) => .ret resolvedPath
    | .ret (dest, none) =>
      match dest with
      | [] => .panic
      | d0 :: _ =>
        if d0 ≠ slash then
          let i := lastIndexByte resolvedPath slash
          if i < 0 then .panic
          else expandLoop host fuel (resolvedPath.take i.toNat ++ slash :: dest)
        else expandLoop host fuel dest

/-- The `for i, part := range parts` loop of `preparePath`; `fuel` bounds each run of
the inner loop. -/
def walkParts (host : ReadlinkHost) (followTrailingSymlink : Bool) (fuel : Nat) :
    List GoString → GoString → Run GoString
  | [], resolvedPath => .ret resolvedPath
  | part :: rest, resolvedPath =>
    let resolvedPath := resolvedPath ++ slash :: part
    if rest.isEmpty && !followTrailingSymlink then .ret resolvedPath
    else
      match expandLoop host fuel resolvedPath with
      | .ret r => walkParts host followTrailingSymlink fuel rest r
      | .panic => .panic
      | .fuelOut => .fuelOut

/-- `preparePath` of `fs_wasi.go`, with the package variable `wd` as an argument.
The result is the byte string `"." + resolvedPath` and `size_t(1 + len(resolvedPath))`. -/
def preparePath (host : ReadlinkHost) (wd : GoString) (fuel : Nat) (path : GoString)
    (followTrailingSymlink : Bool) : Run (GoString × Nat) :=
  let path := if path = [] ∨ path.head? ≠ some slash then wd ++ slash :: path else path
  let parts := split slash (path.drop 1)
  match walkParts host followTrailingSymlink fuel parts [] with
  | .ret resolvedPath => .ret (dot :: resolvedPath, (1 + resolvedPath.length) % 2 ^ 32)
  | .panic => .panic
  | .fuelOut => .fuelOut

/-- A path is relative when it is empty or does not begin with `'/'`. -/
def isRelative (p : GoString) : Prop := p = [] ∨ p.head? ≠ some slash

instance (p : GoString) : Decidable (isRelative p) := by
  unfold isRelative; infer_instance

/-- The text `"/" + seg₁ + "/" + seg₂ + ...` of a list of segments. -/
def joinSegs (segs : List GoString) : GoString := (segs.map (slash :: ·)).flatten

/-- A host with no symlink at all: every `Path_readlink` reports `ENOENT`. -/
def noLinks : ReadlinkHost := fun _ _ => (ENOENT, [])

/-- A host with a single symlink `link` whose target is `target`: it writes as much of
the target as fits; every other path reports `EINVAL` (not a symlink). -/
def oneLink (link target : GoString) : ReadlinkHost := fun path buflen =>
  if path = link then (0, target.take buflen) else (EINVAL, [])

/-- No path is a symlink for the host at `p`: every `Path_readlink` on it fails. -/
def notLink (host : ReadlinkHost) (p : GoString) : Prop := ∀ n, (host p n).1 ≠ 0

/-- The path a symlink target stands for: an absolute target as it is, a relative one in
place of the text after the last `'/'` of the accumulated path `pre + "/" + s`. -/
def substituted (pre t : GoString) : GoString :=
  if t.head? = some slash then t else pre ++ slash :: t

/-! ### Opening a file (`Open`) -/

/-- Rights bits of `fs_wasi.go` (`Rights_t`, a `uint64`). -/
def RIGHT_FD_DATASYNC : Nat := 0x0000000000000001
def RIGHT_FD_READ : Nat := 0x0000000000000002
def RIGHT_FD_WRITE : Nat := 0x0000000000000040
def RIGHT_FD_ALLOCATE : Nat := 0x0000000000000100
def RIGHT_FD_READDIR : Nat := 0x0000000000004000
def RIGHT_PATH_FILESTAT_SET_SIZE : Nat := 0x0000000000080000
def RIGHT_FD_FILESTAT_SET_SIZE : Nat := 0x0000000000400000

def OFLAG_CREATE : Nat := 0x0001
def OFLAG_EXCL : Nat := 0x0004
def OFLAG_TRUNC : Nat := 0x0008

def FDFLAG_APPEND : Nat := 0x0001
def FDFLAG_SYNC : Nat := 0x0010

def rootFD : Nat := 3

/-- The open-mode constants `O_*` of package `syscall`. They are declared outside the
files embedded here, so their values are parameters. -/
structure OpenFlags where
  O_WRONLY : Nat
  O_RDWR : Nat
  O_CREATE : Nat
  O_TRUNC : Nat
  O_EXCL : Nat
  O_APPEND : Nat
  O_SYNC : Nat

/-- The 64 bits of a Go `int` (two's complement). -/
def intBits (i : Int) : Nat := (i % 2 ^ 64).toNat

/-- `x &^ m` on `uint64`: `x` with the bits of `m` cleared. -/
def bitClear (x m : Nat) : Nat := x &&& (m ^^^ (2 ^ 64 - 1))

/-- The `switch` of `Open` that narrows `rootRightsFile` by the open mode. -/
def openRights (fl : OpenFlags) (rootRightsFile : Nat) (openmode : Int) : Nat :=
  if intBits openmode &&& fl.O_WRONLY ≠ 0 then
    bitClear rootRightsFile (RIGHT_FD_READ ||| RIGHT_FD_READDIR)
  else if intBits openmode &&& fl.O_RDWR ≠ 0 then
    rootRightsFile
  else
    bitClear rootRightsFile
      (RIGHT_FD_DATASYNC ||| RIGHT_FD_WRITE ||| RIGHT_FD_ALLOCATE |||
        RIGHT_PATH_FILESTAT_SET_SIZE)

/-- The `oflags` computed by `Open`. -/
def openOflags (fl : OpenFlags) (openmode : Int) : Nat :=
  let oflags := 0
  let oflags := if intBits openmode &&& fl.O_CREATE ≠ 0 then oflags ||| OFLAG_CREATE else oflags
  let oflags := if intBits openmode &&& fl.O_TRUNC ≠ 0 then oflags ||| OFLAG_TRUNC else oflags
  if intBits openmode &&& fl.O_EXCL ≠ 0 then oflags ||| OFLAG_EXCL else oflags

/-- The `fdflags` computed by `Open`. -/
def openFdflags (fl : OpenFlags) (openmode : Int) : Nat :=
  let fdflags := 0
  let fdflags :=
    if intBits openmode &&& fl.O_APPEND ≠ 0 then fdflags ||| FDFLAG_APPEND else fdflags
  if intBits openmode &&& fl.O_SYNC ≠ 0 then fdflags ||| FDFLAG_SYNC else fdflags

/-- The arguments of one call of the host import `Path_open`. -/
structure PathOpenArgs where
  rootFD : Nat
  dirflags : Nat
  path : GoString
  path_len : Nat
  oflags : Nat
  fs_rights_base : Nat
  fs_rights_inheriting : Nat
  fs_flags : Nat
  deriving DecidableEq, Repr

/-- The host import `Path_open`: the status code and the value of `fd` after the call. -/
abbrev OpenHost := PathOpenArgs → Errno × Nat

/-- The package variables `wd` and `fdPaths`. -/
structure FsState where
  wd : GoString
  fdPaths : Int → Option GoString

/-- What a call of `Open` produces: the returned descriptor and error, the package
variables afterwards, and the `Path_open` call made (`none` if none was made). -/
structure OpenResult where
  fd : Int
  err : Option Errno
  state : FsState
  call : Option PathOpenArgs

/-- `Open` of `fs_wasi.go`. -/
def Open (fl : OpenFlags) (rl : ReadlinkHost) (Path_open : OpenHost) (rootRightsFile : Nat)
    (fuel : Nat) (st : FsState) (path : GoString) (openmode : Int) (_perm : Nat) :
    Run OpenResult :=
  if path = [] then .ret ⟨0, some EINVAL, st, none⟩
  else
    let path := if path.head? ≠ some slash then st.wd ++ slash :: path else path
    match preparePath rl st.wd fuel path true with
    | .panic => .panic
    | .fuelOut => .fuelOut
    | .ret (path_ptr, path_len) =>
      let args : PathOpenArgs :=
        { rootFD := rootFD, dirflags := 0, path := path_ptr, path_len := path_len,
          oflags := openOflags fl openmode,
          fs_rights_base := openRights fl rootRightsFile openmode,
          fs_rights_inheriting := rootRightsFile,
          fs_flags := openFdflags fl openmode }
      let r := Path_open args
      let fd : Int := (r.2 : Int)
      .ret ⟨fd, errnoErr r.1,
        { st with fdPaths := fun k => if k = fd then some path else st.fdPaths k },
        some args⟩

/-- Sample values of the `O_*` constants (those of the `syscall` tables of the
js/wasm port), used for concrete runs. -/
def sampleFlags : OpenFlags :=
  { O_WRONLY := 1, O_RDWR := 2, O_CREATE := 0o100, O_TRUNC := 0o1000, O_EXCL := 0o200,
    O_APPEND := 0o2000, O_SYNC := 0o10000 }

/-- A host whose `Path_open` always succeeds with descriptor 4. -/
def openOk : OpenHost := fun _ => (0, 4)

/-- The package state with working directory `"/"` and no descriptor recorded. -/
def initState : FsState := { wd := str "/", fdPaths := fun _ => none }

/-- The `Path_open` call made by a run of `Open`, if it made one. -/
def openCall (r : Run OpenResult) : Option PathOpenArgs :=
  match r with
  | .ret res => res.call
  | _ => none

/-- Every right of `fs_wasi.go` (bits 0 to 28). -/
def allRights : Nat := 0x1FFFFFFF

/-- The `Path_open` arguments of `Open("/f", O_WRONLY, 0)` under `allRights`. -/
def wronlyArgs : PathOpenArgs :=
  { rootFD := 3, dirflags := 0, path := str "./f", path_len := 3, oflags := 0,
    fs_rights_base := 0x1FFFBFFD, fs_rights_inheriting := 0x1FFFFFFF, fs_flags := 0 }

/-- The `Path_open` arguments of `Open("/f", O_RDONLY, 0)` under `allRights`. -/
def rdonlyArgs : PathOpenArgs :=
  { rootFD := 3, dirflags := 0, path := str "./f", path_len := 3, oflags := 0,
    fs_rights_base := 0x1FF7FEBE, fs_rights_inheriting := 0x1FFFFFFF, fs_flags := 0 }

/-- The `Path_open` arguments of `Open("/f", O_RDWR, 0)` under `allRights`. -/
def rdwrArgs : PathOpenArgs :=
  { rootFD := 3, dirflags := 0, path := str "./f", path_len := 3, oflags := 0,
    fs_rights_base := 0x1FFFFFFF, fs_rights_inheriting := 0x1FFFFFFF, fs_flags := 0 }

/-- The result of `Open("/f", mode, 0)` on the host `openOk` from `initState`, given the
`Path_open` arguments. -/
def openedF (args : PathOpenArgs) : OpenResult :=
  { fd := 4, err := none,
    state := { wd := str "/", fdPaths := fun k => if k = 4 then some (str "/f") else none },
    call := some args }

/-! ### Directory reading (`readdirnames`) -/

/-- `blockSize` of `dir_wasi.go`, the length of `dirInfo.buf`. -/
def blockSize : Nat := 8192

/-- `dirInfo` of `dir_wasi.go`. Of `buf` only the length `blockSize` matters; `data` is
the unread portion of `buf`, `cookie` the pointer to the next directory entry. -/
structure dirInfo where
  data : List Byte
  cookie : Nat
  deriving DecidableEq, Repr

/-- The host import `Fd_readdir` on the directory descriptor: from `buf_len` and the
cookie to the status code and the bytes `buf[:bufused]` the host reports written. -/
abbrev ReaddirHost := Nat → Nat → Errno × List Byte

/-- `readUint32` of `dir_wasi.go`; `b[3]` out of range panics. -/
def readUint32 : List Byte → Run Nat
  | b0 :: b1 :: b2 :: b3 :: _ =>
    .ret (b0.toNat ||| b1.toNat <<< 8 ||| b2.toNat <<< 16 ||| b3.toNat <<< 24)
  | _ => .panic

/-- `readUint64` of `dir_wasi.go`; `b[7]` out of range panics. -/
def readUint64 : List Byte → Run Nat
  | b0 :: b1 :: b2 :: b3 :: b4 :: b5 :: b6 :: b7 :: _ =>
    .ret (b0.toNat ||| b1.toNat <<< 8 ||| b2.toNat <<< 16 ||| b3.toNat <<< 24 |||
      b4.toNat <<< 32 ||| b5.toNat <<< 40 ||| b6.toNat <<< 48 ||| b7.toNat <<< 56)
  | _ => .panic

/-- The names `"."` and `".."`, which `readdirnames` skips. -/
def isDotName (name : GoString) : Bool := name == [dot] || name == [dot, dot]

/-- The inner `for n != 0` loop of `readdirnames`, which drains `d.data`.
`24 + namelen` is computed in `uint32`; a record is consumed only when `d.data` holds
that many bytes, and slicing `d.data[24 : 24+namelen]` panics when the sum wrapped
below 24. `n` is a Go `int`, which the decrements cannot wrap. -/
def drain : Nat → dirInfo → Int → List GoString → Run (dirInfo × Int × List GoString)
  | 0, _, _, _ => .fuelOut
  | fuel + 1, d, n, names =>
    if n = 0 then .ret (d, n, names)
    else if d.data.length < 24 then .ret ({ d with data := [] }, n, names)
    else
      match readUint32 (d.data.drop 16) with
      | .panic => .panic
      | .fuelOut => .fuelOut
      | .ret namelen =>
        let recLen := (24 + namelen) % 2 ^ 32
        if d.data.length < recLen then .ret ({ d with data := [] }, n, names)
        else
          match readUint64 d.data with
          | .panic => .panic
          | .fuelOut => .fuelOut
          | .ret cookie =>
            if recLen < 24 then .panic
            else
              let name := (d.data.take recLen).drop 24
              let d' : dirInfo := { data := d.data.drop recLen, cookie := cookie }
              if isDotName name then drain fuel d' n names
              else drain fuel d' (n - 1) (names ++ [name])

/-- An `error` that `poll.(*FD).ReadDir` returns: a host status (`syscall.Errno`), or an
error value of package `internal/poll` (such as `ErrFileClosing`); these values are
declared outside the files embedded here and are told apart by a number. -/
inductive ReadDirError where
  | errno (e : Errno)
  | poll (tag : Nat)
  deriving DecidableEq, Repr

/-- What `readdirnames` and `poll.(*FD).ReadDir` use that is declared outside the files
embedded here: `maxCap`, the largest capacity for which `make([]string, 0, size)` returns
(above it `make` panics); the result of `fd.incref()` (`none` for `nil`); the value of
`fd.pd.pollable()`; and the result of the `k`-th call of `fd.pd.waitRead` (`none` for
`nil`). -/
structure DirEnv where
  maxCap : Nat
  incref : Option Nat
  pollable : Bool
  waitRead : Nat → Option Nat

/-- The `for` loop of `poll.(*FD).ReadDir` over `syscall.ReadDir`: a read that fails
with `EAGAIN` on a pollable descriptor waits and, when the wait succeeds, reads again;
`k` counts the waits made so far. The result is the byte count `n`, zeroed on error, the
bytes `buf[:bufused]`, and the error. -/
def pollReadDirLoop (env : DirEnv) (host : ReaddirHost) (buflen cookie : Nat) :
    Nat → Nat → Run (Nat × List Byte × Option ReadDirError)
  | 0, _ => .fuelOut
  | fuel + 1, k =>
    let r := host buflen cookie
    match errnoErr r.1 with
    | none => .ret (r.2.length, r.2, none)
    | some e =>
      if e = EAGAIN ∧ env.pollable = true then
        match env.waitRead k with
        | none => pollReadDirLoop env host buflen cookie fuel (k + 1)
        | some w => .ret (0, r.2, some (.poll w))
      else .ret (0, r.2, some (.errno e))

/-- `poll.(*FD).ReadDir` of `fd_wasi.go`: the error of `fd.incref()` is returned before
any read; otherwise the loop runs. -/
def pollReadDir (env : DirEnv) (host : ReaddirHost) (buflen cookie fuel : Nat) :
    Run (Nat × List Byte × Option ReadDirError) :=
  match env.incref with
  | some e => .ret (0, [], some (.poll e))
  | none => pollReadDirLoop env host buflen cookie fuel 0

/-- The outer `for n != 0` loop of `readdirnames`. The inner loop consumes at least 24
bytes of `d.data` per round, so `len(d.data) + 1` rounds cover every run of it; the
fuel left also bounds the loop of `poll.(*FD).ReadDir`. The result is the cursor, `n`,
`names` and the error of an early `return`. -/
def readLoop (env : DirEnv) (host : ReaddirHost) :
    Nat → dirInfo → Int → List GoString →
      Run (dirInfo × Int × List GoString × Option ReadDirError)
  | 0, _, _, _ => .fuelOut
  | fuel + 1, d, n, names =>
    if n = 0 then .ret (d, n, names, none)
    else
      let filled : Run (dirInfo × Bool × Option ReadDirError) :=
        if d.data.length = 0 then
          match pollReadDir env host blockSize d.cookie (fuel + 1) with
          | .panic => .panic
          | .fuelOut => .fuelOut
          | .ret r =>
            if blockSize < r.1 then .panic
            else .ret ({ d with data := r.2.1.take r.1 }, decide (r.1 < blockSize), r.2.2)
        else .ret (d, false, none)
      match filled with
      | .panic => .panic
      | .fuelOut => .fuelOut
      | .ret (d1, _, some e) => .ret (d1, n, names, some e)
      | .ret (d1, done, none) =>
        match drain (d1.data.length + 1) d1 n names with
        | .panic => .panic
        | .fuelOut => .fuelOut
        | .ret (d2, n2, names2) =>
          if done then .ret (d2, n2, names2, none)
          else readLoop env host fuel d2 n2 names2

/-- The errors `readdirnames` returns: `io.EOF`, a host error wrapped by
`wrapSyscallError` with the name of the operation, or the value `wrapSyscallError(op, err)`
for an error `err` of package `internal/poll` (`wrapSyscallError` is declared outside the
files embedded here, so that value is kept as it is written). -/
inductive DirError where
  | EOF
  | syscallError (op : String) (e : Errno)
  | wrapped (op : String) (tag : Nat)
  deriving DecidableEq, Repr

/-- What a call of `readdirnames` produces: `names`, `err`, and `f.dirinfo` afterwards. -/
structure ReadNames where
  names : List GoString
  err : Option DirError
  dirinfo : dirInfo
  deriving DecidableEq, Repr

/-- `(*File).readdirnames` of `dir_wasi.go`; `dirinfo` is `f.dirinfo` (`none` for `nil`).
`make([]string, 0, size)` panics when `size` is more than the run-time system
allocates. -/
def readdirnames (env : DirEnv) (host : ReaddirHost) (fuel : Nat) (dirinfo : Option dirInfo)
    (n : Int) : Run ReadNames :=
  let d : dirInfo := match dirinfo with
    | none => { data := [], cookie := 0 }
    | some d => d
  let size : Int := if n ≤ 0 then 100 else n
  let n := if n ≤ 0 then -1 else n
  if (env.maxCap : Int) < size then .panic
  else
    match readLoop env host fuel d n [] with
    | .panic => .panic
    | .fuelOut => .fuelOut
    | .ret (d', _, names, some (.errno e)) =>
      .ret ⟨names, some (.syscallError "readdirnames" e), d'⟩
    | .ret (d', _, names, some (.poll w)) =>
      .ret ⟨names, some (.wrapped "readdirnames" w), d'⟩
    | .ret (d', n', names, none) =>
      if n' ≥ 0 ∧ names.length = 0 then .ret ⟨names, some .EOF, d'⟩
      else .ret ⟨names, none, d'⟩

/-- One record of a host directory: the cookie of the next record, the file serial
number, the type tag, and the name. -/
structure Dirent where
  next : Nat
  ino : Nat
  typ : Nat
  name : GoString
  deriving DecidableEq, Repr

/-- The `k` low bytes of `v`, little-endian. -/
def le : Nat → Nat → List Byte
  | 0, _ => []
  | k + 1, v => (v % 256).toUInt8 :: le k (v / 256)

/-- The 24-byte header of a record: 8-byte next-cookie, 8-byte serial number, 4-byte
name length, 4-byte type tag, all little-endian. -/
def Dirent.header (e : Dirent) : List Byte :=
  le 8 e.next ++ (le 8 e.ino ++ (le 4 e.name.length ++ le 4 e.typ))

/-- The wire form of a record: the header, then the name. -/
def Dirent.encode (e : Dirent) : List Byte := e.header ++ e.name

/-- The serialised records of a directory, one after the other. -/
def encodeAll (es : List Dirent) : List Byte := (es.map Dirent.encode).flatten

/-- The records after cookie `c`: all of them for the start cookie `0`, otherwise those
that follow the record whose next-cookie is `c`. -/
def entriesAfter (c : Nat) (es : List Dirent) : List Dirent :=
  if c = 0 then es else (es.dropWhile (fun e => e.next ≠ c)).drop 1

/-- A host directory: a read at cookie `c` fills the buffer with the serialised records
after `c`, cut at the buffer length, and never fails. -/
def dirHost (es : List Dirent) : ReaddirHost := fun buflen c =>
  (0, (encodeAll (entriesAfter c es)).take buflen)

/-- The names of the records other than `"."` and `".."`, in directory order. -/
def realNames (es : List Dirent) : List GoString :=
  (es.map Dirent.name).filter (fun nm => !isDotName nm)

/-- A directory whose reads this layer can follow: next-cookies are non-zero 64-bit
values, no two records share one, and every record fits the buffer. -/
structure WellFormedDir (es : List Dirent) : Prop where
  cookie_lt : ∀ e ∈ es, e.next < 2 ^ 64
  cookie_ne : ∀ e ∈ es, e.next ≠ 0
  cookie_nodup : (es.map Dirent.next).Nodup
  fits : ∀ e ∈ es, 24 + e.name.length ≤ blockSize

/-- Successive calls `readdirnames(n)` on one `File`, threading `f.dirinfo`: the results
of the first `calls` calls (fewer if one does not return). -/
def readdirnamesCalls (env : DirEnv) (host : ReaddirHost) (fuel : Nat) (n : Int) :
    Nat → Option dirInfo → List ReadNames
  | 0, _ => []
  | calls + 1, dirinfo =>
    match readdirnames env host fuel dirinfo n with
    | .ret r => r :: readdirnamesCalls env host fuel n calls (some r.dirinfo)
    | _ => []

/-- An open descriptor that is not pollable, on a run-time system whose `make` allocates
up to `2^28` strings. -/
def openEnv : DirEnv :=
  { maxCap := 2 ^ 28, incref := none, pollable := false, waitRead := fun _ => none }

/-- An open, pollable descriptor whose waits all succeed. -/
def retryEnv : DirEnv := { openEnv with pollable := true }

/-- An open, pollable descriptor whose waits fail with the poll error 1. -/
def waitFailEnv : DirEnv := { openEnv with pollable := true, waitRead := fun _ => some 1 }

/-- A host whose directory reads all fail with `EAGAIN`. -/
def eagainHost : ReaddirHost := fun _ _ => (EAGAIN, [])

/-- A small directory: `"."`, `".."`, `"a"` and `"bc"`, with cookies 1 to 4. -/
def smallDir : List Dirent :=
  [⟨1, 10, 3, str "."⟩, ⟨2, 11, 3, str ".."⟩, ⟨3, 12, 4, str "a"⟩, ⟨4, 13, 4, str "bc"⟩]

/-- What the loops of `readdirnames` do to a directory seen as a list of records: take
records off the front while `n` is not `0`, counting and collecting the names other
than `"."` and `".."`. The result is the records left, `n` and `names`. -/
def takeEntries : List Dirent → Int → List GoString → List Dirent × Int × List GoString
  | [], n, names => ([], n, names)
  | e :: rem, n, names =>
    if n = 0 then (e :: rem, n, names)
    else if isDotName e.name then takeEntries rem n names
    else takeEntries rem (n - 1) (names ++ [e.name])

/-- The cursor `d` stands before the records `rem` of the directory `es`: `rem` is a
tail of `es`, a host read at `d.cookie` starts at `rem`, and the unread bytes `d.data`
are a leading part of the serialised `rem`. -/
def CursorAt (es : List Dirent) (d : dirInfo) (rem : List Dirent) : Prop :=
  (∃ pre, es = pre ++ rem) ∧ entriesAfter d.cookie es = rem ∧ d.data <+: encodeAll rem

/-- A directory that holds `"."` and `".."` only. -/
def dotsDir : List Dirent := [⟨1, 10, 3, str "."⟩, ⟨2, 11, 3, str ".."⟩]

/-- The cookie of the cursor after the records `front` were consumed from cookie `c`. -/
def cookieAfter (c : Nat) : List Dirent → Nat
  | [] => c
  | x :: xs => cookieAfter x.next xs

/-- A name of 8093 bytes. -/
def longName : GoString := List.replicate 8093 97

/-- The first three records of `cutDir`; they serialise to 8168 bytes. -/
def cutFront : List Dirent :=
  [⟨1, 10, 3, [dot]⟩, ⟨2, 11, 3, [dot, dot]⟩, ⟨3, 12, 4, longName⟩]

/-- The last record of `cutDir`, named `"b"`. -/
def cutEntry : Dirent := ⟨4, 13, 4, [98]⟩

/-- A directory of 8193 bytes: the first host read ends exactly behind the 24-byte
header of the last record. -/
def cutDir : List Dirent := cutFront ++ [cutEntry]

/-- A name of 9000 bytes. -/
def hugeName : GoString := List.replicate 9000 97

/-- A record of 9024 bytes, longer than the buffer. -/
def hugeEntry : Dirent := ⟨1, 10, 4, hugeName⟩

/-- A directory whose only record is longer than the buffer. -/
def hugeDir : List Dirent := [hugeEntry]

/-! ### Errno table (`tables_wasi.go`) -/

/-- The remaining `Errno` constants of `tables_wasi.go`. -/
def E2BIG : Errno := 1
def EACCES : Errno := 2
def EADDRINUSE : Errno := 3
def EADDRNOTAVAIL : Errno := 4
def EAFNOSUPPORT : Errno := 5
def EALREADY : Errno := 7
def EBADF : Errno := 8
def EBADMSG : Errno := 9
def EBUSY : Errno := 10
def ECANCELED : Errno := 11
def ECHILD : Errno := 12
def ECONNABORTED : Errno := 13
def ECONNREFUSED : Errno := 14
def ECONNRESET : Errno := 15
def EDEADLK : Errno := 16
def EDESTADDRREQ : Errno := 17
def EDOM : Errno := 18
def EDQUOT : Errno := 19
def EEXIST : Errno := 20
def EFAULT : Errno := 21
def EFBIG : Errno := 22
def EHOSTUNREACH : Errno := 23
def EIDRM : Errno := 24
def EILSEQ : Errno := 25
def EINPROGRESS : Errno := 26
def EINTR : Errno := 27
def EIO : Errno := 29
def EISCONN : Errno := 30
def EISDIR : Errno := 31
def ELOOP : Errno := 32
def EMFILE : Errno := 33
def EMLINK : Errno := 34
def EMSGSIZE : Errno := 35
def EMULTIHOP : Errno := 36
def ENAMETOOLONG : Errno := 37
def ENETDOWN : Errno := 38
def ENETRESET : Errno := 39
def ENETUNREACH : Errno := 40
def ENFILE : Errno := 41
def ENOBUFS : Errno := 42
def ENODEV : Errno := 43
def ENOEXEC : Errno := 45
def ENOLCK : Errno := 46
def ENOLINK : Errno := 47
def ENOMEM : Errno := 48
def ENOMSG : Errno := 49
def ENOPROTOOPT : Errno := 50
def ENOSPC : Errno := 51
def ENOTCONN : Errno := 53
def ENOTDIR : Errno := 54
def ENOTEMPTY : Errno := 55
def ENOTRECOVERABLE : Errno := 56
def ENOTSOCK : Errno := 57
def ENOTSUP : Errno := 58
def ENOTTY : Errno := 59
def ENXIO : Errno := 60
def EOVERFLOW : Errno := 61
def EOWNERDEAD : Errno := 62
def EPERM : Errno := 63
def EPIPE : Errno := 64
def EPROTO : Errno := 65
def EPROTONOSUPPORT : Errno := 66
def EPROTOTYPE : Errno := 67
def ERANGE : Errno := 68
def EROFS : Errno := 69
def ESPIPE : Errno := 70
def ESRCH : Errno := 71
def ESTALE : Errno := 72
def ETIMEDOUT : Errno := 73
def ETXTBSY : Errno := 74
def EXDEV : Errno := 75
def ENOTCAPABLE : Errno := 76

/-- The keyed elements of the array literal `errorstr`, in source order. `goos` is
`runtime.GOOS`, a constant declared outside the files embedded here. -/
def errorstrEntries (goos : GoString) : List (Errno × GoString) :=
  [( E2BIG, str "Argument list too long"),
   ( EACCES, str "Permission denied"),
   ( EADDRINUSE, str "Address already in use"),
   ( EADDRNOTAVAIL, str "Address not available"),
   ( EAFNOSUPPORT, str "Address family not supported by protocol family"),
   ( EAGAIN, str "Try again"),
   ( EALREADY, str "Socket already connected"),
   ( EBADF, str "Bad file number"),
   ( EBADMSG, str "Trying to read unreadable message"),
   ( EBUSY, str "Device or resource busy"),
   ( ECANCELED, str "Operation canceled."),
   ( ECHILD, str "No child processes"),
   ( ECONNABORTED, str "Connection aborted"),
   ( ECONNREFUSED, str "Connection refused"),
   ( ECONNRESET, str "Connection reset by peer"),
   ( EDEADLK, str "Deadlock condition"),
   ( EDESTADDRREQ, str "Destination address required"),
   ( EDOM, str "Math arg out of domain of func"),
   ( EDQUOT, str "Quota exceeded"),
   ( EEXIST, str "File exists"),
   ( EFAULT, str "Bad address"),
   ( EFBIG, str "File too large"),
   ( EHOSTUNREACH, str "Host is unreachable"),
   ( EIDRM, str "Identifier removed"),
   ( EILSEQ, str "EILSEQ"),
   ( EINPROGRESS, str "Connection already in progress"),
   ( EINTR, str "Interrupted system call"),
   ( EINVAL, str "Invalid argument"),
   ( EIO, str "I/O error"),
   ( EISCONN, str "Socket is already connected"),
   ( EISDIR, str "Is a directory"),
   ( ELOOP, str "Too many symbolic links"),
   ( EMFILE, str "Too many open files"),
   ( EMLINK, str "Too many links"),
   ( EMSGSIZE, str "Message too long"),
   ( EMULTIHOP, str "Multihop attempted"),
   ( ENAMETOOLONG, str "File name too long"),
   ( ENETDOWN, str "Network interface is not configured"),
   ( ENETRESET, str "Network dropped connection on reset"),
   ( ENETUNREACH, str "Network is unreachable"),
   ( ENFILE, str "File table overflow"),
   ( ENOBUFS, str "No buffer space available"),
   ( ENODEV, str "No such device"),
   ( ENOENT, str "No such file or directory"),
   ( ENOEXEC, str "Exec format error"),
   ( ENOLCK, str "No record locks available"),
   ( ENOLINK, str "The link has been severed"),
   ( ENOMEM, str "Out of memory"),
   ( ENOMSG, str "No message of desired type"),
   ( ENOPROTOOPT, str "Protocol not available"),
   ( ENOSPC, str "No space left on device"),
   ( ENOSYS, str "Not implemented on " ++ goos),
   ( ENOTCONN, str "Socket is not connected"),
   ( ENOTDIR, str "Not a directory"),
   ( ENOTEMPTY, str "Directory not empty"),
   ( ENOTRECOVERABLE, str "State not recoverable"),
   ( ENOTSOCK, str "Socket operation on non-socket"),
   ( ENOTSUP, str "Not supported"),
   ( ENOTTY, str "Not a typewriter"),
   ( ENXIO, str "No such device or address"),
   ( EOVERFLOW, str "Value too large for defined data type"),
   ( EOWNERDEAD, str "Owner died"),
   ( EPERM, str "Operation not permitted"),
   ( EPIPE, str "Broken pipe"),
   ( EPROTO, str "Protocol error"),
   ( EPROTONOSUPPORT, str "Unknown protocol"),
   ( EPROTOTYPE, str "Protocol wrong type for socket"),
   ( ERANGE, str "Math result not representable"),
   ( EROFS, str "Read-only file system"),
   ( ESPIPE, str "Illegal seek"),
   ( ESRCH, str "No such process"),
   ( ESTALE, str "Stale file handle"),
   ( ETIMEDOUT, str "Connection timed out"),
   ( ETXTBSY, str "Text file busy"),
   ( EXDEV, str "Cross-device link"),
   ( ENOTCAPABLE, str "Capabilities insufficient")]

/-- The length of the array `errorstr`: its largest key, `ENOTCAPABLE`, plus one. -/
def errorstrLen : Nat := ENOTCAPABLE + 1

/-- The element `errorstr[i]` of the array: the string keyed `i` in the literal, the
empty string where the literal has no key. -/
def errorstr (goos : GoString) (i : Nat) : GoString :=
  ((errorstrEntries goos).lookup i).getD []

/-- The first 19 bytes of `errorstr[i]`; they do not depend on `runtime.GOOS`. -/
def errorstrKey (i : Nat) : GoString := (errorstr [] i).take 19

/-! ### Host calls and the path-taking operations of `fs_wasi.go` -/

/-- One call of a host import, with the arguments passed. -/
inductive HostCall where
  | path_readlink (fd : Nat) (path : GoString) (path_len buf_len : Nat)
  | path_open (args : PathOpenArgs)
  | fd_close (fd : Nat)
  | fd_filestat_set_size (fd st_size : Nat)
  | fd_seek (fd : Nat) (offset : Int) (whence : Nat)
  | path_filestat_get (fd flags : Nat) (path : GoString) (path_len : Nat)
  | path_create_directory (fd : Nat) (path : GoString) (path_len : Nat)
  | path_remove_directory (fd : Nat) (path : GoString) (path_len : Nat)
  | path_unlink_file (fd : Nat) (path : GoString) (path_len : Nat)
  | path_rename (old_fd : Nat) (old_path : GoString) (old_path_len : Nat)
      (new_fd : Nat) (new_path : GoString) (new_path_len : Nat)
  | path_link (old_fd old_flags : Nat) (old_path : GoString) (old_path_len : Nat)
      (new_fd : Nat) (new_path : GoString) (new_path_len : Nat)
  | path_symlink (old_path : GoString) (old_path_len : Nat)
      (fd : Nat) (new_path : GoString) (new_path_len : Nat)
  | path_filestat_set_times (fd flags : Nat) (path : GoString) (path_len : Nat)
      (st_atim st_mtim fstflags : Nat)
  deriving DecidableEq, Repr

/-- The host: what each import returns for its arguments (the root descriptor and the
constant flags are left out of the arguments). -/
structure Host where
  path_readlink : ReadlinkHost
  path_open : OpenHost
  fd_close : Nat → Errno
  fd_filestat_set_size : Nat → Nat → Errno
  fd_seek : Nat → Int → Nat → Errno × Nat
  path_filestat_get : GoString → Nat → Errno
  path_create_directory : GoString → Nat → Errno
  path_remove_directory : GoString → Nat → Errno
  path_unlink_file : GoString → Nat → Errno
  path_rename : GoString → Nat → GoString → Nat → Errno
  path_link : GoString → Nat → GoString → Nat → Errno
  path_symlink : GoString → Nat → GoString → Nat → Errno
  path_filestat_set_times : GoString → Nat → Nat → Nat → Errno

/-- The `Path_readlink` calls made by the loop of `readlink`, in order. -/
def readlinkLoopLog (host : ReadlinkHost) (path : GoString) : Nat → Nat → List HostCall
  | 0, _ => []
  | fuel + 1, buflen =>
    if path = [] then []
    else if buflen = 0 then []
    else
      let r := host path buflen
      HostCall.path_readlink rootFD path (path.length % 2 ^ 32) buflen ::
        (if r.1 ≠ 0 then []
         else if r.2.length < buflen then []
         else readlinkLoopLog host path fuel (buflen * 2 % 2 ^ 32))

/-- The host calls of one call of `readlink`. -/
def readlinkLog (host : ReadlinkHost) (path : GoString) : List HostCall :=
  readlinkLoopLog host path 26 128

/-- The host calls of the inner loop of `preparePath` within `fuel` rounds: those of one
`readlink` per round. -/
def expandLoopLog (host : ReadlinkHost) : Nat → GoString → List HostCall
  | 0, _ => []
  | fuel + 1, resolvedPath =>
    readlinkLog host (dot :: resolvedPath) ++
      match readlink host (dot :: resolvedPath) with
      | .ret (dest, none) =>
        match dest with
        | [] => []
        | d0 :: _ =>
          if d0 ≠ slash then
            let i := lastIndexByte resolvedPath slash
            if i < 0 then []
            else expandLoopLog host fuel (resolvedPath.take i.toNat ++ slash :: dest)
          else expandLoopLog host fuel dest
      | _ => []

/-- The host calls of the loop over the parts in `preparePath`. -/
def walkPartsLog (host : ReadlinkHost) (followTrailingSymlink : Bool) (fuel : Nat) :
    List GoString → GoString → List HostCall
  | [], _ => []
  | part :: rest, resolvedPath =>
    let resolvedPath := resolvedPath ++ slash :: part
    if rest.isEmpty && !followTrailingSymlink then []
    else
      expandLoopLog host fuel resolvedPath ++
        match expandLoop host fuel resolvedPath with
        | .ret r => walkPartsLog host followTrailingSymlink fuel rest r
        | _ => []

/-- The host calls of `preparePath`, made before it returns, panics or uses up `fuel`. -/
def preparePathLog (host : ReadlinkHost) (wd : GoString) (fuel : Nat) (path : GoString)
    (followTrailingSymlink : Bool) : List HostCall :=
  let path := if path = [] ∨ path.head? ≠ some slash then wd ++ slash :: path else path
  walkPartsLog host followTrailingSymlink fuel (split slash (path.drop 1)) []

/-- What an operation produces: the returned error, the package variables afterwards,
and the host calls made, in order. -/
structure OpResult where
  err : Option Errno
  state : FsState
  calls : List HostCall

/-- The shape of the one-path operations: `preparePath`, one host import on the resolved
path, `errnoErr` of its status. -/
def pathOp (h : Host) (fuel : Nat) (st : FsState) (path : GoString) (follow : Bool)
    (call : GoString → Nat → HostCall) (status : GoString → Nat → Errno) : Run OpResult :=
  match preparePath h.path_readlink st.wd fuel path follow with
  | .panic => .panic
  | .fuelOut => .fuelOut
  | .ret (path_ptr, path_len) =>
    .ret ⟨errnoErr (status path_ptr path_len), st,
      preparePathLog h.path_readlink st.wd fuel path follow ++ [call path_ptr path_len]⟩

/-- `Mkdir` of `fs_wasi.go`. -/
def Mkdir (h : Host) (fuel : Nat) (st : FsState) (path : GoString) (_perm : Nat) :
    Run OpResult :=
  pathOp h fuel st path false (HostCall.path_create_directory rootFD) h.path_create_directory

/-- `Stat` of `fs_wasi.go`; the `Stat_t` the host fills is not modelled. -/
def Stat (h : Host) (fuel : Nat) (st : FsState) (path : GoString) : Run OpResult :=
  pathOp h fuel st path true (HostCall.path_filestat_get rootFD 0) h.path_filestat_get

/-- `Lstat` of `fs_wasi.go`. -/
def Lstat (h : Host) (fuel : Nat) (st : FsState) (path : GoString) : Run OpResult :=
  pathOp h fuel st path false (HostCall.path_filestat_get rootFD 0) h.path_filestat_get

/-- `Unlink` of `fs_wasi.go`. -/
def Unlink (h : Host) (fuel : Nat) (st : FsState) (path : GoString) : Run OpResult :=
  pathOp h fuel st path false (HostCall.path_unlink_file rootFD) h.path_unlink_file

/-- `Rmdir` of `fs_wasi.go`. -/
def Rmdir (h : Host) (fuel : Nat) (st : FsState) (path : GoString) : Run OpResult :=
  pathOp h fuel st path false (HostCall.path_remove_directory rootFD) h.path_remove_directory

def FILESTAT_SET_ATIM : Nat := 0x0001
def FILESTAT_SET_MTIM : Nat := 0x0004

/-- `UtimesNano` of `fs_wasi.go`. `ts` holds the values `TimespecToNsec(ts[i])` (that
function is declared outside the files embedded here); `ts[0]` and `ts[1]` are read
after the path is resolved and panic when missing. -/
def UtimesNano (h : Host) (fuel : Nat) (st : FsState) (path : GoString) (ts : List Int) :
    Run OpResult :=
  match preparePath h.path_readlink st.wd fuel path false with
  | .panic => .panic
  | .fuelOut => .fuelOut
  | .ret (path_ptr, path_len) =>
    match ts with
    | t0 :: t1 :: _ =>
      let atim := (t0 % 2 ^ 64).toNat
      let mtim := (t1 % 2 ^ 64).toNat
      .ret ⟨errnoErr (h.path_filestat_set_times path_ptr path_len atim mtim), st,
        preparePathLog h.path_readlink st.wd fuel path false ++
          [HostCall.path_filestat_set_times rootFD 0 path_ptr path_len atim mtim
            (FILESTAT_SET_ATIM ||| FILESTAT_SET_MTIM)]⟩
    | _ => .panic

/-- The shape of `Rename` and `Link`: both paths resolved without following the final
segment, then one host import. -/
def twoPathOp (h : Host) (fuel : Nat) (st : FsState) (old new : GoString)
    (call : GoString → Nat → GoString → Nat → HostCall)
    (status : GoString → Nat → GoString → Nat → Errno) : Run OpResult :=
  match preparePath h.path_readlink st.wd fuel old false with
  | .panic => .panic
  | .fuelOut => .fuelOut
  | .ret (old_path, old_path_len) =>
    match preparePath h.path_readlink st.wd fuel new false with
    | .panic => .panic
    | .fuelOut => .fuelOut
    | .ret (new_path, new_path_len) =>
      .ret ⟨errnoErr (status old_path old_path_len new_path new_path_len), st,
        preparePathLog h.path_readlink st.wd fuel old false ++
          preparePathLog h.path_readlink st.wd fuel new false ++
          [call old_path old_path_len new_path new_path_len]⟩

/-- `Rename` of `fs_wasi.go`. -/
def Rename (h : Host) (fuel : Nat) (st : FsState) (from_ to_ : GoString) : Run OpResult :=
  twoPathOp h fuel st from_ to_
    (fun op ol np nl => HostCall.path_rename rootFD op ol rootFD np nl) h.path_rename

/-- `Link` of `fs_wasi.go`. -/
def Link (h : Host) (fuel : Nat) (st : FsState) (path link : GoString) : Run OpResult :=
  twoPathOp h fuel st path link
    (fun op ol np nl => HostCall.path_link rootFD 0 op ol rootFD np nl) h.path_link

/-- `Symlink` of `fs_wasi.go`: only `link` is resolved; `&[]byte(path)[0]` panics for an
empty `path`. -/
def Symlink (h : Host) (fuel : Nat) (st : FsState) (path link : GoString) : Run OpResult :=
  match preparePath h.path_readlink st.wd fuel link false with
  | .panic => .panic
  | .fuelOut => .fuelOut
  | .ret (new_path, new_path_len) =>
    if path = [] then .panic
    else
      .ret ⟨errnoErr (h.path_symlink path (path.length % 2 ^ 32) new_path new_path_len), st,
        preparePathLog h.path_readlink st.wd fuel link false ++
          [HostCall.path_symlink path (path.length % 2 ^ 32) rootFD new_path new_path_len]⟩

/-- What `Readlink` produces: `n`, the error, the state and the host calls. -/
structure ReadlinkResult where
  n : Int
  err : Option Errno
  state : FsState
  calls : List HostCall

/-- `Readlink` of `fs_wasi.go`; `buf` is given by its length, and `&buf[0]` panics for an
empty `buf`. -/
def Readlink (h : Host) (fuel : Nat) (st : FsState) (path : GoString) (buflen : Nat) :
    Run ReadlinkResult :=
  match preparePath h.path_readlink st.wd fuel path false with
  | .panic => .panic
  | .fuelOut => .fuelOut
  | .ret (path_ptr, path_len) =>
    if buflen = 0 then .panic
    else
      let r := h.path_readlink path_ptr (buflen % 2 ^ 32)
      .ret ⟨(r.2.length : Int), errnoErr r.1, st,
        preparePathLog h.path_readlink st.wd fuel path false ++
          [HostCall.path_readlink rootFD path_ptr path_len (buflen % 2 ^ 32)]⟩

/-- The conversion `Fd_t(fd)` of a Go `int` to `uint32`. -/
def toFd (fd : Int) : Nat := (fd % 2 ^ 32).toNat

/-- `Close` of `fs_wasi.go`. -/
def Close (h : Host) (st : FsState) (fd : Int) : OpResult :=
  ⟨errnoErr (h.fd_close (toFd fd)),
    { st with fdPaths := fun k => if k = fd then none else st.fdPaths k },
    [HostCall.fd_close (toFd fd)]⟩

/-- `Ftruncate` of `fs_wasi.go`; `Filesize_t(length)` is the `uint64` of an `int64`. -/
def Ftruncate (h : Host) (st : FsState) (fd : Int) (length : Int) : OpResult :=
  ⟨errnoErr (h.fd_filestat_set_size (toFd fd) (length % 2 ^ 64).toNat), st,
    [HostCall.fd_filestat_set_size (toFd fd) (length % 2 ^ 64).toNat]⟩

/-- The host calls of a run of `Open`: those of the path resolution, then `Path_open`. -/
def OpenCalls (fl : OpenFlags) (h : Host) (rootRightsFile : Nat) (fuel : Nat) (st : FsState)
    (path : GoString) (openmode : Int) (perm : Nat) : List HostCall :=
  if path = [] then []
  else
    preparePathLog h.path_readlink st.wd fuel
        (if path.head? ≠ some slash then st.wd ++ slash :: path else path) true ++
      match openCall (Open fl h.path_readlink h.path_open rootRightsFile fuel st path
          openmode perm) with
      | some args => [HostCall.path_open args]
      | none => []

/-- `Truncate` of `fs_wasi.go`. -/
def Truncate (fl : OpenFlags) (h : Host) (rootRightsFile : Nat) (fuel : Nat) (st : FsState)
    (path : GoString) (length : Int) : Run OpResult :=
  match Open fl h.path_readlink h.path_open rootRightsFile fuel st path (fl.O_WRONLY : Int) 0 with
  | .panic => .panic
  | .fuelOut => .fuelOut
  | .ret opened =>
    let openCalls := OpenCalls fl h rootRightsFile fuel st path (fl.O_WRONLY : Int) 0
    match opened.err with
    | some openErr => .ret ⟨some openErr, opened.state, openCalls⟩
    | none =>
      let truncated := Ftruncate h opened.state opened.fd length
      let closed := Close h truncated.state opened.fd
      .ret ⟨match truncated.err with
            | some truncateErr => some truncateErr
            | none => closed.err,
        closed.state, openCalls ++ truncated.calls ++ closed.calls⟩

/-- `Getwd` of `fs_wasi.go`. -/
def Getwd (st : FsState) : GoString × Option Errno := (st.wd, none)

/-- `Chdir` of `fs_wasi.go`; `path[0]` panics for an empty path. -/
def Chdir (h : Host) (fuel : Nat) (st : FsState) (path : GoString) : Run OpResult :=
  match path with
  | [] => .panic
  | c :: _ =>
    let path := if c ≠ slash then st.wd ++ slash :: path else path
    match Stat h fuel st path with
    | .panic => .panic
    | .fuelOut => .fuelOut
    | .ret r =>
      match r.err with
      | some err => .ret ⟨some err, st, r.calls⟩
      | none => .ret ⟨none, { st with wd := path }, r.calls⟩

/-- `Fchdir` of `fs_wasi.go`; a map lookup of a missing key gives the empty string. -/
def Fchdir (st : FsState) (fd : Int) : OpResult :=
  ⟨none, { st with wd := (st.fdPaths fd).getD [] }, []⟩

def WHENCE_CUR : Nat := 0
def WHENCE_END : Nat := 1
def WHENCE_SET : Nat := 2

/-- `io.SeekStart`, `io.SeekCurrent` and `io.SeekEnd` of package `io`. -/
def SeekStart : Int := 0
def SeekCurrent : Int := 1
def SeekEnd : Int := 2

/-- The conversion `int64(v)` of a `uint64`. -/
def toInt64 (v : Nat) : Int :=
  if v % 2 ^ 64 < 2 ^ 63 then (v % 2 ^ 64 : Nat) else ((v % 2 ^ 64 : Nat) : Int) - 2 ^ 64

/-- What `Seek` produces: the new offset, the error and the host calls. -/
structure SeekResult where
  offset : Int
  err : Option Errno
  calls : List HostCall
  deriving DecidableEq, Repr

/-- `Seek` of `fs_wasi.go`. -/
def Seek (h : Host) (fd : Int) (offset : Int) (whence : Int) : SeekResult :=
  let wasiWhence : Option Nat :=
    if whence = SeekStart then some WHENCE_SET
    else if whence = SeekCurrent then some WHENCE_CUR
    else if whence = SeekEnd then some WHENCE_END
    else none
  match wasiWhence with
  | none => ⟨0, errnoErr EINVAL, []⟩
  | some w =>
    let r := h.fd_seek (toFd fd) offset w
    ⟨toInt64 r.2, errnoErr r.1, [HostCall.fd_seek (toFd fd) offset w]⟩

/-- A host without symlinks on which every other import succeeds; `Path_open` gives
descriptor 4 and `Fd_seek` the offset 0. -/
def okHost : Host :=
  { path_readlink := noLinks, path_open := openOk, fd_close := fun _ => 0,
    fd_filestat_set_size := fun _ _ => 0, fd_seek := fun _ _ _ => (0, 0),
    path_filestat_get := fun _ _ => 0, path_create_directory := fun _ _ => 0,
    path_remove_directory := fun _ _ => 0, path_unlink_file := fun _ _ => 0,
    path_rename := fun _ _ _ _ => 0, path_link := fun _ _ _ _ => 0,
    path_symlink := fun _ _ _ _ => 0, path_filestat_set_times := fun _ _ _ _ => 0 }

/-- The package state with working directory `"/w"` and no descriptor recorded. -/
def wState : FsState := { wd := str "/w", fdPaths := fun _ => none }

/-- A host whose `Path_open` fails with `ENOENT` and leaves `fd` at its zero value. -/
def openMissing : OpenHost := fun _ => (ENOENT, 0)

/-- The package state with working directory `"/w"` and descriptor 5 recorded as `"/d"`. -/
def dState : FsState :=
  { wd := str "/w", fdPaths := fun k => if k = 5 then some (str "/d") else none }

/-- The call is one of `Path_readlink`. -/
def isReadlinkCall : HostCall → Bool
  | .path_readlink _ _ _ _ => true
  | _ => false

/-- The call is one of `Path_open`. -/
def isOpenCall : HostCall → Bool
  | .path_open _ => true
  | _ => false

/-- The result of `Open("f", O_WRONLY, 0)` on `okHost` from `wState`. -/
def openedWF : OpenResult :=
  { fd := 4, err := none,
    state := { wd := str "/w", fdPaths := fun k => if k = 4 then some (str "/w/f") else none },
    call := some { rootFD := 3, dirflags := 0, path := str "./w/f", path_len := 5, oflags := 0,
                   fs_rights_base := 0x1FFFBFFD, fs_rights_inheriting := 0x1FFFFFFF,
                   fs_flags := 0 } }

/-- A host that serves the directory `es` at the start cookie and fails every later read
with the status `errno`. -/
def failingHost (es : List Dirent) (errno : Errno) : ReaddirHost := fun buflen c =>
  if c = 0 then dirHost es buflen c else (errno, [])

/-! ### Operations that are not implemented -/

/-- `Chmod` of `fs_wasi.go`: `return ENOSYS`. -/
def Chmod (_h : Host) (st : FsState) (_path : GoString) (_mode : Nat) : OpResult :=
  ⟨some ENOSYS, st, []⟩

/-- `Fchmod` of `fs_wasi.go`. -/
def Fchmod (_h : Host) (st : FsState) (_fd : Int) (_mode : Nat) : OpResult :=
  ⟨some ENOSYS, st, []⟩

/-- `Chown` of `fs_wasi.go`. -/
def Chown (_h : Host) (st : FsState) (_path : GoString) (_uid _gid : Int) : OpResult :=
  ⟨some ENOSYS, st, []⟩

/-- `Fchown` of `fs_wasi.go`. -/
def Fchown (_h : Host) (st : FsState) (_fd _uid _gid : Int) : OpResult :=
  ⟨some ENOSYS, st, []⟩

/-- `Lchown` of `fs_wasi.go`. -/
def Lchown (_h : Host) (st : FsState) (_path : GoString) (_uid _gid : Int) : OpResult :=
  ⟨some ENOSYS, st, []⟩

/-- `Dup` of `fs_wasi.go`: `return 0, ENOSYS`. -/
def Dup (_h : Host) (st : FsState) (_fd : Int) : Int × OpResult :=
  (0, ⟨some ENOSYS, st, []⟩)

/-- `Dup2` of `fs_wasi.go`. -/
def Dup2 (_h : Host) (st : FsState) (_fd _newfd : Int) : OpResult :=
  ⟨some ENOSYS, st, []⟩

/-- `Pipe` of `fs_wasi.go`. -/
def Pipe (_h : Host) (st : FsState) (_fd : List Int) : OpResult :=
  ⟨some ENOSYS, st, []⟩

/-- `Fsync` of `fs_wasi.go`. -/
def Fsync (_h : Host) (st : FsState) (_fd : Int) : OpResult :=
  ⟨some ENOSYS, st, []⟩

/-- `ReadDirent` of `fs_wasi.go`: `return 0, ENOSYS`. -/
def ReadDirent (_h : Host) (st : FsState) (_fd : Int) (_buf : List Byte) : Int × OpResult :=
  (0, ⟨some ENOSYS, st, []⟩)

/-! ### `itoa` of `zoneinfo_wasi.go` -/

/-- `smallsString` of `zoneinfo_wasi.go`. -/
def smallsString : GoString :=
  str ("00010203040506070809" ++
    "10111213141516171819" ++
    "20212223242526272829" ++
    "30313233343536373839" ++
    "40414243444546474849" ++
    "50515253545556575859" ++
    "60616263646566676869" ++
    "70717273747576777879" ++
    "80818283848586878889" ++
    "90919293949596979899")

/-- `digits` of `zoneinfo_wasi.go`. -/
def digits : GoString := str "0123456789"

/-- The value of a Go `int` expression (64-bit two's complement) whose mathematical
value is `i`. -/
def wrapInt (i : Int) : Int := (i + 2 ^ 63) % 2 ^ 64 - 2 ^ 63

/-- The slice expression `s[lo:hi]` of a string: it panics unless
`0 ≤ lo ≤ hi ≤ len(s)`. -/
def sliceStr (s : GoString) (lo hi : Int) : Run GoString :=
  if 0 ≤ lo ∧ lo ≤ hi ∧ hi ≤ (s.length : Int) then .ret ((s.take hi.toNat).drop lo.toNat)
  else .panic

/-- `itoa` of `zoneinfo_wasi.go`. -/
def itoa (i : Int) : Run GoString :=
  if i < 10 then sliceStr digits i (wrapInt (i + 1))
  else sliceStr smallsString (wrapInt (i * 2)) (wrapInt (wrapInt (i * 2) + 2))

/-- The decimal representation of a natural number, most significant digit first and
without a leading zero: what `strconv.Itoa` gives for a non-negative argument. -/
def decimalRepr (n : Nat) : GoString := (Nat.toDigits 10 n).map (fun c => c.toNat.toUInt8)

/-! ### Hosts that break the loops -/

/-- A host on which every `Path_readlink` succeeds and reports zero bytes used. -/
def emptyTarget : ReadlinkHost := fun _ _ => (0, [])

/-- A record header whose name-length field holds `2^32 - 24` (bytes `E8 FF FF FF`);
next-cookie 1, serial number 10, type tag 4. -/
def wrapRecord : List Byte := le 8 1 ++ (le 8 10 ++ (le 4 (2 ^ 32 - 24) ++ le 4 4))

/-- A host whose directory reads write `wrapRecord`. -/
def wrapHost : ReaddirHost := fun _ _ => (0, wrapRecord)

/-- The little-endian value of a byte sequence: `b₀ + 2^8·b₁ + 2^16·b₂ + ...`. -/
def leValue : List Byte → Nat
  | [] => 0
  | b :: bs => b.toNat + 256 * leValue bs

/-- The host `okHost` with one symlink, `link`, whose target is `target`. -/
def linkHost (link target : GoString) : Host :=
  { okHost with path_readlink := oneLink link target }

/-- The `Path_readlink` call of the helper `readlink` in round `j`, with a buffer of
`128 * 2^j` bytes. -/
def readlinkCall (path : GoString) (j : Nat) : HostCall :=
  HostCall.path_readlink rootFD path (path.length % 2 ^ 32) (128 * 2 ^ j)

/-! ## Theorems -/

/-! ### Path resolver -/

theorem errnoErr_ne_none {e : Errno} (h : e ≠ 0) : ∃ e', errnoErr e = some e' := by
  unfold errnoErr
  simp only [h, if_false]
  split_ifs <;> exact ⟨_, rfl⟩

theorem readlink_notLink {host : ReadlinkHost} {p : GoString} (h : notLink host p)
    (hp : p ≠ []) : ∃ e, readlink host p = .ret ([], some e) := by
  obtain ⟨e, he⟩ := errnoErr_ne_none (h 128)
  refine ⟨e, ?_⟩
  have h128 := h 128
  simp only [readlink, readlinkLoop, hp, if_false]
  simp [h128, he]

theorem expandLoop_notLink {host : ReadlinkHost} {acc : GoString}
    (h : notLink host (dot :: acc)) (fuel : Nat) :
    expandLoop host (fuel + 1) acc = .ret acc := by
  obtain ⟨e, he⟩ := readlink_notLink h (by simp)
  simp [expandLoop, he]

theorem joinSegs_nil : joinSegs [] = [] := rfl

theorem joinSegs_cons (seg : GoString) (segs : List GoString) :
    joinSegs (seg :: segs) = slash :: seg ++ joinSegs segs := by
  simp [joinSegs]

theorem joinSegs_append (xs ys : List GoString) :
    joinSegs (xs ++ ys) = joinSegs xs ++ joinSegs ys := by
  simp [joinSegs]

/-- Walking segments none of whose accumulated paths is a symlink only concatenates. -/
theorem walkParts_notLink (host : ReadlinkHost) (follow : Bool) (fuel : Nat) :
    ∀ (parts : List GoString) (acc : GoString),
      (∀ k, 0 < k → k ≤ parts.length → (k < parts.length ∨ follow = true) →
        notLink host (dot :: (acc ++ joinSegs (parts.take k)))) →
      walkParts host follow (fuel + 1) parts acc = .ret (acc ++ joinSegs parts) := by
  intro parts
  induction parts with
  | nil => intro acc _; simp [walkParts, joinSegs_nil]
  | cons part rest ih =>
    intro acc h
    rw [walkParts]
    by_cases hlast : (rest.isEmpty && !follow) = true
    · simp only [hlast, if_true]
      have : rest = [] := by
        simp only [Bool.and_eq_true, List.isEmpty_iff] at hlast
        exact hlast.1
      subst this
      simp [joinSegs_cons, joinSegs_nil]
    · simp only [hlast]
      have h1 : notLink host (dot :: (acc ++ slash :: part)) := by
        have := h 1 (by decide) (by simp) (by
          cases rest with
          | nil => right; simpa using hlast
          | cons r rs => left; simp)
        simpa [joinSegs_cons, joinSegs_nil] using this
      rw [expandLoop_notLink h1]
      simp only [Bool.false_eq_true, if_false]
      rw [ih (acc ++ slash :: part), joinSegs_cons]
      · simp
      · intro k hk hk' hk''
        have := h (k + 1) (by omega) (by simpa using hk') (by
          rcases hk'' with h' | h'
          · left; simpa using h'
          · right; exact h')
        simpa [joinSegs_cons] using this

theorem split_ne_nil (sep : Byte) (s : GoString) : split sep s ≠ [] := by
  cases s with
  | nil => simp [split]
  | cons c cs =>
    rw [split]
    split_ifs
    · simp
    · split <;> simp

/-- Splitting on `'/'` and putting a `'/'` before every piece gives `"/" + s` back. -/
theorem joinSegs_split (s : GoString) : joinSegs (split slash s) = slash :: s := by
  induction s with
  | nil => simp [split, joinSegs]
  | cons c cs ih =>
    rw [split]
    split_ifs with hc
    · rw [joinSegs_cons, ih, hc]; simp
    · cases hs : split slash cs with
      | nil => exact absurd hs (split_ne_nil _ _)
      | cons p ps =>
        rw [hs, joinSegs_cons] at ih
        simp only [joinSegs_cons]
        simp only [List.cons_append, List.cons.injEq, true_and] at ih ⊢
        exact ih

/-- C1: for an absolute path `p` and a host on which every readlink fails,
`preparePath(p, follow)` returns the bytes `"." + p` and the length `1 + len(p)`, for both
values of `follow` (whenever the inner loop may run at least once). The length is a
`size_t`; Go strings of this 32-bit target are shorter than `2^32` bytes. -/
theorem preparePath_absolute_no_symlink (host : ReadlinkHost) (wd p : GoString)
    (follow : Bool) (fuel : Nat)
    (habs : p.head? = some slash)
    (hfail : ∀ q n, (host q n).1 ≠ 0)
    (hlen : 1 + p.length < 2 ^ 32) :
    preparePath host wd (fuel + 1) p follow = .ret (dot :: p, 1 + p.length) := by
  cases p with
  | nil => simp at habs
  | cons c q =>
    simp only [List.head?_cons, Option.some.injEq] at habs
    subst habs
    have hw := walkParts_notLink host follow fuel (split slash q) []
      (fun k _ _ _ n => hfail _ n)
    have hd : List.drop 1 (slash :: q) = q := rfl
    simp only [preparePath, List.head?_cons, ne_eq, not_true_eq_false, or_false]
    rw [if_neg (by simp), hd, hw, List.nil_append, joinSegs_split]
    simp only [Run.ret.injEq, Prod.mk.injEq, true_and]
    exact Nat.mod_eq_of_lt hlen

/-- C1, at the path `"/a//b/"` (an empty segment and a trailing separator). -/
theorem preparePath_absolute_no_symlink_witness :
    preparePath noLinks (str "/w") 1 (str "/a//b/") true
      = .ret (dot :: str "/a//b/", 1 + (str "/a//b/").length) :=
  preparePath_absolute_no_symlink noLinks (str "/w") (str "/a//b/") true 0
    (by decide) (fun _ _ => by simp [noLinks, ENOENT]) (by decide)

/-- C2 as stated fails: with the working directory `"w"` (not absolute), the relative
path `"p"` resolves to `".//p"` while `"w/p"` resolves to `".//w/p"`. -/
theorem preparePath_relative_counterexample :
    isRelative (str "p") ∧
    preparePath noLinks (str "w") 1 (str "p") false = .ret (str ".//p", 4) ∧
    preparePath noLinks (str "w") 1 (str "w" ++ slash :: str "p") false
      = .ret (str ".//w/p", 6) ∧
    preparePath noLinks (str "w") 1 (str "p") false
      ≠ preparePath noLinks (str "w") 1 (str "w" ++ slash :: str "p") false := by
  decide

/-- C2 (amended): when the working directory is empty or absolute, every relative path
`p` resolves exactly as `wd + "/" + p` does, for every host, both follow values and every
amount of fuel (so the two calls also agree on panicking and on not terminating). -/
theorem preparePath_relative (host : ReadlinkHost) (wd p : GoString) (follow : Bool)
    (fuel : Nat) (hwd : wd = [] ∨ wd.head? = some slash) (hrel : isRelative p) :
    preparePath host wd fuel p follow
      = preparePath host wd fuel (wd ++ slash :: p) follow := by
  have hhead : (wd ++ slash :: p).head? = some slash := by
    rcases hwd with h | h
    · subst h; simp
    · cases wd with
      | nil => simp
      | cons c cs => simpa using h
  have hne : wd ++ slash :: p ≠ [] := by simp
  unfold isRelative at hrel
  simp only [preparePath, if_pos hrel, hhead, ne_eq, not_true_eq_false, or_false, hne,
    if_false]

/-- C2 (amended), at the working directory `"/w"` and the relative path `"p"`. -/
theorem preparePath_relative_witness :
    preparePath noLinks (str "/w") 1 (str "p") true
      = preparePath noLinks (str "/w") 1 (str "/w" ++ slash :: str "p") true :=
  preparePath_relative noLinks (str "/w") (str "p") true 1 (by decide) (by decide)

theorem split_of_not_mem {s : GoString} (h : slash ∉ s) : split slash s = [s] := by
  induction s with
  | nil => rfl
  | cons c cs ih =>
    simp only [List.mem_cons, not_or] at h
    rw [split, if_neg (fun hc => h.1 hc.symm), ih h.2]

theorem split_append_slash {s : GoString} (h : slash ∉ s) (t : GoString) :
    split slash (s ++ slash :: t) = s :: split slash t := by
  induction s with
  | nil => simp [split]
  | cons c cs ih =>
    simp only [List.mem_cons, not_or] at h
    rw [List.cons_append, split, if_neg (fun hc => h.1 hc.symm), ih h.2]

/-- Splitting the text of slash-free segments gives the segments back. -/
theorem split_joinSegs (seg : GoString) (segs : List GoString)
    (h : ∀ x ∈ seg :: segs, slash ∉ x) :
    split slash ((joinSegs (seg :: segs)).drop 1) = seg :: segs := by
  induction segs generalizing seg with
  | nil =>
    simp only [joinSegs_cons, joinSegs_nil, List.append_nil, List.cons_append,
      List.drop_succ_cons, List.drop_zero]
    exact split_of_not_mem (h seg (by simp))
  | cons x xs ih =>
    have hx := ih x (fun y hy => h y (List.mem_cons_of_mem _ hy))
    rw [joinSegs_cons] at hx ⊢
    simp only [List.cons_append, List.drop_succ_cons, List.drop_zero] at hx ⊢
    rw [joinSegs_cons, List.cons_append, split_append_slash (h seg (by simp)), hx]

theorem lastIndexFrom_of_not_mem {c : Byte} {s : GoString} (h : c ∉ s) (i : Nat)
    (last : Int) : lastIndexFrom c s i last = last := by
  induction s generalizing i last with
  | nil => rfl
  | cons b bs ih =>
    simp only [List.mem_cons, not_or] at h
    rw [lastIndexFrom, if_neg (fun hb => h.1 hb.symm), ih h.2]

theorem lastIndexFrom_append (c : Byte) (a b : GoString) (i : Nat) (last : Int) :
    lastIndexFrom c (a ++ b) i last
      = lastIndexFrom c b (i + a.length) (lastIndexFrom c a i last) := by
  induction a generalizing i last with
  | nil => simp [lastIndexFrom]
  | cons x xs ih =>
    rw [List.cons_append, lastIndexFrom, lastIndexFrom, ih, List.length_cons]
    congr 1
    omega

/-- The last `'/'` of `pre + "/" + s`, for a slash-free `s`, is the one written out. -/
theorem lastIndexByte_append_slash (pre : GoString) {s : GoString} (h : slash ∉ s) :
    lastIndexByte (pre ++ slash :: s) slash = (pre.length : Int) := by
  rw [lastIndexByte, lastIndexFrom_append, lastIndexFrom, if_pos rfl,
    lastIndexFrom_of_not_mem h]
  simp

/-- The helper `readlink` returns the whole target of a symlink shorter than `2^31`. -/
theorem readlinkLoop_target (host : ReadlinkHost) (link t : GoString) (hl : link ≠ [])
    (hlink : ∀ n, host link n = (0, t.take n)) (ht : t.length < 2 ^ 31) :
    ∀ fuel k, k ≤ 24 → 25 ≤ fuel + k →
      readlinkLoop host link fuel (128 * 2 ^ k) = .ret (t, none) := by
  intro fuel
  induction fuel with
  | zero => intro k h1 h2; omega
  | succ fuel ih =>
    intro k hk hf
    have hpos : 0 < 2 ^ k := Nat.pow_pos (by decide)
    have hne : 128 * 2 ^ k ≠ 0 := by omega
    rw [readlinkLoop, if_neg hl, if_neg hne]
    simp only [hlink, ne_eq, not_true_eq_false, if_false, List.length_take]
    by_cases hlt : t.length < 128 * 2 ^ k
    · rw [if_pos (by omega), List.take_of_length_le (by omega)]
    · rw [if_neg (by omega)]
      have h24 : (2 : Nat) ^ 24 = 16777216 := by norm_num
      have h31 : (2 : Nat) ^ 31 = 2147483648 := by norm_num
      have hk' : k < 24 := by
        by_contra hc
        have : k = 24 := by omega
        subst this
        omega
      have hle : 2 ^ (k + 1) ≤ 2 ^ 24 := Nat.pow_le_pow_right (by decide) (by omega)
      have hmod : 128 * 2 ^ k * 2 % 2 ^ 32 = 128 * 2 ^ (k + 1) := by
        have hs : (2 : Nat) ^ (k + 1) = 2 ^ k * 2 := pow_succ 2 k
        rw [hs] at hle ⊢
        rw [Nat.mod_eq_of_lt (by norm_num; omega)]
        omega
      rw [hmod]
      exact ih (k + 1) (by omega) (by omega)

theorem readlink_target (host : ReadlinkHost) (link t : GoString) (hl : link ≠ [])
    (hlink : ∀ n, host link n = (0, t.take n)) (ht : t.length < 2 ^ 31) :
    readlink host link = .ret (t, none) := by
  have := readlinkLoop_target host link t hl hlink ht 26 0 (by decide) (by decide)
  simpa [readlink] using this

theorem joinSegs_length_take_le (segs : List GoString) (k : Nat) :
    (joinSegs (segs.take k)).length ≤ (joinSegs segs).length := by
  conv_rhs => rw [← List.take_append_drop k segs, joinSegs_append]
  simp

/-- Leading segments whose accumulated paths are no symlinks are only concatenated. -/
theorem walkParts_prefix (host : ReadlinkHost) (follow : Bool) (fuel : Nat)
    (more : List GoString) (hmore : more ≠ []) :
    ∀ (ds : List GoString) (acc : GoString),
      (∀ k, 0 < k → k ≤ ds.length →
        notLink host (dot :: (acc ++ joinSegs (ds.take k)))) →
      walkParts host follow (fuel + 1) (ds ++ more) acc
        = walkParts host follow (fuel + 1) more (acc ++ joinSegs ds) := by
  intro ds
  induction ds with
  | nil => intro acc _; simp [joinSegs_nil]
  | cons d ds ih =>
    intro acc h
    rw [List.cons_append, walkParts]
    have hne : (ds ++ more).isEmpty = false := by
      cases ds <;> cases more <;> simp_all
    have h1 : notLink host (dot :: (acc ++ slash :: d)) := by
      have := h 1 (by decide) (by simp)
      simpa [joinSegs_cons, joinSegs_nil] using this
    simp only [hne, Bool.false_and, Bool.false_eq_true, if_false]
    rw [expandLoop_notLink h1]
    simp only
    rw [ih (acc ++ slash :: d), joinSegs_cons]
    · simp
    · intro k hk hk'
      have := h (k + 1) (by omega) (by simpa using hk')
      simpa [joinSegs_cons] using this

/-- One substitution: the accumulated path `pre + "/" + s` is the only symlink, and the
path its target stands for is no symlink. -/
theorem expandLoop_oneLink (host : ReadlinkHost) (pre s t : GoString) (fuel : Nat)
    (hs : slash ∉ s)
    (hlink : ∀ n, host (dot :: (pre ++ slash :: s)) n = (0, t.take n))
    (hother : ∀ q, q ≠ dot :: (pre ++ slash :: s) → notLink host q)
    (ht : t ≠ []) (htlen : t.length < 2 ^ 31)
    (hT : substituted pre t ≠ pre ++ slash :: s) :
    expandLoop host (fuel + 2) (pre ++ slash :: s) = .ret (substituted pre t) := by
  have hrl := readlink_target host (dot :: (pre ++ slash :: s)) t (by simp) hlink htlen
  have hnl : notLink host (dot :: substituted pre t) :=
    hother _ (by simpa using hT)
  cases t with
  | nil => exact absurd rfl ht
  | cons d0 t' =>
    rw [expandLoop, hrl]
    simp only
    by_cases hd : d0 = slash
    · subst hd
      have hsub : substituted pre (slash :: t') = slash :: t' := by simp [substituted]
      rw [hsub] at hnl ⊢
      simp only [ne_eq, not_true_eq_false, if_false]
      exact expandLoop_notLink hnl fuel
    · have hsub : substituted pre (d0 :: t') = pre ++ slash :: d0 :: t' := by
        simp [substituted, hd]
      rw [hsub] at hnl ⊢
      simp only [ne_eq, hd, not_false_eq_true, if_true, lastIndexByte_append_slash pre hs]
      rw [if_neg (by omega)]
      simp only [Int.toNat_ofNat, List.take_left]
      exact expandLoop_notLink hnl fuel

/-- C3 (amended): the accumulated path `"." + pre + "/" + s` of a non-final segment `s`
is the only symlink of the host (`pre` is the text `"/d₁/.../dₙ"` of the segments `ds`
before it), its target `t` is non-empty and shorter than `2^31` bytes, and no path
accumulated after the substitution is that symlink again. Then `preparePath` of
`pre + "/" + s + "/" + rest` without following the final segment returns
`"." + t + "/" + rest` for an absolute `t` and `"." + pre + "/" + t + "/" + rest` for a
relative `t`, `rest` being the remaining segments `r :: rs`. -/
theorem preparePath_symlink_substitution (host : ReadlinkHost) (wd : GoString)
    (ds : List GoString) (s t r : GoString) (rs : List GoString) (fuel : Nat)
    (hseg : ∀ x ∈ ds ++ s :: r :: rs, slash ∉ x)
    (hlink : ∀ n, host (dot :: (joinSegs ds ++ slash :: s)) n = (0, t.take n))
    (hother : ∀ q, q ≠ dot :: (joinSegs ds ++ slash :: s) → notLink host q)
    (ht : t ≠ []) (htlen : t.length < 2 ^ 31)
    (hagain : ∀ k, k ≤ rs.length →
      substituted (joinSegs ds) t ++ joinSegs ((r :: rs).take k)
        ≠ joinSegs ds ++ slash :: s) :
    (t.head? = some slash →
      preparePath host wd (fuel + 2) (joinSegs (ds ++ s :: r :: rs)) false
        = .ret (dot :: (t ++ joinSegs (r :: rs)),
            (1 + (t ++ joinSegs (r :: rs)).length) % 2 ^ 32)) ∧
    (t.head? ≠ some slash →
      preparePath host wd (fuel + 2) (joinSegs (ds ++ s :: r :: rs)) false
        = .ret (dot :: (joinSegs ds ++ slash :: t ++ joinSegs (r :: rs)),
            (1 + (joinSegs ds ++ slash :: t ++ joinSegs (r :: rs)).length) % 2 ^ 32)) := by
  have hs : slash ∉ s := hseg s (by simp)
  -- the path is absolute and splits into its segments
  obtain ⟨x, xs, hx⟩ : ∃ x xs, ds ++ s :: r :: rs = x :: xs := by
    cases ds with
    | nil => exact ⟨_, _, rfl⟩
    | cons d ds => exact ⟨_, _, rfl⟩
  have hsplit : split slash ((joinSegs (ds ++ s :: r :: rs)).drop 1) = ds ++ s :: r :: rs := by
    rw [hx]
    exact split_joinSegs x xs (by rw [← hx]; exact hseg)
  have habs : ¬ (joinSegs (ds ++ s :: r :: rs) = [] ∨
      (joinSegs (ds ++ s :: r :: rs)).head? ≠ some slash) := by
    rw [hx, joinSegs_cons]; simp
  -- the segments before `s`
  have hpre : walkParts host false (fuel + 2) (ds ++ s :: r :: rs) []
      = walkParts host false (fuel + 2) (s :: r :: rs) ([] ++ joinSegs ds) := by
    apply walkParts_prefix host false (fuel + 1) (s :: r :: rs) (by simp) ds []
    intro k _ _
    apply hother
    intro hc
    have hlen := congrArg List.length hc
    have := joinSegs_length_take_le ds k
    simp only [List.nil_append, List.length_cons, List.length_append] at hlen
    omega
  -- the symlink itself
  have hexp := expandLoop_oneLink host (joinSegs ds) s t fuel hs hlink hother ht htlen
    (by simpa [joinSegs_nil] using hagain 0 (Nat.zero_le _))
  -- the segments after it
  have hrest : walkParts host false (fuel + 2) (r :: rs) (substituted (joinSegs ds) t)
      = .ret (substituted (joinSegs ds) t ++ joinSegs (r :: rs)) := by
    apply walkParts_notLink host false (fuel + 1)
    intro k _ hk hk'
    apply hother
    have hk'' : k ≤ rs.length := by
      rcases hk' with h | h
      · simpa [Nat.lt_succ_iff] using h
      · exact absurd h (by decide)
    simpa using hagain k hk''
  have hwalk : walkParts host false (fuel + 2) (ds ++ s :: r :: rs) []
      = .ret (substituted (joinSegs ds) t ++ joinSegs (r :: rs)) := by
    rw [hpre, walkParts]
    simp only [List.nil_append, List.isEmpty_cons, Bool.false_and, Bool.false_eq_true,
      if_false]
    rw [hexp]
    exact hrest
  have hmain : preparePath host wd (fuel + 2) (joinSegs (ds ++ s :: r :: rs)) false
      = .ret (dot :: (substituted (joinSegs ds) t ++ joinSegs (r :: rs)),
          (1 + (substituted (joinSegs ds) t ++ joinSegs (r :: rs)).length) % 2 ^ 32) := by
    simp only [preparePath, if_neg habs, hsplit, hwalk]
  constructor
  · intro h
    rw [hmain]
    simp [substituted, h]
  · intro h
    rw [hmain]
    simp [substituted, h]

/-- C3 (amended), at the scenario of the specification: `"/a"` is a symlink to `"/x"`
and `preparePath("/a/b", false)` is `("./x/b", 5)`. -/
theorem preparePath_symlink_substitution_witness :
    preparePath (oneLink (str "./a") (str "/x")) (str "/w") 2 (str "/a/b") false
      = .ret (str "./x/b", 5) :=
  (preparePath_symlink_substitution (oneLink (str "./a") (str "/x")) (str "/w")
    [] (str "a") (str "/x") (str "b") [] 0
    (by decide)
    (fun n => by
      have h : dot :: (joinSegs [] ++ slash :: str "a") = str "./a" := by decide
      rw [h]; simp [oneLink])
    (fun q hq n => by
      have h : dot :: (joinSegs [] ++ slash :: str "a") = str "./a" := by decide
      rw [h] at hq
      simp [oneLink, hq, EINVAL])
    (by decide) (by decide)
    (fun k hk => by
      have : k = 0 := by simpa using hk
      subst this
      decide)).1 (by decide)

theorem expandLoop_selfLink (fuel : Nat) :
    expandLoop (oneLink (str "./d/s") (str "/d/s")) fuel (str "/d/s") = .fuelOut := by
  induction fuel with
  | zero => rfl
  | succ fuel ih =>
    have hrl : readlink (oneLink (str "./d/s") (str "/d/s")) (dot :: str "/d/s")
        = .ret (str "/d/s", none) := by decide
    have hstr : str "/d/s" = slash :: str "d/s" := by decide
    rw [expandLoop, hrl]
    simp only
    rw [hstr]
    simp only [ne_eq, not_true_eq_false, if_false]
    rw [← hstr]
    exact ih

/-- C3 as stated fails when the target leads back to the symlink: with `"./d/s"` the
only symlink and its (absolute) target `"/d/s"`, `preparePath("/d/s/rest", false)` does
not return `"./d/s/rest"`; it returns nothing, whatever the fuel. -/
theorem preparePath_symlink_counterexample :
    (str "/d/s").head? = some slash ∧
    ¬ ∃ fuel out, preparePath (oneLink (str "./d/s") (str "/d/s")) (str "/") fuel
        (str "/d/s/rest") false = .ret out := by
  refine ⟨by decide, ?_⟩
  rintro ⟨fuel, out, h⟩
  have hsplit : split slash ((str "/d/s/rest").drop 1) = [str "d", str "s", str "rest"] := by
    decide
  have habs : ¬ (str "/d/s/rest" = [] ∨ (str "/d/s/rest").head? ≠ some slash) := by decide
  simp only [preparePath, if_neg habs, hsplit] at h
  cases fuel with
  | zero => simp [walkParts, expandLoop] at h
  | succ fuel =>
    have hd : notLink (oneLink (str "./d/s") (str "/d/s")) (dot :: ([] ++ slash :: str "d")) := by
      intro n
      have hne : dot :: ([] ++ slash :: str "d") ≠ str "./d/s" := by decide
      rw [oneLink, if_neg hne]
      decide
    have hds : ([] : GoString) ++ slash :: str "d" ++ slash :: str "s" = str "/d/s" := by
      decide
    have hw : walkParts (oneLink (str "./d/s") (str "/d/s")) false (fuel + 1)
        [str "d", str "s", str "rest"] [] = .fuelOut := by
      rw [walkParts]
      simp only [List.isEmpty_cons, Bool.false_and, Bool.false_eq_true, if_false]
      rw [expandLoop_notLink hd]
      simp only
      rw [walkParts]
      simp only [List.isEmpty_cons, Bool.false_and, Bool.false_eq_true, if_false]
      rw [hds, expandLoop_selfLink]
    rw [hw] at h
    simp at h

/-! ### Open rights -/

theorem testBit_false_of_lt_two_pow {b i : Nat} (hb : b < 2 ^ 64) (hi : 64 ≤ i) :
    b.testBit i = false :=
  Nat.testBit_lt_two_pow (lt_of_lt_of_le hb (Nat.pow_le_pow_right (by decide) hi))

/-- Clearing the bits of `m` leaves none of the bits of a mask `b` contained in `m`. -/
theorem bitClear_and_eq_zero (x m b : Nat) (hbm : b &&& m = b) (hb : b < 2 ^ 64) :
    bitClear x m &&& b = 0 := by
  apply Nat.eq_of_testBit_eq
  intro i
  have hbi := congrArg (fun n => n.testBit i) hbm
  simp only [Nat.testBit_and] at hbi
  simp only [bitClear, Nat.testBit_and, Nat.testBit_xor, Nat.testBit_two_pow_sub_one,
    Nat.zero_testBit]
  by_cases hi : i < 64
  · cases hbt : b.testBit i
    · simp
    · rw [hbt] at hbi
      simp only [Bool.true_and] at hbi
      simp [hbi, hi]
  · simp [testBit_false_of_lt_two_pow (i := i) hb (by omega)]

/-- Clearing bits never adds one: the result is a bitwise subset of the input. -/
theorem bitClear_subset (x m : Nat) (hx : x < 2 ^ 64) : bitClear (bitClear x m) x = 0 := by
  apply Nat.eq_of_testBit_eq
  intro i
  simp only [bitClear, Nat.testBit_and, Nat.testBit_xor, Nat.testBit_two_pow_sub_one,
    Nat.zero_testBit]
  by_cases hi : i < 64
  · cases x.testBit i <;> simp [hi]
  · simp [testBit_false_of_lt_two_pow (i := i) hx (by omega)]

theorem bitClear_self (x : Nat) (hx : x < 2 ^ 64) : bitClear x x = 0 := by
  apply Nat.eq_of_testBit_eq
  intro i
  simp only [bitClear, Nat.testBit_and, Nat.testBit_xor, Nat.testBit_two_pow_sub_one,
    Nat.zero_testBit]
  by_cases hi : i < 64
  · cases x.testBit i <;> simp [hi]
  · simp [testBit_false_of_lt_two_pow (i := i) hx (by omega)]

/-- The `Path_open` call of `Open`, when one is made, carries `openRights` as base
rights and `rootRightsFile` as inheriting rights. -/
theorem Open_call_rights {fl : OpenFlags} {rl : ReadlinkHost} {po : OpenHost} {R fuel : Nat}
    {st : FsState} {path : GoString} {openmode : Int} {perm : Nat} {res : OpenResult}
    {args : PathOpenArgs}
    (hres : Open fl rl po R fuel st path openmode perm = .ret res)
    (hcall : res.call = some args) :
    args.fs_rights_base = openRights fl R openmode ∧ args.fs_rights_inheriting = R := by
  unfold Open at hres
  by_cases hp : path = []
  · rw [if_pos hp] at hres
    cases hres
    simp at hcall
  · rw [if_neg hp] at hres
    dsimp only at hres
    split at hres
    · cases hres
    · cases hres
    · cases hres
      simp only [Option.some.injEq] at hcall
      subst hcall
      exact ⟨rfl, rfl⟩

/-- C8: when the open mode has the `O_WRONLY` bit, the base rights `Open` passes to
`Path_open` contain neither `RIGHT_FD_READ` nor `RIGHT_FD_READDIR`, whatever the root
file rights are. -/
theorem Open_wronly_rights (fl : OpenFlags) (rl : ReadlinkHost) (po : OpenHost)
    (R fuel : Nat) (st : FsState) (path : GoString) (openmode : Int) (perm : Nat)
    (res : OpenResult) (args : PathOpenArgs)
    (hw : intBits openmode &&& fl.O_WRONLY ≠ 0)
    (hres : Open fl rl po R fuel st path openmode perm = .ret res)
    (hcall : res.call = some args) :
    args.fs_rights_base &&& RIGHT_FD_READ = 0 ∧
    args.fs_rights_base &&& RIGHT_FD_READDIR = 0 := by
  rw [(Open_call_rights hres hcall).1, openRights, if_pos hw]
  exact ⟨bitClear_and_eq_zero _ _ _ (by decide) (by decide),
    bitClear_and_eq_zero _ _ _ (by decide) (by decide)⟩

/-- C8, at `Open("/f", O_WRONLY, 0)` with every right in the root mask. -/
theorem Open_wronly_rights_witness :
    wronlyArgs.fs_rights_base &&& RIGHT_FD_READ = 0 ∧
    wronlyArgs.fs_rights_base &&& RIGHT_FD_READDIR = 0 :=
  Open_wronly_rights sampleFlags noLinks openOk allRights 1 initState (str "/f") 1 0
    (openedF wronlyArgs) wronlyArgs (by decide) (by rfl) rfl

/-- C9 fails on the code: `Open("/f", O_RDONLY, 0)` with every right in the root mask
passes base rights that still contain `RIGHT_FD_FILESTAT_SET_SIZE`; the read-only branch
clears `RIGHT_PATH_FILESTAT_SET_SIZE`, `RIGHT_FD_WRITE`, `RIGHT_FD_ALLOCATE` and
`RIGHT_FD_DATASYNC` only. -/
theorem Open_rdonly_keeps_fd_filestat_set_size :
    intBits 0 &&& sampleFlags.O_WRONLY = 0 ∧ intBits 0 &&& sampleFlags.O_RDWR = 0 ∧
    openCall (Open sampleFlags noLinks openOk allRights 1 initState (str "/f") 0 0)
      = some rdonlyArgs ∧
    rdonlyArgs.fs_rights_base &&& RIGHT_FD_FILESTAT_SET_SIZE = RIGHT_FD_FILESTAT_SET_SIZE ∧
    rdonlyArgs.fs_rights_base &&& RIGHT_FD_WRITE = 0 ∧
    rdonlyArgs.fs_rights_base &&& RIGHT_FD_ALLOCATE = 0 ∧
    rdonlyArgs.fs_rights_base &&& RIGHT_FD_DATASYNC = 0 ∧
    rdonlyArgs.fs_rights_base &&& RIGHT_PATH_FILESTAT_SET_SIZE = 0 := by
  decide

/-- C10: the base rights `Open` passes to `Path_open` are a bitwise subset of the root
file rights `R` (a `uint64`), they are `R` itself when the mode has `O_RDWR` and not
`O_WRONLY`, and the inheriting rights are `R`. -/
theorem Open_rights_not_widened (fl : OpenFlags) (rl : ReadlinkHost) (po : OpenHost)
    (R fuel : Nat) (st : FsState) (path : GoString) (openmode : Int) (perm : Nat)
    (res : OpenResult) (args : PathOpenArgs)
    (hR : R < 2 ^ 64)
    (hres : Open fl rl po R fuel st path openmode perm = .ret res)
    (hcall : res.call = some args) :
    bitClear args.fs_rights_base R = 0 ∧
    (intBits openmode &&& fl.O_RDWR ≠ 0 → intBits openmode &&& fl.O_WRONLY = 0 →
      args.fs_rights_base = R) ∧
    args.fs_rights_inheriting = R := by
  obtain ⟨hb, hi⟩ := Open_call_rights hres hcall
  refine ⟨?_, ?_, hi⟩
  · rw [hb, openRights]
    split_ifs
    · exact bitClear_subset _ _ hR
    · exact bitClear_self _ hR
    · exact bitClear_subset _ _ hR
  · intro hrw hw
    rw [hb, openRights, if_neg (by simpa using hw), if_pos hrw]

/-- C10, at `Open("/f", O_RDWR, 0)` with every right in the root mask. -/
theorem Open_rights_not_widened_witness :
    bitClear rdwrArgs.fs_rights_base allRights = 0 ∧
    (intBits 2 &&& sampleFlags.O_RDWR ≠ 0 → intBits 2 &&& sampleFlags.O_WRONLY = 0 →
      rdwrArgs.fs_rights_base = allRights) ∧
    rdwrArgs.fs_rights_inheriting = allRights :=
  Open_rights_not_widened sampleFlags noLinks openOk allRights 1 initState (str "/f") 2 0
    (openedF rdwrArgs) rdwrArgs (by decide) (by rfl) rfl

/-! ### Directory reading -/

theorem or_shiftLeft (lo hi i : Nat) (h : lo < 2 ^ i) : lo ||| hi <<< i = lo + hi * 2 ^ i := by
  rw [Nat.shiftLeft_eq, Nat.or_comm, Nat.mul_comm, ← Nat.mul_add_lt_is_or h, Nat.add_comm]

theorem toUInt8_toNat (v : Nat) : (v % 256).toUInt8.toNat = v % 256 := by
  simp [Nat.toUInt8, UInt8.toNat, UInt8.ofNat, Fin.ofNat]

/-- Four little-endian bytes decode to the value they encode. -/
theorem readUint32_le (v : Nat) (xs : List Byte) :
    readUint32 (le 4 v ++ xs) = .ret (v % 2 ^ 32) := by
  simp only [le, List.cons_append, List.nil_append, readUint32, toUInt8_toNat]
  congr 1
  have h0 : v % 256 < 2 ^ 8 := by norm_num; omega
  have h1 : v / 256 % 256 < 256 := Nat.mod_lt _ (by decide)
  have h2 : v / 256 / 256 % 256 < 256 := Nat.mod_lt _ (by decide)
  rw [or_shiftLeft _ _ 8 h0, or_shiftLeft _ _ 16 (by norm_num; omega),
    or_shiftLeft _ _ 24 (by norm_num; omega)]
  norm_num
  omega

/-- Eight little-endian bytes decode to the value they encode. -/
theorem readUint64_le (v : Nat) (xs : List Byte) :
    readUint64 (le 8 v ++ xs) = .ret (v % 2 ^ 64) := by
  simp only [le, List.cons_append, List.nil_append, readUint64, toUInt8_toNat]
  congr 1
  have h0 : v % 256 < 256 := Nat.mod_lt _ (by decide)
  have h1 : v / 256 % 256 < 256 := Nat.mod_lt _ (by decide)
  have h2 : v / 256 / 256 % 256 < 256 := Nat.mod_lt _ (by decide)
  have h3 : v / 256 / 256 / 256 % 256 < 256 := Nat.mod_lt _ (by decide)
  have h4 : v / 256 / 256 / 256 / 256 % 256 < 256 := Nat.mod_lt _ (by decide)
  have h5 : v / 256 / 256 / 256 / 256 / 256 % 256 < 256 := Nat.mod_lt _ (by decide)
  have h6 : v / 256 / 256 / 256 / 256 / 256 / 256 % 256 < 256 := Nat.mod_lt _ (by decide)
  rw [or_shiftLeft _ _ 8 (by norm_num; omega), or_shiftLeft _ _ 16 (by norm_num; omega),
    or_shiftLeft _ _ 24 (by norm_num; omega), or_shiftLeft _ _ 32 (by norm_num; omega),
    or_shiftLeft _ _ 40 (by norm_num; omega), or_shiftLeft _ _ 48 (by norm_num; omega),
    or_shiftLeft _ _ 56 (by norm_num; omega)]
  norm_num
  omega

theorem le_length (k v : Nat) : (le k v).length = k := by
  induction k generalizing v with
  | zero => rfl
  | succ k ih => simp [le, ih]

theorem header_length (e : Dirent) : e.header.length = 24 := by
  simp [Dirent.header, le_length]

theorem encode_length (e : Dirent) : e.encode.length = 24 + e.name.length := by
  simp [Dirent.encode, header_length]

theorem encodeAll_cons (e : Dirent) (rem : List Dirent) :
    encodeAll (e :: rem) = e.header ++ (e.name ++ encodeAll rem) := by
  simp [encodeAll, Dirent.encode]

theorem prefix_split {l A B : List Byte} (h : l <+: A ++ B) (hlen : A.length ≤ l.length) :
    ∃ t, l = A ++ t ∧ t <+: B := by
  obtain ⟨x, hx⟩ := h
  rcases List.append_eq_append_iff.mp hx with ⟨a', ha, hb⟩ | ⟨c', hc, hd⟩
  · have : a' = [] := by
      have := congrArg List.length ha
      simp only [List.length_append] at this
      exact List.length_eq_zero.mp (by omega)
    subst this
    exact ⟨[], by simpa using ha.symm, List.nil_prefix⟩
  · exact ⟨c', hc, ⟨x, hd.symm⟩⟩

theorem drop16_header (e : Dirent) (xs : List Byte) :
    (e.header ++ xs).drop 16 = le 4 e.name.length ++ (le 4 e.typ ++ xs) := by
  have h : e.header ++ xs
      = (le 8 e.next ++ le 8 e.ino) ++ (le 4 e.name.length ++ (le 4 e.typ ++ xs)) := by
    simp [Dirent.header]
  rw [h, List.drop_left' (by simp [le_length])]

theorem readUint64_header (e : Dirent) (xs : List Byte) :
    readUint64 (e.header ++ xs) = .ret (e.next % 2 ^ 64) := by
  have h : e.header ++ xs
      = le 8 e.next ++ (le 8 e.ino ++ (le 4 e.name.length ++ (le 4 e.typ ++ xs))) := by
    simp [Dirent.header]
  rw [h, readUint64_le]

/-- The inner loop on fewer than 24 unread bytes: the rest of the buffer is dropped. -/
theorem drain_short (fuel : Nat) (d : dirInfo) (n : Int) (names : List GoString)
    (hn : n ≠ 0) (hlen : d.data.length < 24) :
    drain (fuel + 1) d n names = .ret ({ d with data := [] }, n, names) := by
  rw [drain, if_neg hn, if_pos hlen]

/-- The inner loop on a whole header and a cut name: the rest of the buffer is dropped. -/
theorem drain_incomplete (fuel : Nat) (d : dirInfo) (n : Int) (names : List GoString)
    (e : Dirent) (tail : List Byte) (hn : n ≠ 0) (hd : d.data = e.header ++ tail)
    (hfit : 24 + e.name.length < 2 ^ 32) (hcut : tail.length < e.name.length) :
    drain (fuel + 1) d n names = .ret ({ d with data := [] }, n, names) := by
  have hlen : d.data.length = 24 + tail.length := by
    rw [hd, List.length_append, header_length]
  have hname : e.name.length % 2 ^ 32 = e.name.length := Nat.mod_eq_of_lt (by omega)
  rw [drain, if_neg hn, if_neg (by omega), hd, drop16_header, readUint32_le, ← hd]
  simp only [hname, Nat.mod_eq_of_lt hfit]
  rw [if_pos (by omega)]

/-- The inner loop on a whole record: the cookie and the name are taken from it and the
loop goes on behind it. -/
theorem drain_consume (fuel : Nat) (d : dirInfo) (n : Int) (names : List GoString)
    (e : Dirent) (tail : List Byte) (hn : n ≠ 0) (hd : d.data = e.header ++ (e.name ++ tail))
    (hfit : 24 + e.name.length < 2 ^ 32) (hnext : e.next < 2 ^ 64) :
    drain (fuel + 1) d n names
      = if isDotName e.name then drain fuel ⟨tail, e.next⟩ n names
        else drain fuel ⟨tail, e.next⟩ (n - 1) (names ++ [e.name]) := by
  have hlen : d.data.length = 24 + e.name.length + tail.length := by
    rw [hd]; simp [header_length]; omega
  have hname : e.name.length % 2 ^ 32 = e.name.length := Nat.mod_eq_of_lt (by omega)
  have htake : (d.data.take (24 + e.name.length)).drop 24 = e.name := by
    have h : d.data = (e.header ++ e.name) ++ tail := by rw [hd]; simp
    rw [h, List.take_left' (by simp [header_length]),
      List.drop_left' (header_length e)]
  have hdrop : d.data.drop (24 + e.name.length) = tail := by
    have h : d.data = (e.header ++ e.name) ++ tail := by rw [hd]; simp
    rw [h, List.drop_left' (by simp [header_length])]
  rw [drain, if_neg hn, if_neg (by omega)]
  have h32 : readUint32 (d.data.drop 16) = .ret e.name.length := by
    rw [hd, drop16_header, readUint32_le, hname]
  have h64 : readUint64 d.data = .ret e.next := by
    rw [hd, readUint64_header, Nat.mod_eq_of_lt hnext]
  rw [h32]
  simp only [Nat.mod_eq_of_lt hfit]
  rw [if_neg (by omega), h64]
  simp only
  rw [if_neg (by omega), htake, hdrop]

/-- A host read at the next-cookie of a record starts behind that record. -/
theorem entriesAfter_next (pre : List Dirent) (e : Dirent) (rem : List Dirent)
    (hnd : ((pre ++ e :: rem).map Dirent.next).Nodup) (hne : e.next ≠ 0) :
    entriesAfter e.next (pre ++ e :: rem) = rem := by
  rw [entriesAfter, if_neg hne]
  have hpre : ∀ x ∈ pre, x.next ≠ e.next := by
    intro x hx heq
    rw [List.map_append, List.nodup_append] at hnd
    exact hnd.2.2 (List.mem_map_of_mem _ hx) (by rw [heq]; simp)
  clear hnd
  induction pre with
  | nil => simp [List.dropWhile]
  | cons x xs ih =>
    rw [List.cons_append, List.dropWhile_cons, if_pos (by simpa using hpre x (by simp))]
    exact ih (fun y hy => hpre y (List.mem_cons_of_mem _ hy))

theorem takeEntries_cons_dot (e : Dirent) (rem : List Dirent) (n : Int)
    (names : List GoString) (hn : n ≠ 0) (hdot : isDotName e.name = true) :
    takeEntries (e :: rem) n names = takeEntries rem n names := by
  rw [takeEntries, if_neg hn, if_pos hdot]

theorem takeEntries_cons_name (e : Dirent) (rem : List Dirent) (n : Int)
    (names : List GoString) (hn : n ≠ 0) (hdot : ¬ isDotName e.name = true) :
    takeEntries (e :: rem) n names = takeEntries rem (n - 1) (names ++ [e.name]) := by
  rw [takeEntries, if_neg hn, if_neg hdot]

/-- The inner loop on a cursor of a well-formed directory: it returns, the cursor it
leaves stands before a later tail `rem2` of the directory, the records in between are
exactly those `takeEntries` takes, and it stops only when `n` is `0` or the unread bytes
hold no further whole record. -/
theorem drain_spec (es : List Dirent) (hwf : WellFormedDir es) :
    ∀ (rem : List Dirent) (d : dirInfo) (n : Int) (names : List GoString) (fuel : Nat),
      CursorAt es d rem → d.data.length + 1 ≤ fuel →
      ∃ d2 n2 names2 rem2, drain fuel d n names = .ret (d2, n2, names2) ∧
        CursorAt es d2 rem2 ∧
        takeEntries rem n names = takeEntries rem2 n2 names2 ∧
        (n2 = 0 ∨ d2.data = []) ∧
        (d.data = encodeAll rem → n2 = 0 ∨ rem2 = []) ∧
        rem2.length ≤ rem.length ∧
        (n ≠ 0 → ∀ e rem', rem = e :: rem' → e.encode.length ≤ d.data.length →
          rem2.length < rem.length) := by
  intro rem
  induction rem with
  | nil =>
    intro d n names fuel hcur hfuel
    obtain ⟨hpre, hck, hdata⟩ := hcur
    have hnil : d.data = [] := by simpa [encodeAll] using hdata
    obtain ⟨f, rfl⟩ : ∃ f, fuel = f + 1 := ⟨fuel - 1, by omega⟩
    have hd : ({ d with data := [] } : dirInfo) = d := by
      cases d; simp only at hnil; subst hnil; rfl
    refine ⟨d, n, names, [], ?_, ⟨hpre, hck, hdata⟩, rfl, ?_, ?_, le_refl _, ?_⟩
    · by_cases hn : n = 0
      · rw [drain, if_pos hn]
      · rw [drain_short f d n names hn (by simp [hnil]), hd]
    · right; exact hnil
    · intro _; right; rfl
    · intro _ e rem' h; cases h
  | cons e rem' ih =>
    intro d n names fuel hcur hfuel
    obtain ⟨⟨pre, hpre⟩, hck, hdata⟩ := hcur
    obtain ⟨f, rfl⟩ : ∃ f, fuel = f + 1 := ⟨fuel - 1, by omega⟩
    have hmem : e ∈ es := by rw [hpre]; simp
    have hfit := hwf.fits e hmem
    have hfit32 : 24 + e.name.length < 2 ^ 32 := by
      have : blockSize = 8192 := rfl
      have h32 : (2 : Nat) ^ 32 = 4294967296 := by norm_num
      omega
    have hnext := hwf.cookie_lt e hmem
    have hne := hwf.cookie_ne e hmem
    have hfull_len : 24 ≤ (encodeAll (e :: rem')).length := by
      rw [encodeAll_cons]; simp [header_length]
    by_cases hn : n = 0
    · -- the loop condition fails at once
      refine ⟨d, n, names, e :: rem', ?_, ⟨⟨pre, hpre⟩, hck, hdata⟩, rfl, Or.inl hn, ?_,
        le_refl _, fun h => absurd hn h⟩
      · rw [drain, if_pos hn]
      · intro _; exact Or.inl hn
    · by_cases hshort : d.data.length < 24
      · -- the header is cut
        refine ⟨{ d with data := [] }, n, names, e :: rem',
          drain_short f d n names hn hshort,
          ⟨⟨pre, hpre⟩, hck, List.nil_prefix⟩, rfl, Or.inr rfl, ?_, le_refl _, ?_⟩
        · intro hall; rw [hall] at hshort; omega
        · intro _ e1 r1 h1 hlen
          cases h1
          rw [encode_length] at hlen
          omega
      · rw [encodeAll_cons] at hdata
        obtain ⟨tail, hd, htail⟩ := prefix_split hdata (by rw [header_length]; omega)
        by_cases hcut : tail.length < e.name.length
        · -- the name is cut
          refine ⟨{ d with data := [] }, n, names, e :: rem',
            drain_incomplete f d n names e tail hn hd hfit32 hcut,
            ⟨⟨pre, hpre⟩, hck, List.nil_prefix⟩, rfl, Or.inr rfl, ?_, le_refl _, ?_⟩
          · intro hall
            rw [hall, encodeAll_cons] at hd
            have := congrArg List.length (List.append_cancel_left hd)
            simp only [List.length_append] at this
            omega
          · intro _ e1 r1 h1 hlen
            cases h1
            rw [encode_length, hd, List.length_append, header_length] at hlen
            omega
        · -- a whole record
          obtain ⟨tail', hd', htail'⟩ := prefix_split htail (by omega)
          rw [hd'] at hd
          have hcur' : CursorAt es ⟨tail', e.next⟩ rem' := by
            refine ⟨⟨pre ++ [e], by rw [hpre]; simp⟩, ?_, htail'⟩
            have hnd := hwf.cookie_nodup
            rw [hpre] at hnd ⊢
            exact entriesAfter_next pre e rem' hnd hne
          have hlen : d.data.length = 24 + e.name.length + tail'.length := by
            rw [hd]; simp [header_length]; omega
          have hfuel' : (⟨tail', e.next⟩ : dirInfo).data.length + 1 ≤ f := by
            simp only; omega
          have hall' : d.data = encodeAll (e :: rem') → tail' = encodeAll rem' := by
            intro hall
            rw [hall, encodeAll_cons] at hd
            exact (List.append_cancel_left (List.append_cancel_left hd)).symm
          rw [drain_consume f d n names e tail' hn hd hfit32 hnext]
          by_cases hdot : isDotName e.name = true
          · obtain ⟨d2, n2, names2, rem2, hrun, hc2, htk, hstop, hfull, hle, _⟩ :=
              ih ⟨tail', e.next⟩ n names f hcur' hfuel'
            refine ⟨d2, n2, names2, rem2, by rw [if_pos hdot]; exact hrun, hc2, ?_, hstop,
              fun hall => hfull (hall' hall), ?_, ?_⟩
            · rw [takeEntries_cons_dot e rem' n names hn hdot]; exact htk
            · simp only [List.length_cons]; omega
            · intro _ _ _ _ _; simp only [List.length_cons]; omega
          · obtain ⟨d2, n2, names2, rem2, hrun, hc2, htk, hstop, hfull, hle, _⟩ :=
              ih ⟨tail', e.next⟩ (n - 1) (names ++ [e.name]) f hcur' hfuel'
            refine ⟨d2, n2, names2, rem2, by rw [if_neg hdot]; exact hrun, hc2, ?_, hstop,
              fun hall => hfull (hall' hall), ?_, ?_⟩
            · rw [takeEntries_cons_name e rem' n names hn hdot]; exact htk
            · simp only [List.length_cons]; omega
            · intro _ _ _ _ _; simp only [List.length_cons]; omega

theorem takeEntries_stopped (rem : List Dirent) (n : Int) (names : List GoString)
    (h : n = 0 ∨ rem = []) : takeEntries rem n names = (rem, n, names) := by
  cases rem with
  | nil => rfl
  | cons e rem' =>
    rcases h with h | h
    · rw [takeEntries, if_pos h]
    · cases h

/-- A read that the host does not fail is returned as it is, on an open descriptor. -/
theorem pollReadDir_ok (env : DirEnv) (host : ReaddirHost) (b c fuel : Nat)
    (hopen : env.incref = none) (hok : (host b c).1 = 0) :
    pollReadDir env host b c (fuel + 1) = .ret ((host b c).2.length, (host b c).2, none) := by
  simp [pollReadDir, pollReadDirLoop, hopen, hok, errnoErr]

theorem pollReadDir_dirHost (env : DirEnv) (hopen : env.incref = none) (es : List Dirent)
    (c fuel : Nat) :
    pollReadDir env (dirHost es) blockSize c (fuel + 1)
      = .ret (((encodeAll (entriesAfter c es)).take blockSize).length,
          (encodeAll (entriesAfter c es)).take blockSize, none) :=
  pollReadDir_ok env (dirHost es) blockSize c fuel hopen rfl

/-- The outer loop on a cursor of a well-formed directory, with fuel for two rounds per
record left: it returns without error, having taken exactly the records `takeEntries`
takes, and leaves the cursor before the records that remain. -/
theorem readLoop_spec (env : DirEnv) (hopen : env.incref = none) (es : List Dirent)
    (hwf : WellFormedDir es) :
    ∀ (fuel : Nat) (d : dirInfo) (rem : List Dirent) (n : Int) (names : List GoString),
      CursorAt es d rem →
      2 * rem.length + (if d.data = [] then 0 else 1) + 2 ≤ fuel →
      ∃ d' rem' n' names',
        readLoop env (dirHost es) fuel d n names = .ret (d', n', names', none) ∧
        CursorAt es d' rem' ∧ takeEntries rem n names = (rem', n', names') := by
  intro fuel
  induction fuel with
  | zero => intro d rem n names _ h; omega
  | succ fuel ih =>
    intro d rem n names hcur hfuel
    by_cases hn : n = 0
    · exact ⟨d, rem, n, names, by rw [readLoop, if_pos hn], hcur,
        takeEntries_stopped rem n names (Or.inl hn)⟩
    · -- the cursor after the optional refill
      have hfill : ∃ d1 done,
          (if d.data.length = 0 then
              (match pollReadDir env (dirHost es) blockSize d.cookie (fuel + 1) with
               | .panic => (Run.panic : Run (dirInfo × Bool × Option ReadDirError))
               | .fuelOut => .fuelOut
               | .ret r =>
                 if blockSize < r.1 then .panic
                 else .ret ({ d with data := r.2.1.take r.1 }, decide (r.1 < blockSize), r.2.2))
            else .ret (d, false, none)) = .ret (d1, done, none) ∧
          CursorAt es d1 rem ∧
          (done = true → d1.data = encodeAll rem) ∧
          (done = false → d.data = [] → d1.data.length = blockSize) ∧
          (d.data ≠ [] → d1 = d ∧ done = false) := by
        by_cases hempty : d.data.length = 0
        · have hnil : d.data = [] := List.length_eq_zero.mp hempty
          obtain ⟨hpre, hck, _⟩ := hcur
          have hlen : ((encodeAll rem).take blockSize).length ≤ blockSize := by
            rw [List.length_take]; exact Nat.min_le_left _ _
          refine ⟨{ d with data := (encodeAll rem).take blockSize },
            decide (((encodeAll rem).take blockSize).length < blockSize), ?_,
            ⟨hpre, hck, List.take_prefix _ _⟩, ?_, ?_, fun h => absurd hnil h⟩
          · rw [if_pos hempty, pollReadDir_dirHost env hopen, hck]
            simp only [List.take_length]
            rw [if_neg (by omega)]
          · intro hdone
            simp only [decide_eq_true_eq, List.length_take] at hdone
            exact List.take_of_length_le (by omega)
          · intro hdone _
            simp only [decide_eq_false_iff_not, List.length_take] at hdone
            simp only [List.length_take]
            omega
        · have hne : d.data ≠ [] := fun h => hempty (by rw [h]; rfl)
          exact ⟨d, false, by rw [if_neg hempty], hcur, (fun h => by cases h),
            fun _ h => absurd h hne, fun _ => ⟨rfl, rfl⟩⟩
      obtain ⟨d1, done, hfilled, hcur1, hdone, hfullbuf, hkeep⟩ := hfill
      obtain ⟨d2, n2, names2, rem2, hrun, hc2, htk, hstop, hfull, hle, hprog⟩ :=
        drain_spec es hwf rem d1 n names (d1.data.length + 1) hcur1 (le_refl _)
      rw [readLoop, if_neg hn]
      simp only [hfilled, hrun]
      cases done with
      | true =>
        simp only [if_true]
        refine ⟨d2, rem2, n2, names2, rfl, hc2, ?_⟩
        rw [htk]
        exact takeEntries_stopped rem2 n2 names2 (hfull (hdone rfl))
      | false =>
        simp only [Bool.false_eq_true, if_false]
        by_cases hn2 : n2 = 0
        · obtain ⟨f, rfl⟩ : ∃ f, fuel = f + 1 := ⟨fuel - 1, by omega⟩
          refine ⟨d2, rem2, n2, names2, by rw [readLoop, if_pos hn2], hc2, ?_⟩
          rw [htk]
          exact takeEntries_stopped rem2 n2 names2 (Or.inl hn2)
        · have hd2 : d2.data = [] := by
            rcases hstop with h | h
            · exact absurd h hn2
            · exact h
          have hbound : 2 * rem2.length + (if d2.data = [] then 0 else 1) + 2 ≤ fuel := by
            rw [if_pos hd2]
            by_cases hdne : d.data = []
            · have hlen := hfullbuf rfl hdne
              cases rem with
              | nil =>
                obtain ⟨_, _, hp⟩ := hcur1
                have := hp.length_le
                simp only [encodeAll, List.map_nil, List.flatten_nil, List.length_nil] at this
                have hb : blockSize = 8192 := rfl
                omega
              | cons e rem' =>
                obtain ⟨⟨pre, hpre⟩, _, _⟩ := hcur1
                have hfit := hwf.fits e (by rw [hpre]; simp)
                have := hprog hn e rem' rfl (by rw [encode_length, hlen]; exact hfit)
                rw [if_pos hdne] at hfuel
                simp only [List.length_cons] at this hfuel
                omega
            · rw [if_neg hdne] at hfuel
              omega
          obtain ⟨d', rem', n', names', hrun', hc', htk'⟩ :=
            ih d2 rem2 n2 names2 hc2 hbound
          exact ⟨d', rem', n', names', hrun', hc', by rw [htk, htk']⟩

theorem realNames_nil : realNames [] = [] := rfl

theorem realNames_cons_dot (e : Dirent) (rem : List Dirent) (h : isDotName e.name = true) :
    realNames (e :: rem) = realNames rem := by
  simp [realNames, h]

theorem realNames_cons_name (e : Dirent) (rem : List Dirent) (h : ¬ isDotName e.name = true) :
    realNames (e :: rem) = e.name :: realNames rem := by
  simp only [Bool.not_eq_true] at h
  simp [realNames, h]

/-- With a negative count every record is taken. -/
theorem takeEntries_unbounded (rem : List Dirent) :
    ∀ (n : Int) (names : List GoString), n < 0 →
      takeEntries rem n names = ([], n - (realNames rem).length, names ++ realNames rem) := by
  induction rem with
  | nil => intro n names _; simp [takeEntries, realNames_nil]
  | cons e rem ih =>
    intro n names hn
    have hn0 : n ≠ 0 := by omega
    by_cases hdot : isDotName e.name = true
    · rw [takeEntries_cons_dot e rem n names hn0 hdot, ih n names hn,
        realNames_cons_dot e rem hdot]
    · rw [takeEntries_cons_name e rem n names hn0 hdot, ih (n - 1) _ (by omega),
        realNames_cons_name e rem hdot]
      simp only [List.length_cons, List.append_assoc, List.singleton_append, Prod.mk.injEq,
        true_and, and_true]
      push_cast
      omega

/-- With a count `k ≥ 0` records are taken up to and including the `k`-th one that
carries a real name. -/
theorem takeEntries_bounded (rem : List Dirent) :
    ∀ (k : Nat) (names : List GoString),
      ∃ rem', takeEntries rem (k : Int) names
          = (rem', ((k - ((realNames rem).take k).length : Nat) : Int),
              names ++ (realNames rem).take k) ∧
        realNames rem' = (realNames rem).drop k := by
  induction rem with
  | nil => intro k names; exact ⟨[], by simp [takeEntries, realNames_nil], by simp [realNames_nil]⟩
  | cons e rem ih =>
    intro k names
    cases k with
    | zero => exact ⟨e :: rem, by simp [takeEntries], by simp⟩
    | succ k =>
      have hn0 : ((k + 1 : Nat) : Int) ≠ 0 := by omega
      by_cases hdot : isDotName e.name = true
      · obtain ⟨rem', h1, h2⟩ := ih (k + 1) names
        exact ⟨rem', by rw [takeEntries_cons_dot e rem _ names hn0 hdot, h1,
          realNames_cons_dot e rem hdot], by rw [h2, realNames_cons_dot e rem hdot]⟩
      · obtain ⟨rem', h1, h2⟩ := ih k (names ++ [e.name])
        refine ⟨rem', ?_, by rw [h2, realNames_cons_name e rem hdot]; rfl⟩
        have hk : ((k + 1 : Nat) : Int) - 1 = (k : Int) := by push_cast; omega
        rw [takeEntries_cons_name e rem _ names hn0 hdot, hk, h1,
          realNames_cons_name e rem hdot]
        simp only [List.take_succ_cons, List.length_cons, List.append_assoc,
          List.singleton_append, Prod.mk.injEq, true_and, and_true]
        congr 1
        omega

theorem CursorAt.length_le {es : List Dirent} {d : dirInfo} {rem : List Dirent}
    (h : CursorAt es d rem) : rem.length ≤ es.length := by
  obtain ⟨⟨pre, hpre⟩, _, _⟩ := h
  rw [hpre, List.length_append]
  omega

/-- The cursor of a `File` on which no directory read was made yet. -/
theorem CursorAt.fresh (es : List Dirent) : CursorAt es ⟨[], 0⟩ es :=
  ⟨⟨[], rfl⟩, by simp [entriesAfter], List.nil_prefix⟩

/-- A call with `n ≤ 0` on a cursor of a well-formed directory returns every real name
that is left and no error, and leaves the cursor at the end. -/
theorem readdirnames_unbounded (env : DirEnv) (hopen : env.incref = none)
    (hcap : 100 ≤ env.maxCap) (es : List Dirent) (hwf : WellFormedDir es) (fuel : Nat)
    (d : dirInfo) (rem : List Dirent) (n : Int) (hn : n ≤ 0) (hcur : CursorAt es d rem)
    (hfuel : 2 * es.length + 3 ≤ fuel) :
    ∃ d', readdirnames env (dirHost es) fuel (some d) n = .ret ⟨realNames rem, none, d'⟩ ∧
      CursorAt es d' [] := by
  have hle := hcur.length_le
  obtain ⟨d', rem', n', names', hrun, hc', htk⟩ :=
    readLoop_spec env hopen es hwf fuel d rem (-1) [] hcur (by split_ifs <;> omega)
  rw [takeEntries_unbounded rem (-1) [] (by decide)] at htk
  simp only [List.nil_append, Prod.mk.injEq] at htk
  obtain ⟨h1, h2, h3⟩ := htk
  subst h1 h2 h3
  refine ⟨d', ?_, hc'⟩
  simp only [readdirnames, if_pos hn, hrun]
  rw [if_neg (by omega), if_neg (by omega)]

/-- A call with `n > 0` on a cursor of a well-formed directory returns the next `n` real
names (fewer at the end of the directory), `io.EOF` exactly when there is none, and
leaves the cursor before the records that carry the remaining names. -/
theorem readdirnames_bounded (env : DirEnv) (hopen : env.incref = none) (es : List Dirent)
    (hwf : WellFormedDir es) (fuel : Nat)
    (d : dirInfo) (rem : List Dirent) (k : Nat) (hk : 0 < k) (hcap : k ≤ env.maxCap)
    (hcur : CursorAt es d rem) (hfuel : 2 * es.length + 3 ≤ fuel) :
    ∃ d' rem', readdirnames env (dirHost es) fuel (some d) (k : Int)
        = .ret ⟨(realNames rem).take k,
            if (realNames rem).take k = [] then some .EOF else none, d'⟩ ∧
      CursorAt es d' rem' ∧ realNames rem' = (realNames rem).drop k := by
  have hle := hcur.length_le
  obtain ⟨d', rem', n', names', hrun, hc', htk⟩ :=
    readLoop_spec env hopen es hwf fuel d rem (k : Int) [] hcur (by split_ifs <;> omega)
  obtain ⟨rem2, h1, h2⟩ := takeEntries_bounded rem k []
  rw [h1] at htk
  simp only [List.nil_append, Prod.mk.injEq] at htk
  obtain ⟨h3, h4, h5⟩ := htk
  subst h3 h4 h5
  refine ⟨d', rem2, ?_, hc', h2⟩
  simp only [readdirnames, if_neg (show ¬ ((k : Int) ≤ 0) by omega), hrun]
  rw [if_neg (by omega)]
  by_cases hempty : (realNames rem).take k = []
  · rw [if_pos ⟨by omega, by rw [hempty]; rfl⟩, if_pos hempty]
  · rw [if_neg (fun h => hempty (List.length_eq_zero.mp h.2)), if_neg hempty]

/-- Calls of `readdirnames(1)` one after the other, from a cursor of a well-formed
directory: one call for each real name left, each returning that name alone, and then a
call returning no name and `io.EOF`. -/
theorem readdirnamesCalls_one (env : DirEnv) (hopen : env.incref = none)
    (hcap : 1 ≤ env.maxCap) (es : List Dirent) (hwf : WellFormedDir es) (fuel : Nat)
    (hfuel : 2 * es.length + 3 ≤ fuel) :
    ∀ (names : List GoString) (d : dirInfo) (rem : List Dirent),
      CursorAt es d rem → realNames rem = names →
      (readdirnamesCalls env (dirHost es) fuel 1 (names.length + 1) (some d)).map
          (fun r => (r.names, r.err))
        = names.map (fun nm => ([nm], none)) ++ [([], some DirError.EOF)] := by
  intro names
  induction names with
  | nil =>
    intro d rem hcur hnames
    obtain ⟨d', rem', hrun, _, _⟩ :=
      readdirnames_bounded env hopen es hwf fuel d rem 1 (by decide) hcap hcur hfuel
    rw [hnames] at hrun
    simp only [List.length_nil, Nat.zero_add, readdirnamesCalls]
    have hrun' : readdirnames env (dirHost es) fuel (some d) 1
        = .ret ⟨[], some DirError.EOF, d'⟩ := by simpa using hrun
    rw [hrun']
    simp [readdirnamesCalls]
  | cons nm names ih =>
    intro d rem hcur hnames
    obtain ⟨d', rem', hrun, hc', hrest⟩ :=
      readdirnames_bounded env hopen es hwf fuel d rem 1 (by decide) hcap hcur hfuel
    rw [hnames] at hrun hrest
    have hrun' : readdirnames env (dirHost es) fuel (some d) 1 = .ret ⟨[nm], none, d'⟩ := by
      simpa using hrun
    have hrest' : realNames rem' = names := by simpa using hrest
    rw [List.length_cons, readdirnamesCalls, hrun']
    simp only [List.map_cons, List.cons_append, List.cons.injEq, true_and]
    exact ih d' rem' hc' hrest'

theorem readdirnamesCalls_fresh (env : DirEnv) (host : ReaddirHost) (fuel : Nat) (n : Int)
    (calls : Nat) :
    readdirnamesCalls env host fuel n calls none
      = readdirnamesCalls env host fuel n calls (some ⟨[], 0⟩) := by
  cases calls <;> rfl

/-- C4: for a host directory that is a list of records with distinct non-zero
next-cookies, each record at most `blockSize` bytes, read through `dirHost` on an open
descriptor (pollable or not), where `make` allocates the 100 names of an unbounded call,
and fuel for two rounds per record: from a fresh cursor one call `readdirnames(0)`
returns exactly the names other than `"."` and `".."` in directory order and no error;
and from another fresh cursor, calls `readdirnames(1)` return these names one per call,
in the same order, the call after the last name returning no name and `io.EOF`. -/
theorem readdirnames_lists_directory (env : DirEnv) (es : List Dirent) (fuel : Nat)
    (hopen : env.incref = none) (hcap : 100 ≤ env.maxCap)
    (hwf : WellFormedDir es) (hfuel : 2 * es.length + 3 ≤ fuel) :
    (∃ d', readdirnames env (dirHost es) fuel none 0 = .ret ⟨realNames es, none, d'⟩) ∧
    (readdirnamesCalls env (dirHost es) fuel 1 ((realNames es).length + 1) none).map
        (fun r => (r.names, r.err))
      = (realNames es).map (fun nm => ([nm], none)) ++ [([], some DirError.EOF)] := by
  constructor
  · obtain ⟨d', h, _⟩ := readdirnames_unbounded env hopen hcap es hwf fuel ⟨[], 0⟩ es 0
      (le_refl _) (CursorAt.fresh es) hfuel
    exact ⟨d', h⟩
  · rw [readdirnamesCalls_fresh]
    exact readdirnamesCalls_one env hopen (by omega) es hwf fuel hfuel (realNames es) ⟨[], 0⟩ es
      (CursorAt.fresh es) rfl

theorem smallDir_wellFormed : WellFormedDir smallDir := by
  constructor
  · intro e he
    simp only [smallDir, List.mem_cons, List.mem_singleton, List.not_mem_nil, or_false] at he
    rcases he with rfl | rfl | rfl | rfl <;> norm_num
  · intro e he
    simp only [smallDir, List.mem_cons, List.mem_singleton, List.not_mem_nil, or_false] at he
    rcases he with rfl | rfl | rfl | rfl <;> norm_num
  · decide
  · intro e he
    simp only [smallDir, List.mem_cons, List.mem_singleton, List.not_mem_nil, or_false] at he
    rcases he with rfl | rfl | rfl | rfl <;> decide

/-- C4, at the directory `"."`, `".."`, `"a"`, `"bc"`. -/
theorem readdirnames_lists_directory_witness :
    (∃ d', readdirnames openEnv (dirHost smallDir) 11 none 0
        = .ret ⟨[str "a", str "bc"], none, d'⟩) ∧
    (readdirnamesCalls openEnv (dirHost smallDir) 11 1 3 none).map (fun r => (r.names, r.err))
      = [([str "a"], none), ([str "bc"], none), ([], some DirError.EOF)] :=
  readdirnames_lists_directory openEnv smallDir 11 rfl (by decide) smallDir_wellFormed
    (by decide)

/-- C7 as stated fails: on a directory that holds `"."` and `".."` only, and on one whose
host read returns no bytes, `readdirnames(0)` returns the empty list with a `nil` error,
not `io.EOF`. -/
theorem readdirnames_zero_counterexample :
    readdirnames openEnv (dirHost dotsDir) 5 none 0 = .ret ⟨[], none, ⟨[], 2⟩⟩ ∧
    readdirnames openEnv (dirHost []) 5 none 0 = .ret ⟨[], none, ⟨[], 0⟩⟩ := by
  decide

/-- C7 (amended): `readdirnames(0)` on an empty directory returns the empty list and no
error. This holds on an open descriptor (pollable or not), where `make` allocates the
100 names of an unbounded call, from a fresh cursor for every well-formed directory
without a name other than `"."` and `".."`, and for every host whose first read returns
no bytes. -/
theorem readdirnames_zero_empty (env : DirEnv) (es : List Dirent) (host : ReaddirHost)
    (fuel : Nat) (hopen : env.incref = none) (hcap : 100 ≤ env.maxCap)
    (hwf : WellFormedDir es) (hdots : realNames es = [])
    (hnone : host blockSize 0 = (0, [])) :
    (2 * es.length + 3 ≤ fuel →
      ∃ d', readdirnames env (dirHost es) fuel none 0 = .ret ⟨[], none, d'⟩) ∧
    readdirnames env host (fuel + 1) none 0 = .ret ⟨[], none, ⟨[], 0⟩⟩ := by
  constructor
  · intro hfuel
    obtain ⟨d', h, _⟩ := readdirnames_unbounded env hopen hcap es hwf fuel ⟨[], 0⟩ es 0
      (le_refl _) (CursorAt.fresh es) hfuel
    rw [hdots] at h
    exact ⟨d', h⟩
  · have hpoll := pollReadDir_ok env host blockSize 0 fuel hopen (by rw [hnone])
    rw [hnone] at hpoll
    have hpoll' : pollReadDir env host 8192 0 (fuel + 1) = .ret (0, [], none) := hpoll
    have hcap' : ¬ ((env.maxCap : Int) < 100) := by omega
    simp [readdirnames, readLoop, hpoll', drain, blockSize, hcap']

theorem dotsDir_wellFormed : WellFormedDir dotsDir := by
  constructor
  · intro e he
    simp only [dotsDir, List.mem_cons, List.mem_singleton, List.not_mem_nil, or_false] at he
    rcases he with rfl | rfl <;> norm_num
  · intro e he
    simp only [dotsDir, List.mem_cons, List.mem_singleton, List.not_mem_nil, or_false] at he
    rcases he with rfl | rfl <;> norm_num
  · decide
  · intro e he
    simp only [dotsDir, List.mem_cons, List.mem_singleton, List.not_mem_nil, or_false] at he
    rcases he with rfl | rfl <;> decide

/-- C7 (amended), at the directory `"."`, `".."` and at the host of the empty directory. -/
theorem readdirnames_zero_empty_witness :
    (2 * dotsDir.length + 3 ≤ 7 →
      ∃ d', readdirnames openEnv (dirHost dotsDir) 7 none 0 = .ret ⟨[], none, d'⟩) ∧
    readdirnames openEnv (dirHost []) (7 + 1) none 0 = .ret ⟨[], none, ⟨[], 0⟩⟩ :=
  readdirnames_zero_empty openEnv dotsDir (dirHost []) 7 rfl (by decide) dotsDir_wellFormed
    (by decide) (by decide)

theorem encodeAll_append (xs ys : List Dirent) :
    encodeAll (xs ++ ys) = encodeAll xs ++ encodeAll ys := by
  simp [encodeAll]

theorem encodeAll_nil : encodeAll [] = [] := rfl

theorem encodeAll_length_cons (e : Dirent) (rem : List Dirent) :
    (encodeAll (e :: rem)).length = 24 + e.name.length + (encodeAll rem).length := by
  rw [encodeAll_cons]; simp [header_length]; omega

theorem realNames_append (xs ys : List Dirent) :
    realNames (xs ++ ys) = realNames xs ++ realNames ys := by
  simp [realNames]

theorem cookieAfter_getLast (c : Nat) (front : List Dirent) (last : Dirent)
    (h : front.getLast? = some last) : cookieAfter c front = last.next := by
  induction front generalizing c with
  | nil => simp at h
  | cons x xs ih =>
    cases xs with
    | nil =>
      simp only [List.getLast?_singleton, Option.some.injEq] at h
      subst h; rfl
    | cons y ys =>
      rw [List.getLast?_cons_cons] at h
      exact ih x.next h

/-- The inner loop on a buffer that holds the whole records `front` and a cut piece of
the next record `e`, with a negative count: it consumes `front`, drops the piece, and
leaves the cookie of the last record of `front`, from where the host goes on with `e`. -/
theorem drain_cut (es : List Dirent) (hwf : WellFormedDir es) (e : Dirent)
    (back : List Dirent) (tail : List Byte)
    (htail : tail <+: e.header ++ e.name) (hcut : tail.length < 24 + e.name.length) :
    ∀ (front pre : List Dirent) (d : dirInfo) (n : Int) (names : List GoString) (fuel : Nat),
      es = pre ++ (front ++ e :: back) → n < 0 →
      d.data = encodeAll front ++ tail →
      entriesAfter d.cookie es = front ++ e :: back →
      d.data.length + 1 ≤ fuel →
      drain fuel d n names
          = .ret (⟨[], cookieAfter d.cookie front⟩, n - (realNames front).length,
              names ++ realNames front) ∧
        entriesAfter (cookieAfter d.cookie front) es = e :: back := by
  intro front
  induction front with
  | nil =>
    intro pre d n names fuel hes hn hd hck hfuel
    obtain ⟨f, rfl⟩ : ∃ f, fuel = f + 1 := ⟨fuel - 1, by omega⟩
    have hn0 : n ≠ 0 := by omega
    have he : e ∈ es := by rw [hes]; simp
    have hfit := hwf.fits e he
    have hb : blockSize = 8192 := rfl
    simp only [encodeAll_nil, List.nil_append] at hd
    refine ⟨?_, by simpa [cookieAfter] using hck⟩
    have hres : ({ d with data := [] } : dirInfo) = ⟨[], cookieAfter d.cookie []⟩ := rfl
    simp only [realNames_nil, List.length_nil, List.append_nil, Nat.cast_zero, sub_zero]
    by_cases hshort : d.data.length < 24
    · rw [drain_short f d n names hn0 hshort, hres]
    · rw [← hd] at htail hcut
      obtain ⟨t, ht, _⟩ := prefix_split htail (by rw [header_length]; omega)
      have hlen := congrArg List.length ht
      rw [List.length_append, header_length] at hlen
      rw [drain_incomplete f d n names e t hn0 ht (by norm_num; omega) (by omega), hres]
  | cons x front ih =>
    intro pre d n names fuel hes hn hd hck hfuel
    obtain ⟨f, rfl⟩ : ∃ f, fuel = f + 1 := ⟨fuel - 1, by omega⟩
    have hn0 : n ≠ 0 := by omega
    have hx : x ∈ es := by rw [hes]; simp
    have hfit := hwf.fits x hx
    have hb : blockSize = 8192 := rfl
    have hd' : d.data = x.header ++ (x.name ++ (encodeAll front ++ tail)) := by
      rw [hd, encodeAll_cons]; simp
    have hlen : d.data.length = 24 + x.name.length + (encodeAll front ++ tail).length := by
      rw [hd']; simp [header_length]; omega
    have hes' : es = (pre ++ [x]) ++ (front ++ e :: back) := by rw [hes]; simp
    have hck' : entriesAfter x.next es = front ++ e :: back := by
      have hnd := hwf.cookie_nodup
      have hes2 : es = pre ++ x :: (front ++ e :: back) := by rw [hes]; simp
      rw [hes2] at hnd ⊢
      exact entriesAfter_next pre x _ hnd (hwf.cookie_ne x hx)
    rw [drain_consume f d n names x (encodeAll front ++ tail) hn0 hd' (by norm_num; omega)
      (hwf.cookie_lt x hx)]
    by_cases hdot : isDotName x.name = true
    · rw [if_pos hdot, realNames_cons_dot x front hdot]
      exact ih (pre ++ [x]) ⟨encodeAll front ++ tail, x.next⟩ n names f hes' hn rfl hck'
        (by simp only; omega)
    · rw [if_neg hdot, realNames_cons_name x front hdot]
      have := ih (pre ++ [x]) ⟨encodeAll front ++ tail, x.next⟩ (n - 1) (names ++ [x.name]) f
        hes' (by omega) rfl hck' (by simp only; omega)
      refine ⟨?_, this.2⟩
      rw [this.1]
      simp only [cookieAfter, List.length_cons, List.append_assoc, List.singleton_append,
        Run.ret.injEq, Prod.mk.injEq, true_and, and_true]
      push_cast
      omega

/-- C5: the serialised directory is longer than the buffer, so that the first host read
holds the whole records `front` and is cut inside the record `e` behind them (at any
offset: inside the header, at its end, or inside the name). Then the first pass of the
inner loop consumes exactly `front`, drops the cut piece and leaves the cookie of the
last record of `front`; the host read at that cookie starts with the whole record `e`;
and the call `readdirnames(0)`, on an open descriptor (pollable or not) where `make`
allocates the 100 names of an unbounded call, returns the names of `front` followed by
those of `e` and the records behind it, each once and in directory order. -/
theorem readdirnames_cut_record (env : DirEnv) (es front back : List Dirent) (e : Dirent)
    (fuel : Nat) (hopen : env.incref = none) (hcap : 100 ≤ env.maxCap)
    (hwf : WellFormedDir es) (hes : es = front ++ e :: back)
    (hcut1 : (encodeAll front).length ≤ blockSize)
    (hcut2 : blockSize < (encodeAll front).length + e.encode.length)
    (hfuel : 2 * es.length + 3 ≤ fuel) :
    ∃ last, front.getLast? = some last ∧
      drain (blockSize + 1) ⟨(dirHost es blockSize 0).2, 0⟩ (-1) []
        = .ret (⟨[], last.next⟩, -1 - (realNames front).length, realNames front) ∧
      (dirHost es blockSize last.next).2 = (encodeAll (e :: back)).take blockSize ∧
      ∃ d', readdirnames env (dirHost es) fuel none 0
        = .ret ⟨realNames front ++ realNames (e :: back), none, d'⟩ := by
  have hb : blockSize = 8192 := rfl
  have hfit := hwf.fits e (by rw [hes]; simp)
  rw [encode_length] at hcut2
  -- `front` is not empty, for `e` alone fits the buffer
  obtain ⟨last, hlast⟩ : ∃ last, front.getLast? = some last := by
    cases front with
    | nil => simp only [encodeAll_nil, List.length_nil] at hcut2; omega
    | cons x xs => exact ⟨_, List.getLast?_eq_getLast _ (by simp)⟩
  -- the bytes of the first read
  have hread : (dirHost es blockSize 0).2
      = encodeAll front ++ (e.header ++ e.name).take (blockSize - (encodeAll front).length) := by
    simp only [dirHost, entriesAfter, if_true]
    rw [hes, encodeAll_append, List.take_append_eq_append_take,
      List.take_of_length_le hcut1, encodeAll_cons, ← List.append_assoc,
      List.take_append_of_le_length (by simp [header_length]; omega)]
  have htlen : ((e.header ++ e.name).take (blockSize - (encodeAll front).length)).length
      < 24 + e.name.length := by
    rw [List.length_take, List.length_append, header_length]
    omega
  obtain ⟨hdrain, hafter⟩ := drain_cut es hwf e back _ (List.take_prefix _ _) htlen
    front [] ⟨(dirHost es blockSize 0).2, 0⟩ (-1) [] (blockSize + 1)
    (by simpa using hes) (by decide) hread (by simp [entriesAfter, hes])
    (by
      simp only [dirHost, List.length_take]
      omega)
  rw [cookieAfter_getLast 0 front last hlast] at hdrain hafter
  refine ⟨last, hlast, by simpa using hdrain, ?_, ?_⟩
  · simp only [dirHost]
    rw [hafter]
  · obtain ⟨d', h, _⟩ := readdirnames_unbounded env hopen hcap es hwf fuel ⟨[], 0⟩ es 0
      (le_refl _) (CursorAt.fresh es) hfuel
    refine ⟨d', ?_⟩
    have hfresh : readdirnames env (dirHost es) fuel none 0
        = readdirnames env (dirHost es) fuel (some ⟨[], 0⟩) 0 := rfl
    rw [hfresh, h, hes, realNames_append]

theorem longName_length : longName.length = 8093 := List.length_replicate _ _

theorem cutDir_wellFormed : WellFormedDir cutDir := by
  constructor
  · intro e he
    simp only [cutDir, cutFront, cutEntry, List.cons_append, List.nil_append, List.mem_cons,
      List.mem_singleton, List.not_mem_nil, or_false] at he
    rcases he with rfl | rfl | rfl | rfl <;> norm_num
  · intro e he
    simp only [cutDir, cutFront, cutEntry, List.cons_append, List.nil_append, List.mem_cons,
      List.mem_singleton, List.not_mem_nil, or_false] at he
    rcases he with rfl | rfl | rfl | rfl <;> norm_num
  · simp [cutDir, cutFront, cutEntry]
  · intro e he
    simp only [cutDir, cutFront, cutEntry, List.cons_append, List.nil_append, List.mem_cons,
      List.mem_singleton, List.not_mem_nil, or_false] at he
    rcases he with rfl | rfl | rfl | rfl <;> simp [blockSize, longName_length]

theorem cutFront_length : (encodeAll cutFront).length = 8168 := by
  simp [cutFront, encodeAll_length_cons, encodeAll_nil, longName_length]

/-- C5, at a directory whose first read ends exactly at byte 24 of the record `"b"`:
the first pass returns only the 8093-byte name, the cursor keeps cookie 3, and the call
returns that name and then `"b"`. -/
theorem readdirnames_cut_record_witness :
    ∃ last, cutFront.getLast? = some last ∧
      drain (blockSize + 1) ⟨(dirHost cutDir blockSize 0).2, 0⟩ (-1) []
        = .ret (⟨[], last.next⟩, -1 - (realNames cutFront).length, realNames cutFront) ∧
      (dirHost cutDir blockSize last.next).2 = (encodeAll [cutEntry]).take blockSize ∧
      ∃ d', readdirnames openEnv (dirHost cutDir) 11 none 0
        = .ret ⟨realNames cutFront ++ realNames [cutEntry], none, d'⟩ :=
  readdirnames_cut_record openEnv cutDir cutFront [] cutEntry 11 rfl (by decide)
    cutDir_wellFormed rfl
    (by rw [cutFront_length]; decide)
    (by rw [cutFront_length, encode_length]; decide)
    (by decide)

/-- The inner loop never takes more names than `n` asks for: for `n ≥ 0` it returns
with `n ≥ 0`, and the names added and the decrements of `n` balance. -/
theorem drain_count : ∀ (fuel : Nat) (d : dirInfo) (n : Int) (names : List GoString)
    (d2 : dirInfo) (n2 : Int) (names2 : List GoString),
    drain fuel d n names = .ret (d2, n2, names2) → 0 ≤ n →
    0 ≤ n2 ∧ (names2.length : Int) + n2 = names.length + n := by
  intro fuel
  induction fuel with
  | zero => intro d n names d2 n2 names2 h; simp [drain] at h
  | succ fuel ih =>
    intro d n names d2 n2 names2 h hn
    rw [drain] at h
    by_cases h0 : n = 0
    · rw [if_pos h0] at h
      simp only [Run.ret.injEq, Prod.mk.injEq] at h
      obtain ⟨_, rfl, rfl⟩ := h
      exact ⟨hn, rfl⟩
    rw [if_neg h0] at h
    by_cases h24 : d.data.length < 24
    · rw [if_pos h24] at h
      simp only [Run.ret.injEq, Prod.mk.injEq] at h
      obtain ⟨_, rfl, rfl⟩ := h
      exact ⟨hn, rfl⟩
    rw [if_neg h24] at h
    cases h32 : readUint32 (d.data.drop 16) with
    | panic => rw [h32] at h; cases h
    | fuelOut => rw [h32] at h; cases h
    | ret namelen =>
      rw [h32] at h
      dsimp only at h
      by_cases hrec : d.data.length < (24 + namelen) % 2 ^ 32
      · rw [if_pos hrec] at h
        simp only [Run.ret.injEq, Prod.mk.injEq] at h
        obtain ⟨_, rfl, rfl⟩ := h
        exact ⟨hn, rfl⟩
      rw [if_neg hrec] at h
      cases h64 : readUint64 d.data with
      | panic => rw [h64] at h; cases h
      | fuelOut => rw [h64] at h; cases h
      | ret cookie =>
        rw [h64] at h
        dsimp only at h
        by_cases hlow : (24 + namelen) % 2 ^ 32 < 24
        · rw [if_pos hlow] at h; cases h
        rw [if_neg hlow] at h
        by_cases hdot : isDotName ((d.data.take ((24 + namelen) % 2 ^ 32)).drop 24) = true
        · rw [if_pos hdot] at h
          exact ih _ _ _ _ _ _ h hn
        · rw [if_neg hdot] at h
          have := ih _ _ _ _ _ _ h (by omega)
          simp only [List.length_append, List.length_singleton] at this
          push_cast at this
          exact ⟨this.1, by omega⟩

/-- The outer loop on a host whose reads do not fail: when it returns for `n ≥ 0`, it
returns no error, `n ≥ 0`, and as many names as `n` was decremented. -/
theorem readLoop_count (env : DirEnv) (hopen : env.incref = none) (host : ReaddirHost)
    (hok : ∀ b c, (host b c).1 = 0) :
    ∀ (fuel : Nat) (d : dirInfo) (n : Int) (names : List GoString)
      (d' : dirInfo) (n' : Int) (names' : List GoString) (err : Option ReadDirError),
      readLoop env host fuel d n names = .ret (d', n', names', err) → 0 ≤ n →
      err = none ∧ 0 ≤ n' ∧ (names'.length : Int) + n' = names.length + n := by
  intro fuel
  induction fuel with
  | zero => intro d n names d' n' names' err h; simp [readLoop] at h
  | succ fuel ih =>
    intro d n names d' n' names' err h hn
    rw [readLoop] at h
    by_cases h0 : n = 0
    · rw [if_pos h0] at h
      simp only [Run.ret.injEq, Prod.mk.injEq] at h
      obtain ⟨_, rfl, rfl, rfl⟩ := h
      exact ⟨rfl, hn, rfl⟩
    rw [if_neg h0] at h
    have key : ∀ (d1 : dirInfo) (done : Bool),
        (match drain (d1.data.length + 1) d1 n names with
          | .panic => (Run.panic : Run (dirInfo × Int × List GoString × Option ReadDirError))
          | .fuelOut => .fuelOut
          | .ret (d2, n2, names2) =>
            if done then .ret (d2, n2, names2, none)
            else readLoop env host fuel d2 n2 names2) = .ret (d', n', names', err) →
        err = none ∧ 0 ≤ n' ∧ (names'.length : Int) + n' = names.length + n := by
      intro d1 done hk
      cases hdr : drain (d1.data.length + 1) d1 n names with
      | panic => rw [hdr] at hk; cases hk
      | fuelOut => rw [hdr] at hk; cases hk
      | ret r =>
        obtain ⟨d2, n2, names2⟩ := r
        rw [hdr] at hk
        dsimp only at hk
        obtain ⟨hn2, hsum⟩ := drain_count _ _ _ _ _ _ _ hdr hn
        cases done with
        | true =>
          simp only [if_true, Run.ret.injEq, Prod.mk.injEq] at hk
          obtain ⟨_, rfl, rfl, rfl⟩ := hk
          exact ⟨rfl, hn2, hsum⟩
        | false =>
          simp only [Bool.false_eq_true, if_false] at hk
          obtain ⟨he, hn', hsum'⟩ := ih _ _ _ _ _ _ _ hk hn2
          exact ⟨he, hn', by omega⟩
    by_cases hempty : d.data.length = 0
    · simp only [if_pos hempty, pollReadDir_ok env host _ _ fuel hopen (hok _ _)] at h
      by_cases hbig : blockSize < (host blockSize d.cookie).2.length
      · rw [if_pos hbig] at h
        cases h
      · rw [if_neg hbig] at h
        exact key _ _ h
    · simp only [if_neg hempty] at h
      exact key _ _ h

theorem hugeName_length : hugeName.length = 9000 := List.length_replicate _ _

theorem hugeDir_read :
    (encodeAll (entriesAfter 0 hugeDir)).take blockSize
      = hugeEntry.header ++ hugeName.take 8168 := by
  have h : encodeAll (entriesAfter 0 hugeDir) = hugeEntry.header ++ hugeName := by
    simp [entriesAfter, hugeDir, encodeAll, Dirent.encode, hugeEntry]
  rw [h, List.take_append_eq_append_take, List.take_of_length_le (by simp [header_length, blockSize]),
    header_length]
  rfl

/-- On `hugeDir` every round of the outer loop refills the buffer with the same cut
record and drops it again. -/
theorem readLoop_hugeDir (env : DirEnv) (hopen : env.incref = none) (fuel : Nat) :
    readLoop env (dirHost hugeDir) fuel ⟨[], 0⟩ 1 [] = .fuelOut := by
  induction fuel with
  | zero => rfl
  | succ fuel ih =>
    have hlen : (hugeEntry.header ++ hugeName.take 8168).length = 8192 := by
      simp [header_length, hugeName_length]
    have hdrain : drain (8192 + 1) ⟨hugeEntry.header ++ hugeName.take 8168, 0⟩ 1 []
        = .ret (⟨[], 0⟩, 1, []) :=
      drain_incomplete 8192 ⟨hugeEntry.header ++ hugeName.take 8168, 0⟩ 1 [] hugeEntry
        (hugeName.take 8168) (by decide) rfl
        (by
          have : hugeEntry.name.length = 9000 := hugeName_length
          rw [this]; norm_num)
        (by
          have : hugeEntry.name.length = 9000 := hugeName_length
          rw [this, List.length_take, hugeName_length]; decide)
    rw [readLoop, if_neg (by decide)]
    simp only [List.length_nil, if_true, pollReadDir_dirHost env hopen, hugeDir_read, hlen,
      List.take_of_length_le (le_of_eq hlen)]
    rw [if_neg (by decide)]
    simp only [hlen, hdrain]
    simpa [blockSize] using ih

/-- C6 as stated fails: the host `dirHost hugeDir` never fails a read, yet
`readdirnames(1)` on an open descriptor returns nothing on it, whatever the fuel: each
refill brings the same cut record, which the inner loop drops. -/
theorem readdirnames_bounded_counterexample :
    (∀ b c, (dirHost hugeDir b c).1 = 0) ∧
    ¬ ∃ fuel res, readdirnames openEnv (dirHost hugeDir) fuel none 1 = .ret res := by
  refine ⟨fun _ _ => rfl, ?_⟩
  rintro ⟨fuel, res, h⟩
  have hcap : ¬ ((openEnv.maxCap : Int) < 1) := by decide
  simp [readdirnames, readLoop_hugeDir openEnv rfl, hcap] at h

/-- C6 (amended): for `maxCount > 0`, every cursor, an open descriptor and every host
whose reads do not fail, a call `readdirnames(maxCount)` that returns, returns either
between 1 and `maxCount` names and no error, or no name and `io.EOF`; the call does
return when `make` allocates `maxCount` names, the host is a well-formed directory and
the cursor is one of that directory; and it panics when `maxCount` is more than `make`
allocates. -/
theorem readdirnames_bounded_result (env : DirEnv) (host : ReaddirHost) (fuel : Nat)
    (dirinfo : Option dirInfo) (maxCount : Nat)
    (hpos : 0 < maxCount) (hopen : env.incref = none) (hok : ∀ b c, (host b c).1 = 0) :
    (∀ res, readdirnames env host fuel dirinfo (maxCount : Int) = .ret res →
      (res.err = none ∧ 1 ≤ res.names.length ∧ res.names.length ≤ maxCount) ∨
      (res.names = [] ∧ res.err = some DirError.EOF)) ∧
    (∀ es d rem, maxCount ≤ env.maxCap → host = dirHost es → WellFormedDir es →
      dirinfo = some d → CursorAt es d rem → 2 * es.length + 3 ≤ fuel →
      ∃ res, readdirnames env host fuel dirinfo (maxCount : Int) = .ret res) ∧
    (env.maxCap < maxCount → readdirnames env host fuel dirinfo (maxCount : Int) = .panic) := by
  refine ⟨?_, ?_, ?_⟩
  · intro res h
    obtain ⟨d0, hd0⟩ : ∃ d0, readdirnames env host fuel dirinfo (maxCount : Int)
        = readdirnames env host fuel (some d0) (maxCount : Int) := by
      cases dirinfo with
      | none => exact ⟨⟨[], 0⟩, rfl⟩
      | some d => exact ⟨d, rfl⟩
    rw [hd0] at h
    simp only [readdirnames, if_neg (show ¬ ((maxCount : Int) ≤ 0) by omega)] at h
    by_cases hcap : (env.maxCap : Int) < (maxCount : Int)
    · rw [if_pos hcap] at h
      cases h
    rw [if_neg hcap] at h
    cases hrl : readLoop env host fuel d0 (maxCount : Int) [] with
    | panic => rw [hrl] at h; cases h
    | fuelOut => rw [hrl] at h; cases h
    | ret r =>
      obtain ⟨d', n', names', err⟩ := r
      obtain ⟨he, hn', hsum⟩ :=
        readLoop_count env hopen host hok _ _ _ _ _ _ _ _ hrl (by omega)
      subst he
      rw [hrl] at h
      dsimp only at h
      simp only [List.length_nil, Nat.cast_zero, zero_add] at hsum
      by_cases hempty : n' ≥ 0 ∧ names'.length = 0
      · rw [if_pos hempty] at h
        cases h
        exact Or.inr ⟨List.length_eq_zero.mp hempty.2, rfl⟩
      · rw [if_neg hempty] at h
        cases h
        refine Or.inl ⟨rfl, ?_, ?_⟩
        · simp only
          by_contra hc
          exact hempty ⟨hn', by omega⟩
        · simp only
          omega
  · intro es d rem hcap hhost hwf hd hcur hfuel
    subst hhost hd
    obtain ⟨d', rem', h, _⟩ :=
      readdirnames_bounded env hopen es hwf fuel d rem maxCount hpos hcap hcur hfuel
    exact ⟨_, h⟩
  · intro hcap
    have hc : (env.maxCap : Int) < (maxCount : Int) := by omega
    simp only [readdirnames, if_neg (show ¬ ((maxCount : Int) ≤ 0) by omega), if_pos hc]

/-- C6 (amended), at `readdirnames(1)` on the directory `"."`, `".."`, `"a"`, `"bc"`, and
at `readdirnames(2^62)`, more than `make` allocates. -/
theorem readdirnames_bounded_result_witness :
    (∀ res, readdirnames openEnv (dirHost smallDir) 11 (some ⟨[], 0⟩) ((1 : Nat) : Int)
        = .ret res →
      (res.err = none ∧ 1 ≤ res.names.length ∧ res.names.length ≤ 1) ∨
      (res.names = [] ∧ res.err = some DirError.EOF)) ∧
    (∃ res, readdirnames openEnv (dirHost smallDir) 11 (some ⟨[], 0⟩) ((1 : Nat) : Int)
        = .ret res) ∧
    readdirnames openEnv (dirHost smallDir) 11 (some ⟨[], 0⟩) ((2 ^ 62 : Nat) : Int)
      = .panic :=
  ⟨(readdirnames_bounded_result openEnv (dirHost smallDir) 11 (some ⟨[], 0⟩) 1 (by decide) rfl
      (fun _ _ => rfl)).1,
   (readdirnames_bounded_result openEnv (dirHost smallDir) 11 (some ⟨[], 0⟩) 1 (by decide) rfl
      (fun _ _ => rfl)).2.1 smallDir ⟨[], 0⟩ smallDir (by decide) rfl smallDir_wellFormed rfl
      (CursorAt.fresh smallDir) (by decide),
   (readdirnames_bounded_result openEnv (dirHost smallDir) 11 (some ⟨[], 0⟩) (2 ^ 62)
      (by decide) rfl (fun _ _ => rfl)).2.2 (by decide)⟩

/-! ### The bounded loops never run out of their fuel -/

/-- The rounds given to the loop of `readlink` cover every run of it. -/
theorem readlinkLoop_total (host : ReadlinkHost) (path : GoString) :
    ∀ fuel k, k ≤ 25 → 26 ≤ fuel + k →
      readlinkLoop host path fuel (128 * 2 ^ k % 2 ^ 32) ≠ .fuelOut := by
  intro fuel
  induction fuel with
  | zero => intro k h1 h2; omega
  | succ fuel ih =>
    intro k hk hf
    rw [readlinkLoop]
    by_cases h1 : path = []
    · rw [if_pos h1]; simp
    rw [if_neg h1]
    by_cases h2 : 128 * 2 ^ k % 2 ^ 32 = 0
    · rw [if_pos h2]; simp
    rw [if_neg h2]
    dsimp only
    by_cases h3 : (host path (128 * 2 ^ k % 2 ^ 32)).1 ≠ 0
    · rw [if_pos h3]; simp
    rw [if_neg h3]
    by_cases h4 : (host path (128 * 2 ^ k % 2 ^ 32)).2.length < 128 * 2 ^ k % 2 ^ 32
    · rw [if_pos h4]; simp
    rw [if_neg h4]
    have hk' : k ≠ 25 := by
      intro h25
      subst h25
      exact h2 (by norm_num)
    have hstep : 128 * 2 ^ k % 2 ^ 32 * 2 % 2 ^ 32 = 128 * 2 ^ (k + 1) % 2 ^ 32 := by
      have hs : (2 : Nat) ^ (k + 1) = 2 ^ k * 2 := pow_succ 2 k
      rw [hs, Nat.mod_mul_mod, Nat.mul_assoc]
    rw [hstep]
    exact ih (k + 1) (by omega) (by omega)

theorem readlink_total (host : ReadlinkHost) (path : GoString) :
    readlink host path ≠ .fuelOut := by
  have := readlinkLoop_total host path 26 0 (by decide) (by decide)
  simpa [readlink] using this

/-- The rounds given to the inner loop of `readdirnames` cover every run of it. -/
theorem drain_total : ∀ (fuel : Nat) (d : dirInfo) (n : Int) (names : List GoString),
    d.data.length < fuel → drain fuel d n names ≠ .fuelOut := by
  intro fuel
  induction fuel with
  | zero => intro d n names h; omega
  | succ fuel ih =>
    intro d n names hlen
    rw [drain]
    by_cases h0 : n = 0
    · rw [if_pos h0]; simp
    rw [if_neg h0]
    by_cases h24 : d.data.length < 24
    · rw [if_pos h24]; simp
    rw [if_neg h24]
    have h32 : ∃ v, readUint32 (d.data.drop 16) = .ret v := by
      have hl : 8 ≤ (d.data.drop 16).length := by rw [List.length_drop]; omega
      match hx : d.data.drop 16, hl with
      | b0 :: b1 :: b2 :: b3 :: rest, _ => exact ⟨_, rfl⟩
    obtain ⟨namelen, h32⟩ := h32
    rw [h32]
    dsimp only
    by_cases hrec : d.data.length < (24 + namelen) % 2 ^ 32
    · rw [if_pos hrec]; simp
    rw [if_neg hrec]
    cases h64 : readUint64 d.data with
    | panic => simp
    | fuelOut =>
      exfalso
      match hx : d.data, h24 with
      | b0 :: b1 :: b2 :: b3 :: b4 :: b5 :: b6 :: b7 :: rest, _ =>
        rw [hx] at h64; simp [readUint64] at h64
      | [], h => simp at h
      | [_], h => simp at h
      | [_, _], h => simp at h
      | [_, _, _], h => simp at h
      | [_, _, _, _], h => simp at h
      | [_, _, _, _, _], h => simp at h
      | [_, _, _, _, _, _], h => simp at h
      | [_, _, _, _, _, _, _], h => simp at h
    | ret cookie =>
      dsimp only
      by_cases hlow : (24 + namelen) % 2 ^ 32 < 24
      · rw [if_pos hlow]; simp
      rw [if_neg hlow]
      have hnew : (d.data.drop ((24 + namelen) % 2 ^ 32)).length < fuel := by
        rw [List.length_drop]; omega
      split_ifs
      · exact ih _ _ _ hnew
      · exact ih _ _ _ hnew

/-! ### Errno table -/

theorem errnoErr_of_ne_zero {e : Errno} (h : e ≠ 0) : errnoErr e = some e := by
  unfold errnoErr
  rw [if_neg h]
  split_ifs with h1 h2 h3
  · rw [h1]; rfl
  · rw [h2]; rfl
  · rw [h3]; rfl
  · rfl

/-- C15: `errnoErr(0)` is `nil`; for a non-zero code `e`, `errnoErr(e)` is an error with
code `e`, so `errnoErr(e)` is `nil` exactly when `e = 0`; for `EAGAIN` (6), `EINVAL` (28)
and `ENOENT` (44) it is the pre-built value `errEAGAIN`, `errEINVAL`, `errENOENT`.
`errnoErr` is a function, so every call with the same code gives the same value. -/
theorem errnoErr_spec :
    errnoErr 0 = none ∧
    (∀ e : Errno, e ≠ 0 → errnoErr e = some e) ∧
    (∀ e : Errno, errnoErr e = none ↔ e = 0) ∧
    (EAGAIN = 6 ∧ errnoErr 6 = some errEAGAIN) ∧
    (EINVAL = 28 ∧ errnoErr 28 = some errEINVAL) ∧
    (ENOENT = 44 ∧ errnoErr 44 = some errENOENT) := by
  refine ⟨rfl, fun e h => errnoErr_of_ne_zero h, ?_, ⟨rfl, rfl⟩, ⟨rfl, rfl⟩, ⟨rfl, rfl⟩⟩
  intro e
  constructor
  · intro h
    by_contra hne
    rw [errnoErr_of_ne_zero hne] at h
    cases h
  · intro h
    subst h
    rfl

/-- C15, at the code `ENOSYS` (52), which has no pre-built value. -/
theorem errnoErr_spec_witness : errnoErr ENOSYS = some ENOSYS :=
  errnoErr_spec.2.1 ENOSYS (by decide)

theorem errorstrEntries_keys (goos : GoString) :
    (errorstrEntries goos).map Prod.fst = List.range' 1 76 := rfl

set_option maxRecDepth 100000 in
theorem errorstrKey_injective :
    ∀ i < 77, ∀ j < 77, 1 ≤ i → 1 ≤ j → errorstrKey i = errorstrKey j → i = j := by
  decide

set_option maxRecDepth 100000 in
theorem errorstrKey_ne_nil : ∀ i < 77, 1 ≤ i → errorstrKey i ≠ [] := by
  decide

/-- The first 19 bytes of a message are the same for every `runtime.GOOS`. -/
theorem errorstr_take (goos : GoString) (i : Nat) (hi : i ≤ 76) :
    (errorstr goos i).take 19 = errorstrKey i := by
  interval_cases i <;> rfl

/-- C16: the array `errorstr` has 77 elements, its keyed elements are those of the codes
1 to 76 in order, every code from 1 to 76 has a non-empty message, two codes from 1 to
76 with the same message are the same code, and element 0 is the empty string. This
holds for every value of `runtime.GOOS`, which the message of `ENOSYS` ends with. -/
theorem errorstr_table (goos : GoString) :
    errorstrLen = 77 ∧
    (errorstrEntries goos).map Prod.fst = List.range' 1 76 ∧
    (∀ i, 1 ≤ i → i ≤ 76 → errorstr goos i ≠ []) ∧
    (∀ i j, 1 ≤ i → i ≤ 76 → 1 ≤ j → j ≤ 76 →
      errorstr goos i = errorstr goos j → i = j) ∧
    errorstr goos 0 = [] := by
  refine ⟨rfl, errorstrEntries_keys goos, ?_, ?_, rfl⟩
  · intro i h1 h76 hnil
    have := errorstr_take goos i h76
    rw [hnil] at this
    exact errorstrKey_ne_nil i (by omega) h1 this.symm
  · intro i j hi1 hi hj1 hj heq
    apply errorstrKey_injective i (by omega) j (by omega) hi1 hj1
    rw [← errorstr_take goos i hi, ← errorstr_take goos j hj, heq]

/-- C16, at `runtime.GOOS = "wasi"` and the codes `ENOSYS` and `ENOTSUP`. -/
theorem errorstr_table_witness :
    errorstr (str "wasi") ENOSYS ≠ [] ∧
    (errorstr (str "wasi") ENOSYS = errorstr (str "wasi") ENOTSUP → ENOSYS = ENOTSUP) :=
  ⟨(errorstr_table (str "wasi")).2.2.1 ENOSYS (by decide) (by decide),
   (errorstr_table (str "wasi")).2.2.2.1 ENOSYS ENOTSUP (by decide) (by decide) (by decide)
     (by decide)⟩

/-! ### Descriptor bookkeeping, `Seek` -/

/-- C12 fails on the code: from the working directory `"/w"` and an empty descriptor-path
table, `Fchdir(7)` on the never-opened descriptor 7 returns no error and leaves the
working directory empty, which is not an absolute path. -/
theorem Fchdir_unopened_descriptor :
    wState.wd.head? = some slash ∧
    wState.fdPaths 7 = none ∧
    (Fchdir wState 7).err = none ∧
    (Fchdir wState 7).calls = [] ∧
    (Fchdir wState 7).state.wd = [] ∧
    (Fchdir wState 7).state.wd.head? ≠ some slash := by
  decide

/-- C13 fails on the code: `Open("/missing", O_RDONLY, 0)` on a host whose `Path_open`
fails with `ENOENT` returns that error, and the descriptor-path table, empty before, then
maps descriptor 0 to `"/missing"`. -/
theorem Open_failed_records_path :
    wState.fdPaths 0 = none ∧
    ∃ r, Open sampleFlags noLinks openMissing allRights 1 wState (str "/missing") 0 0 = .ret r ∧
      r.fd = 0 ∧ r.err = some ENOENT ∧ r.state.fdPaths 0 = some (str "/missing") :=
  ⟨rfl, _, rfl, rfl, by decide, by decide⟩

/-- C14: after `Close(fd)`, whatever status the host's close returns, the
descriptor-path table has no entry for `fd`, the entries of the other descriptors and
the working directory are unchanged, the one host call made is `Fd_close` on `Fd_t(fd)`,
and `Close` returns `errnoErr` of its status. -/
theorem Close_spec (h : Host) (st : FsState) (fd : Int) :
    (Close h st fd).state.fdPaths fd = none ∧
    (∀ k, k ≠ fd → (Close h st fd).state.fdPaths k = st.fdPaths k) ∧
    (Close h st fd).state.wd = st.wd ∧
    (Close h st fd).calls = [HostCall.fd_close (toFd fd)] ∧
    (Close h st fd).err = errnoErr (h.fd_close (toFd fd)) := by
  refine ⟨by simp [Close], ?_, rfl, rfl, rfl⟩
  intro k hk
  simp [Close, hk]

/-- C14, at `Close(5)` in a state that records descriptor 5: the entry is gone and
descriptor 4 is as before. -/
theorem Close_spec_witness :
    (Close okHost dState 5).state.fdPaths 5 = none ∧
    (Close okHost dState 5).state.fdPaths 4 = dState.fdPaths 4 :=
  ⟨(Close_spec okHost dState 5).1, (Close_spec okHost dState 5).2.1 4 (by decide)⟩

/-- C17: `Seek` passes `WHENCE_SET` (2) for whence 0, `WHENCE_CUR` (0) for whence 1 and
`WHENCE_END` (1) for whence 2, in one `Fd_seek` call whose result it returns; for every
other whence it returns `(0, EINVAL)` and makes no host call. -/
theorem Seek_whence (h : Host) (fd offset whence : Int) :
    (WHENCE_SET = 2 ∧ WHENCE_CUR = 0 ∧ WHENCE_END = 1) ∧
    (whence = 0 → Seek h fd offset whence
      = ⟨toInt64 (h.fd_seek (toFd fd) offset 2).2, errnoErr (h.fd_seek (toFd fd) offset 2).1,
          [HostCall.fd_seek (toFd fd) offset 2]⟩) ∧
    (whence = 1 → Seek h fd offset whence
      = ⟨toInt64 (h.fd_seek (toFd fd) offset 0).2, errnoErr (h.fd_seek (toFd fd) offset 0).1,
          [HostCall.fd_seek (toFd fd) offset 0]⟩) ∧
    (whence = 2 → Seek h fd offset whence
      = ⟨toInt64 (h.fd_seek (toFd fd) offset 1).2, errnoErr (h.fd_seek (toFd fd) offset 1).1,
          [HostCall.fd_seek (toFd fd) offset 1]⟩) ∧
    (whence ≠ 0 → whence ≠ 1 → whence ≠ 2 →
      Seek h fd offset whence = ⟨0, some EINVAL, []⟩) := by
  refine ⟨⟨rfl, rfl, rfl⟩, ?_, ?_, ?_, ?_⟩
  · intro hw; subst hw; rfl
  · intro hw; subst hw; rfl
  · intro hw; subst hw; rfl
  · intro h0 h1 h2
    simp only [Seek, SeekStart, SeekCurrent, SeekEnd, h0, h1, h2, if_false]
    rfl

/-- C17, at whence 0 and at whence 3 on a host whose seek succeeds. -/
theorem Seek_whence_witness :
    Seek okHost 3 10 0 = ⟨0, none, [HostCall.fd_seek 3 10 2]⟩ ∧
    Seek okHost 3 10 3 = ⟨0, some EINVAL, []⟩ :=
  ⟨(Seek_whence okHost 3 10 0).2.1 rfl,
   (Seek_whence okHost 3 10 3).2.2.2.2 (by decide) (by decide) (by decide)⟩

/-! ### Host calls of the path resolution -/

theorem readlinkLoopLog_all (host : ReadlinkHost) (path : GoString) :
    ∀ (fuel buflen : Nat), ∀ c ∈ readlinkLoopLog host path fuel buflen,
      isReadlinkCall c = true := by
  intro fuel
  induction fuel with
  | zero => intro buflen c hc; simp [readlinkLoopLog] at hc
  | succ fuel ih =>
    intro buflen c hc
    rw [readlinkLoopLog] at hc
    split_ifs at hc with h1 h2
    · simp at hc
    · simp at hc
    · simp only [List.mem_cons] at hc
      rcases hc with rfl | hc
      · rfl
      · split_ifs at hc with h3 h4
        · simp at hc
        · simp at hc
        · exact ih _ c hc

theorem expandLoopLog_all (host : ReadlinkHost) :
    ∀ (fuel : Nat) (p : GoString), ∀ c ∈ expandLoopLog host fuel p,
      isReadlinkCall c = true := by
  intro fuel
  induction fuel with
  | zero => intro p c hc; simp [expandLoopLog] at hc
  | succ fuel ih =>
    intro p c hc
    rw [expandLoopLog, List.mem_append] at hc
    rcases hc with hc | hc
    · exact readlinkLoopLog_all host _ _ _ c hc
    · split at hc
      · split at hc
        · simp at hc
        · dsimp only at hc
          split_ifs at hc
          · simp at hc
          · exact ih _ c hc
          · exact ih _ c hc
      · simp at hc

theorem walkPartsLog_all (host : ReadlinkHost) (follow : Bool) (fuel : Nat) :
    ∀ (parts : List GoString) (acc : GoString), ∀ c ∈ walkPartsLog host follow fuel parts acc,
      isReadlinkCall c = true := by
  intro parts
  induction parts with
  | nil => intro acc c hc; simp [walkPartsLog] at hc
  | cons part rest ih =>
    intro acc c hc
    rw [walkPartsLog] at hc
    split_ifs at hc
    · simp at hc
    · rw [List.mem_append] at hc
      rcases hc with hc | hc
      · exact expandLoopLog_all host _ _ c hc
      · split at hc
        · exact ih _ c hc
        · simp at hc

/-- The path resolution calls no import but `Path_readlink`. -/
theorem preparePathLog_all (host : ReadlinkHost) (wd : GoString) (fuel : Nat)
    (path : GoString) (follow : Bool) :
    ∀ c ∈ preparePathLog host wd fuel path follow, isReadlinkCall c = true := by
  intro c hc
  exact walkPartsLog_all host follow fuel _ _ c hc

theorem OpenCalls_all (fl : OpenFlags) (h : Host) (R fuel : Nat) (st : FsState)
    (path : GoString) (openmode : Int) (perm : Nat) :
    ∀ c ∈ OpenCalls fl h R fuel st path openmode perm,
      isReadlinkCall c = true ∨ isOpenCall c = true := by
  intro c hc
  unfold OpenCalls at hc
  by_cases hp : path = []
  · rw [if_pos hp] at hc
    simp at hc
  · rw [if_neg hp, List.mem_append] at hc
    rcases hc with hc | hc
    · exact Or.inl (preparePathLog_all _ _ _ _ _ c hc)
    · split at hc
      · simp only [List.mem_singleton] at hc
        subst hc
        exact Or.inr rfl
      · simp at hc

/-- C18: when `Open` returns an error, `Truncate` returns it, having made only the host
calls of `Open` (readlink and open calls, no set-size and no close); when `Open` returns
descriptor `fd` without error, `Truncate` makes the set-size call and then the close
call on `fd`, returns the set-size error if there is one and the close result otherwise,
and leaves the descriptor-path table without an entry for `fd`; when `Open` does not
return, neither does `Truncate`. -/
theorem Truncate_spec (fl : OpenFlags) (h : Host) (R fuel : Nat) (st : FsState)
    (path : GoString) (length : Int) :
    (∀ o e, Open fl h.path_readlink h.path_open R fuel st path (fl.O_WRONLY : Int) 0 = .ret o →
      o.err = some e →
      Truncate fl h R fuel st path length
          = .ret ⟨some e, o.state, OpenCalls fl h R fuel st path (fl.O_WRONLY : Int) 0⟩ ∧
        ∀ c ∈ OpenCalls fl h R fuel st path (fl.O_WRONLY : Int) 0,
          isReadlinkCall c = true ∨ isOpenCall c = true) ∧
    (∀ o, Open fl h.path_readlink h.path_open R fuel st path (fl.O_WRONLY : Int) 0 = .ret o →
      o.err = none →
      ∃ r, Truncate fl h R fuel st path length = .ret r ∧
        r.calls = OpenCalls fl h R fuel st path (fl.O_WRONLY : Int) 0 ++
          [HostCall.fd_filestat_set_size (toFd o.fd) (length % 2 ^ 64).toNat,
           HostCall.fd_close (toFd o.fd)] ∧
        r.err = (match errnoErr (h.fd_filestat_set_size (toFd o.fd) (length % 2 ^ 64).toNat) with
          | some truncateErr => some truncateErr
          | none => errnoErr (h.fd_close (toFd o.fd))) ∧
        r.state.fdPaths o.fd = none ∧
        (∀ k, k ≠ o.fd → r.state.fdPaths k = o.state.fdPaths k) ∧
        r.state.wd = o.state.wd) ∧
    (Open fl h.path_readlink h.path_open R fuel st path (fl.O_WRONLY : Int) 0 = .panic →
      Truncate fl h R fuel st path length = .panic) ∧
    (Open fl h.path_readlink h.path_open R fuel st path (fl.O_WRONLY : Int) 0 = .fuelOut →
      Truncate fl h R fuel st path length = .fuelOut) := by
  refine ⟨?_, ?_, ?_, ?_⟩
  · intro o e ho he
    refine ⟨?_, OpenCalls_all fl h R fuel st path _ 0⟩
    simp only [Truncate, ho, he]
  · intro o ho he
    refine ⟨_, by simp only [Truncate, ho, he]; rfl, ?_, ?_, ?_, ?_, ?_⟩
    · simp [Ftruncate, Close]
    · rfl
    · simp [Ftruncate, Close]
    · intro k hk
      simp [Ftruncate, Close, hk]
    · rfl
  · intro ho
    simp only [Truncate, ho]
  · intro ho
    simp only [Truncate, ho]

/-- C18, at `Truncate("", 5)`, where `Open` fails with `EINVAL`, and at
`Truncate("f", 5)` on a host where every call succeeds. -/
theorem Truncate_spec_witness :
    (Truncate sampleFlags okHost allRights 1 wState [] 5
        = .ret ⟨some EINVAL, wState,
            OpenCalls sampleFlags okHost allRights 1 wState [] (sampleFlags.O_WRONLY : Int) 0⟩ ∧
      ∀ c ∈ OpenCalls sampleFlags okHost allRights 1 wState [] (sampleFlags.O_WRONLY : Int) 0,
        isReadlinkCall c = true ∨ isOpenCall c = true) ∧
    ∃ r, Truncate sampleFlags okHost allRights 1 wState (str "f") 5 = .ret r ∧
      r.calls = OpenCalls sampleFlags okHost allRights 1 wState (str "f")
          (sampleFlags.O_WRONLY : Int) 0 ++
        [HostCall.fd_filestat_set_size (toFd openedWF.fd) ((5 : Int) % 2 ^ 64).toNat,
         HostCall.fd_close (toFd openedWF.fd)] ∧
      r.err = (match errnoErr (okHost.fd_filestat_set_size (toFd openedWF.fd)
            ((5 : Int) % 2 ^ 64).toNat) with
        | some truncateErr => some truncateErr
        | none => errnoErr (okHost.fd_close (toFd openedWF.fd))) ∧
      r.state.fdPaths openedWF.fd = none ∧
      (∀ k, k ≠ openedWF.fd → r.state.fdPaths k = openedWF.state.fdPaths k) ∧
      r.state.wd = openedWF.state.wd :=
  ⟨(Truncate_spec sampleFlags okHost allRights 1 wState [] 5).1
      ⟨0, some EINVAL, wState, none⟩ EINVAL rfl rfl,
   (Truncate_spec sampleFlags okHost allRights 1 wState (str "f") 5).2.1 openedWF rfl rfl⟩

/-! ### Empty paths -/

theorem preparePath_empty (host : ReadlinkHost) (wd : GoString) (fuel : Nat) (follow : Bool)
    (hwd : wd = [] ∨ wd.head? = some slash) :
    preparePath host wd fuel [] follow = preparePath host wd fuel (wd ++ [slash]) follow ∧
    preparePathLog host wd fuel [] follow
      = preparePathLog host wd fuel (wd ++ [slash]) follow := by
  have hhead : (wd ++ [slash]).head? = some slash := by
    rcases hwd with h | h
    · subst h; rfl
    · cases wd with
      | nil => rfl
      | cons c cs => simpa using h
  have hne : wd ++ [slash] ≠ [] := by simp
  have hrel : ¬ (wd ++ [slash] = [] ∨ (wd ++ [slash]).head? ≠ some slash) := by
    simp [hhead]
  constructor
  · simp only [preparePath, if_neg hrel, true_or, if_true]
  · simp only [preparePathLog, if_neg hrel, true_or, if_true]

theorem pathOp_empty (h : Host) (fuel : Nat) (st : FsState) (follow : Bool)
    (call : GoString → Nat → HostCall) (status : GoString → Nat → Errno)
    (hwd : st.wd = [] ∨ st.wd.head? = some slash) :
    pathOp h fuel st [] follow call status
      = pathOp h fuel st (st.wd ++ [slash]) follow call status := by
  obtain ⟨h1, h2⟩ := preparePath_empty h.path_readlink st.wd fuel follow hwd
  simp only [pathOp, h1, h2]

theorem twoPathOp_empty (h : Host) (fuel : Nat) (st : FsState) (other : GoString)
    (call : GoString → Nat → GoString → Nat → HostCall)
    (status : GoString → Nat → GoString → Nat → Errno)
    (hwd : st.wd = [] ∨ st.wd.head? = some slash) :
    twoPathOp h fuel st [] other call status
        = twoPathOp h fuel st (st.wd ++ [slash]) other call status ∧
    twoPathOp h fuel st other [] call status
        = twoPathOp h fuel st other (st.wd ++ [slash]) call status := by
  obtain ⟨h1, h2⟩ := preparePath_empty h.path_readlink st.wd fuel false hwd
  constructor <;> simp only [twoPathOp, h1, h2]

/-- A one-path operation that returns has issued its import on the resolved path and
returns the translation of its status. -/
theorem pathOp_ret (h : Host) (fuel : Nat) (st : FsState) (path : GoString) (follow : Bool)
    (call : GoString → Nat → HostCall) (status : GoString → Nat → Errno) (r : OpResult)
    (hr : pathOp h fuel st path follow call status = .ret r) :
    ∃ p n, preparePath h.path_readlink st.wd fuel path follow = .ret (p, n) ∧
      call p n ∈ r.calls ∧ r.err = errnoErr (status p n) ∧ r.state = st := by
  unfold pathOp at hr
  split at hr
  · cases hr
  · cases hr
  · rename_i p n hp
    cases hr
    exact ⟨p, n, hp, by simp, rfl, rfl⟩

/-- C11 as stated fails: with the working directory `"/w"`, `Stat("")` and `Mkdir("")`
on a host where every import but readlink succeeds return no error, after readlink calls
and their own import on the path `"./w/"`; and `Chdir("")` panics. -/
theorem empty_path_counterexample :
    Stat okHost 1 wState []
      = .ret ⟨none, wState,
          [HostCall.path_readlink 3 (str "./w") 3 128,
           HostCall.path_readlink 3 (str "./w/") 4 128,
           HostCall.path_filestat_get 3 0 (str "./w/") 4]⟩ ∧
    Mkdir okHost 1 wState [] 0
      = .ret ⟨none, wState,
          [HostCall.path_readlink 3 (str "./w") 3 128,
           HostCall.path_create_directory 3 (str "./w/") 4]⟩ ∧
    Chdir okHost 1 wState [] = .panic :=
  ⟨rfl, rfl, rfl⟩

/-- C11 (amended): `Open` and `Truncate` called with an empty path return `EINVAL`, make
no host call and leave the package variables as they were. The other operations do not
check for an empty path, which `preparePath` takes as a relative one: with a working
directory that is absolute (or empty), `Stat`, `Lstat`, `Mkdir`, `Rmdir`, `Unlink`,
`UtimesNano`, `Readlink`, `Rename`, `Link` and `Symlink` (for its `link` argument) do on
`""` exactly what they do on `wd + "/"`, and `Stat`, `Lstat`, `Mkdir`, `Rmdir` and
`Unlink`, when they return, have issued their import and return the translation of its
status. -/
theorem empty_path_ops (fl : OpenFlags) (h : Host) (R fuel : Nat) (st : FsState)
    (openmode length : Int) (perm : Nat)
    (hwd : st.wd = [] ∨ st.wd.head? = some slash) :
    (Open fl h.path_readlink h.path_open R fuel st [] openmode perm
        = .ret ⟨0, some EINVAL, st, none⟩ ∧
      OpenCalls fl h R fuel st [] openmode perm = []) ∧
    Truncate fl h R fuel st [] length = .ret ⟨some EINVAL, st, []⟩ ∧
    (Stat h fuel st [] = Stat h fuel st (st.wd ++ [slash]) ∧
      Lstat h fuel st [] = Lstat h fuel st (st.wd ++ [slash]) ∧
      Mkdir h fuel st [] perm = Mkdir h fuel st (st.wd ++ [slash]) perm ∧
      Rmdir h fuel st [] = Rmdir h fuel st (st.wd ++ [slash]) ∧
      Unlink h fuel st [] = Unlink h fuel st (st.wd ++ [slash])) ∧
    (∀ ts, UtimesNano h fuel st [] ts = UtimesNano h fuel st (st.wd ++ [slash]) ts) ∧
    (∀ buflen, Readlink h fuel st [] buflen = Readlink h fuel st (st.wd ++ [slash]) buflen) ∧
    (∀ other, (Rename h fuel st [] other = Rename h fuel st (st.wd ++ [slash]) other ∧
        Rename h fuel st other [] = Rename h fuel st other (st.wd ++ [slash])) ∧
      (Link h fuel st [] other = Link h fuel st (st.wd ++ [slash]) other ∧
        Link h fuel st other [] = Link h fuel st other (st.wd ++ [slash])) ∧
      Symlink h fuel st other [] = Symlink h fuel st other (st.wd ++ [slash])) ∧
    (∀ r, (Stat h fuel st [] = .ret r ∨ Lstat h fuel st [] = .ret r →
        ∃ p n, HostCall.path_filestat_get rootFD 0 p n ∈ r.calls ∧
          r.err = errnoErr (h.path_filestat_get p n)) ∧
      (Mkdir h fuel st [] perm = .ret r →
        ∃ p n, HostCall.path_create_directory rootFD p n ∈ r.calls ∧
          r.err = errnoErr (h.path_create_directory p n)) ∧
      (Rmdir h fuel st [] = .ret r →
        ∃ p n, HostCall.path_remove_directory rootFD p n ∈ r.calls ∧
          r.err = errnoErr (h.path_remove_directory p n)) ∧
      (Unlink h fuel st [] = .ret r →
        ∃ p n, HostCall.path_unlink_file rootFD p n ∈ r.calls ∧
          r.err = errnoErr (h.path_unlink_file p n))) := by
  obtain ⟨hp, hl⟩ := preparePath_empty h.path_readlink st.wd fuel false hwd
  refine ⟨⟨rfl, rfl⟩, rfl, ⟨?_, ?_, ?_, ?_, ?_⟩, ?_, ?_, ?_, ?_⟩
  · exact pathOp_empty h fuel st true _ _ hwd
  · exact pathOp_empty h fuel st false _ _ hwd
  · exact pathOp_empty h fuel st false _ _ hwd
  · exact pathOp_empty h fuel st false _ _ hwd
  · exact pathOp_empty h fuel st false _ _ hwd
  · intro ts
    simp only [UtimesNano, hp, hl]
  · intro buflen
    simp only [Readlink, hp, hl]
  · intro other
    refine ⟨twoPathOp_empty h fuel st other _ _ hwd, twoPathOp_empty h fuel st other _ _ hwd, ?_⟩
    simp only [Symlink, hp, hl]
  · intro r
    refine ⟨?_, ?_, ?_, ?_⟩
    · rintro (hr | hr)
      · obtain ⟨p, n, _, hc, he, _⟩ := pathOp_ret h fuel st [] true _ _ r hr
        exact ⟨p, n, hc, he⟩
      · obtain ⟨p, n, _, hc, he, _⟩ := pathOp_ret h fuel st [] false _ _ r hr
        exact ⟨p, n, hc, he⟩
    · intro hr
      obtain ⟨p, n, _, hc, he, _⟩ := pathOp_ret h fuel st [] false _ _ r hr
      exact ⟨p, n, hc, he⟩
    · intro hr
      obtain ⟨p, n, _, hc, he, _⟩ := pathOp_ret h fuel st [] false _ _ r hr
      exact ⟨p, n, hc, he⟩
    · intro hr
      obtain ⟨p, n, _, hc, he, _⟩ := pathOp_ret h fuel st [] false _ _ r hr
      exact ⟨p, n, hc, he⟩

/-- C11 (amended), at the working directory `"/w"` on a host where every import but
readlink succeeds. -/
theorem empty_path_ops_witness :
    (Open sampleFlags okHost.path_readlink okHost.path_open allRights 1 wState [] 0 0
        = .ret ⟨0, some EINVAL, wState, none⟩ ∧
      OpenCalls sampleFlags okHost allRights 1 wState [] 0 0 = []) ∧
    Truncate sampleFlags okHost allRights 1 wState [] 5 = .ret ⟨some EINVAL, wState, []⟩ ∧
    Stat okHost 1 wState [] = Stat okHost 1 wState (wState.wd ++ [slash]) :=
  ⟨(empty_path_ops sampleFlags okHost allRights 1 wState 0 5 0 (by decide)).1,
   (empty_path_ops sampleFlags okHost allRights 1 wState 0 5 0 (by decide)).2.1,
   (empty_path_ops sampleFlags okHost allRights 1 wState 0 5 0 (by decide)).2.2.1.1⟩

/-! ### Symlink cycles -/

theorem readlinkLog_length_pos (host : ReadlinkHost) (path : GoString) (hp : path ≠ []) :
    0 < (readlinkLog host path).length := by
  rw [readlinkLog, readlinkLoopLog, if_neg hp, if_neg (by decide)]
  simp

/-- A symlink whose target is its own accumulated path `p`: the inner loop of
`preparePath` is still running after any number of rounds, and it has made at least one
host call in each of them. -/
theorem expandLoop_self (host : ReadlinkHost) (p : GoString)
    (hself : readlink host (dot :: slash :: p) = .ret (slash :: p, none)) :
    ∀ fuel, expandLoop host fuel (slash :: p) = .fuelOut ∧
      fuel ≤ (expandLoopLog host fuel (slash :: p)).length := by
  intro fuel
  induction fuel with
  | zero => exact ⟨rfl, Nat.zero_le _⟩
  | succ fuel ih =>
    constructor
    · rw [expandLoop, hself]
      simp only [ne_eq, not_true_eq_false, if_false]
      exact ih.1
    · rw [expandLoopLog, hself]
      simp only [ne_eq, not_true_eq_false, if_false, List.length_append]
      have := readlinkLog_length_pos host (dot :: slash :: p) (by simp)
      have := ih.2
      omega

/-- A part whose expansion loop is still running stops the walk over the parts. -/
theorem walkParts_stuck (host : ReadlinkHost) (follow : Bool) (fuel : Nat)
    (part : GoString) (rest : List GoString) (acc : GoString)
    (hres : ¬ (rest.isEmpty && !follow) = true)
    (hloop : expandLoop host fuel (acc ++ slash :: part) = .fuelOut) :
    walkParts host follow fuel (part :: rest) acc = .fuelOut ∧
    walkPartsLog host follow fuel (part :: rest) acc
      = expandLoopLog host fuel (acc ++ slash :: part) := by
  constructor
  · rw [walkParts]
    simp only [hres, hloop, Bool.false_eq_true, if_false]
  · rw [walkPartsLog]
    simp only [hres, hloop, List.append_nil, Bool.false_eq_true, if_false]

/-- C20: on a host where `readlink("./a")` always succeeds with `"/a"`,
`preparePath("/a", true)` and `preparePath("/a/b", false)` have not returned after any
number of rounds of the expansion loop, and within `k + 1` rounds they have made more
than `k` host calls, all of them `Path_readlink`. -/
theorem preparePath_symlink_cycle (host : ReadlinkHost) (wd : GoString)
    (hself : ∀ n, host (str "./a") n = (0, (str "/a").take n)) :
    (∀ fuel, preparePath host wd fuel (str "/a") true = .fuelOut) ∧
    (∀ fuel, preparePath host wd fuel (str "/a/b") false = .fuelOut) ∧
    (∀ k, k < (preparePathLog host wd (k + 1) (str "/a") true).length ∧
      ∀ c ∈ preparePathLog host wd (k + 1) (str "/a") true, isReadlinkCall c = true) ∧
    (∀ k, k < (preparePathLog host wd (k + 1) (str "/a/b") false).length ∧
      ∀ c ∈ preparePathLog host wd (k + 1) (str "/a/b") false, isReadlinkCall c = true) := by
  have hrl : readlink host (dot :: slash :: str "a") = .ret (slash :: str "a", none) :=
    readlink_target host (str "./a") (str "/a") (by decide) hself (by decide)
  have hloop := expandLoop_self host (str "a") hrl
  have habs1 : ¬ (str "/a" = [] ∨ (str "/a").head? ≠ some slash) := by decide
  have habs2 : ¬ (str "/a/b" = [] ∨ (str "/a/b").head? ≠ some slash) := by decide
  have hs1 : split slash ((str "/a").drop 1) = [str "a"] := by decide
  have hs2 : split slash ((str "/a/b").drop 1) = [str "a", str "b"] := by decide
  have hw1 := fun fuel => walkParts_stuck host true fuel (str "a") [] [] (by decide)
    (hloop fuel).1
  have hw2 := fun fuel => walkParts_stuck host false fuel (str "a") [str "b"] [] (by decide)
    (hloop fuel).1
  have hlen : ∀ k, k < (expandLoopLog host (k + 1) ([] ++ slash :: str "a")).length :=
    fun k => (hloop (k + 1)).2
  refine ⟨?_, ?_, ?_, ?_⟩
  · intro fuel
    simp only [preparePath, if_neg habs1, hs1, (hw1 fuel).1]
  · intro fuel
    simp only [preparePath, if_neg habs2, hs2, (hw2 fuel).1]
  · intro k
    refine ⟨?_, preparePathLog_all host wd (k + 1) (str "/a") true⟩
    simp only [preparePathLog, if_neg habs1, hs1, (hw1 (k + 1)).2]
    exact hlen k
  · intro k
    refine ⟨?_, preparePathLog_all host wd (k + 1) (str "/a/b") false⟩
    simp only [preparePathLog, if_neg habs2, hs2, (hw2 (k + 1)).2]
    exact hlen k

/-- C20, at the host whose only symlink is `"./a"` with target `"/a"`. -/
theorem preparePath_symlink_cycle_witness :
    (∀ fuel, preparePath (oneLink (str "./a") (str "/a")) (str "/") fuel (str "/a") true
      = .fuelOut) ∧
    (∀ fuel, preparePath (oneLink (str "./a") (str "/a")) (str "/") fuel (str "/a/b") false
      = .fuelOut) :=
  ⟨(preparePath_symlink_cycle (oneLink (str "./a") (str "/a")) (str "/")
      (fun n => by simp [oneLink])).1,
   (preparePath_symlink_cycle (oneLink (str "./a") (str "/a")) (str "/")
      (fun n => by simp [oneLink])).2.1⟩

/-! ### A failing directory read -/

/-- The first pass over a buffer cut inside the record `e`: the buffer is full, the
inner loop consumes the records `front` before `e` and leaves the cookie behind them,
from where the host goes on with `e`. -/
theorem first_pass_cut (es front back : List Dirent) (e : Dirent)
    (hwf : WellFormedDir es) (hes : es = front ++ e :: back)
    (hcut1 : (encodeAll front).length ≤ blockSize)
    (hcut2 : blockSize < (encodeAll front).length + e.encode.length) :
    (dirHost es blockSize 0).2.length = blockSize ∧
    drain (blockSize + 1) ⟨(dirHost es blockSize 0).2, 0⟩ (-1) []
      = .ret (⟨[], cookieAfter 0 front⟩, -1 - (realNames front).length, realNames front) ∧
    entriesAfter (cookieAfter 0 front) es = e :: back ∧
    ∃ last, front.getLast? = some last ∧ cookieAfter 0 front = last.next := by
  have hb : blockSize = 8192 := rfl
  have hfit := hwf.fits e (by rw [hes]; simp)
  rw [encode_length] at hcut2
  obtain ⟨last, hlast⟩ : ∃ last, front.getLast? = some last := by
    cases front with
    | nil => simp only [encodeAll_nil, List.length_nil] at hcut2; omega
    | cons x xs => exact ⟨_, List.getLast?_eq_getLast _ (by simp)⟩
  have hread : (dirHost es blockSize 0).2
      = encodeAll front ++ (e.header ++ e.name).take (blockSize - (encodeAll front).length) := by
    simp only [dirHost, entriesAfter, if_true]
    rw [hes, encodeAll_append, List.take_append_eq_append_take,
      List.take_of_length_le hcut1, encodeAll_cons, ← List.append_assoc,
      List.take_append_of_le_length (by simp [header_length]; omega)]
  have htlen : ((e.header ++ e.name).take (blockSize - (encodeAll front).length)).length
      < 24 + e.name.length := by
    rw [List.length_take, List.length_append, header_length]
    omega
  have hlen : (dirHost es blockSize 0).2.length = blockSize := by
    rw [hread, List.length_append, List.length_take, List.length_append, header_length]
    omega
  obtain ⟨hdrain, hafter⟩ := drain_cut es hwf e back _ (List.take_prefix _ _) htlen
    front [] ⟨(dirHost es blockSize 0).2, 0⟩ (-1) [] (blockSize + 1)
    (by simpa using hes) (by decide) hread (by simp [entriesAfter, hes])
    (by rw [hlen])
  exact ⟨hlen, by simpa using hdrain, hafter, last, hlast, cookieAfter_getLast 0 front last hlast⟩

/-- A read that fails with a status that is not retried is returned as it is, the byte
count zeroed. -/
theorem pollReadDir_fail (env : DirEnv) (host : ReaddirHost) (b c fuel : Nat) (errno : Errno)
    (hopen : env.incref = none) (hfail : (host b c).1 = errno) (herr : errno ≠ 0)
    (hretry : errno = EAGAIN → env.pollable = false) :
    pollReadDir env host b c (fuel + 1) = .ret (0, (host b c).2, some (.errno errno)) := by
  have hno : ¬ (errno = EAGAIN ∧ env.pollable = true) := by
    rintro ⟨h1, h2⟩
    rw [hretry h1] at h2
    cases h2
  simp only [pollReadDir, hopen, pollReadDirLoop, hfail, errnoErr_of_ne_zero herr, if_neg hno]

/-- A failing host read that is not retried ends the outer loop in the round it is made:
the loop returns the cursor, `n` and the names as they are, with the error of the
read. -/
theorem readLoop_failed_read (env : DirEnv) (host : ReaddirHost) (fuel : Nat) (d : dirInfo)
    (n : Int) (names : List GoString) (errno : Errno) (hopen : env.incref = none)
    (hn : n ≠ 0) (hd : d.data = [])
    (hfail : (host blockSize d.cookie).1 = errno) (herr : errno ≠ 0)
    (hretry : errno = EAGAIN → env.pollable = false) :
    readLoop env host (fuel + 1) d n names = .ret (d, n, names, some (.errno errno)) := by
  have hpoll := pollReadDir_fail env host blockSize d.cookie fuel errno hopen hfail herr hretry
  rw [readLoop, if_neg hn]
  simp only [hd, List.length_nil, if_true, hpoll, Nat.not_lt_zero, if_false, List.take_zero]
  cases d
  simp only at hd
  subst hd
  rfl

/-- On a pollable descriptor whose waits succeed, a host that keeps answering `EAGAIN`
keeps the loop of `poll.(*FD).ReadDir` running. -/
theorem pollReadDirLoop_eagain (b c : Nat) :
    ∀ fuel k, pollReadDirLoop retryEnv eagainHost b c fuel k = .fuelOut := by
  intro fuel
  induction fuel with
  | zero => intro k; rfl
  | succ fuel ih =>
    intro k
    have he : errnoErr (eagainHost b c).1 = some EAGAIN := rfl
    have hp : EAGAIN = EAGAIN ∧ retryEnv.pollable = true := ⟨rfl, rfl⟩
    have hw : retryEnv.waitRead k = none := rfl
    rw [pollReadDirLoop]
    simp only [he, if_pos hp, hw]
    exact ih (k + 1)

/-- C19 as stated fails for a read that fails with `EAGAIN` on a pollable descriptor:
`poll.(*FD).ReadDir` then waits and reads again instead of returning the error. On a
host whose reads keep failing with `EAGAIN`, with waits that succeed, `readdirnames(0)`
never returns; with waits that fail, it returns the error of the wait, not the host
error wrapped with the tag `"readdirnames"`. -/
theorem readdirnames_eagain_counterexample :
    (eagainHost blockSize 0).1 = EAGAIN ∧ retryEnv.pollable = true ∧
    retryEnv.incref = none ∧
    (¬ ∃ fuel res, readdirnames retryEnv eagainHost fuel none 0 = .ret res) ∧
    readdirnames waitFailEnv eagainHost 1 none 0
      = .ret ⟨[], some (DirError.wrapped "readdirnames" 1), ⟨[], 0⟩⟩ := by
  refine ⟨rfl, rfl, rfl, ?_, by decide⟩
  rintro ⟨fuel, res, h⟩
  have hloop : readLoop retryEnv eagainHost fuel ⟨[], 0⟩ (-1) [] = .fuelOut := by
    cases fuel with
    | zero => rfl
    | succ fuel =>
      have hpoll : pollReadDir retryEnv eagainHost blockSize 0 (fuel + 1) = .fuelOut :=
        pollReadDirLoop_eagain blockSize 0 (fuel + 1) 0
      rw [readLoop, if_neg (by decide)]
      simp only [List.length_nil, if_true, hpoll]
  have hcap : ¬ ((retryEnv.maxCap : Int) < 100) := by decide
  simp [readdirnames, hloop, hcap] at h

/-- C19 (amended): on an open descriptor, a host read that fails with a status `errno`
that `poll.(*FD).ReadDir` does not retry (any status but `EAGAIN`, or `EAGAIN` on a
descriptor that is not pollable) ends the outer loop of `readdirnames` in the round it
is made, with the names accumulated so far and the cursor unchanged. For a directory
whose first read is cut inside the record `e` and whose second read fails so: the call
returns exactly the names of the records before `e`, the error `errno` wrapped with the
tag `"readdirnames"`, and a cursor with the cookie of the last record before `e`; a
later call on that cursor, the host serving the directory again, returns the names of
`e` and the records behind it. -/
theorem readdirnames_failed_read (env : DirEnv) (host : ReaddirHost)
    (es front back : List Dirent) (e : Dirent) (errno : Errno) (fuel : Nat)
    (hopen : env.incref = none) (hcap : 100 ≤ env.maxCap)
    (hretry : errno = EAGAIN → env.pollable = false)
    (hwf : WellFormedDir es) (hes : es = front ++ e :: back)
    (hcut1 : (encodeAll front).length ≤ blockSize)
    (hcut2 : blockSize < (encodeAll front).length + e.encode.length)
    (hfirst : host blockSize 0 = dirHost es blockSize 0)
    (hfail : (host blockSize (cookieAfter 0 front)).1 = errno) (herr : errno ≠ 0)
    (hfuel : 2 * es.length + 3 ≤ fuel) :
    (∀ (f : Nat) (d : dirInfo) (n : Int) (names : List GoString), n ≠ 0 → d.data = [] →
      (host blockSize d.cookie).1 = errno →
      readLoop env host (f + 1) d n names = .ret (d, n, names, some (.errno errno))) ∧
    (∃ last, front.getLast? = some last ∧ cookieAfter 0 front = last.next) ∧
    readdirnames env host fuel none 0
      = .ret ⟨realNames front, some (DirError.syscallError "readdirnames" errno),
          ⟨[], cookieAfter 0 front⟩⟩ ∧
    ∃ d', readdirnames env (dirHost es) fuel (some ⟨[], cookieAfter 0 front⟩) 0
      = .ret ⟨realNames (e :: back), none, d'⟩ := by
  obtain ⟨hlen, hdrain, hafter, hlast⟩ := first_pass_cut es front back e hwf hes hcut1 hcut2
  have hcap' : ¬ ((env.maxCap : Int) < 100) := by omega
  refine ⟨fun f d n names hn hd hf =>
    readLoop_failed_read env host f d n names errno hopen hn hd hf herr hretry, hlast, ?_, ?_⟩
  · obtain ⟨f, rfl⟩ : ∃ f, fuel = f + 2 := ⟨fuel - 2, by omega⟩
    have hpoll : pollReadDir env host blockSize 0 (f + 1 + 1)
        = .ret (blockSize, (dirHost es blockSize 0).2, none) := by
      have h0 : (host blockSize 0).1 = 0 := by rw [hfirst]; rfl
      rw [pollReadDir_ok env host blockSize 0 (f + 1) hopen h0, hfirst, hlen]
    have hsecond := readLoop_failed_read env host f ⟨[], cookieAfter 0 front⟩
      (-1 - (realNames front).length) (realNames front) errno hopen (by omega) rfl hfail herr
      hretry
    have hloop : readLoop env host (f + 2) ⟨[], 0⟩ (-1) []
        = .ret (⟨[], cookieAfter 0 front⟩, -1 - (realNames front).length, realNames front,
            some (.errno errno)) := by
      rw [readLoop, if_neg (by decide)]
      simp only [List.length_nil, if_true, hpoll, lt_irrefl, if_false, decide_False,
        List.take_of_length_le (le_of_eq hlen), hlen, hdrain, Bool.false_eq_true]
      exact hsecond
    simp only [readdirnames, le_refl, if_true, hloop, if_neg hcap']
  · have hcur : CursorAt es ⟨[], cookieAfter 0 front⟩ (e :: back) :=
      ⟨⟨front, hes⟩, hafter, List.nil_prefix⟩
    obtain ⟨d', h, _⟩ := readdirnames_unbounded env hopen hcap es hwf fuel _ (e :: back) 0
      (le_refl _) hcur hfuel
    exact ⟨d', h⟩

/-- C19 (amended), at the directory `cutDir`, whose second read fails with `EIO`: the
call returns the 8093-byte name alone with the wrapped error and keeps cookie 3, and the
next call returns `"b"`. -/
theorem readdirnames_failed_read_witness :
    readdirnames retryEnv (failingHost cutDir 29) 11 none 0
      = .ret ⟨realNames cutFront, some (DirError.syscallError "readdirnames" 29),
          ⟨[], cookieAfter 0 cutFront⟩⟩ ∧
    ∃ d', readdirnames retryEnv (dirHost cutDir) 11 (some ⟨[], cookieAfter 0 cutFront⟩) 0
      = .ret ⟨realNames [cutEntry], none, d'⟩ :=
  (readdirnames_failed_read retryEnv (failingHost cutDir 29) cutDir cutFront [] cutEntry 29 11
    rfl (by decide) (fun h => absurd h (by decide))
    cutDir_wellFormed rfl
    (by rw [cutFront_length]; decide)
    (by rw [cutFront_length, encode_length]; decide)
    rfl rfl (by decide) (by decide)).2.2

/-! ### The working directory under `Open`, `Close`, `Chdir` and `Fchdir` -/

/-- The part of the working-directory invariant that the code keeps: `Open` and `Close`
leave the working directory as it is, a returning `Chdir` leaves an absolute working
directory absolute, and so does `Fchdir` on a descriptor whose recorded path is
absolute. -/
theorem wd_absolute_kept (fl : OpenFlags) (h : Host) (R fuel : Nat) (st : FsState)
    (path : GoString) (openmode fd : Int) (perm : Nat)
    (hwd : st.wd.head? = some slash) :
    (∀ o, Open fl h.path_readlink h.path_open R fuel st path openmode perm = .ret o →
      o.state.wd = st.wd) ∧
    (Close h st fd).state.wd = st.wd ∧
    (∀ r, Chdir h fuel st path = .ret r → r.state.wd.head? = some slash) ∧
    (∀ p, st.fdPaths fd = some p → p.head? = some slash →
      (Fchdir st fd).state.wd.head? = some slash) := by
  refine ⟨?_, rfl, ?_, ?_⟩
  · intro o ho
    unfold Open at ho
    by_cases hp : path = []
    · rw [if_pos hp] at ho
      cases ho
      rfl
    · rw [if_neg hp] at ho
      split at ho <;> dsimp only at ho <;> split at ho <;>
        first | (cases ho; rfl) | cases ho
  · intro r hr
    unfold Chdir at hr
    cases path with
    | nil => cases hr
    | cons c rest =>
      simp only at hr
      split at hr
      · cases hr
      · cases hr
      · rename_i r0 _
        split at hr
        · cases hr
          exact hwd
        · cases hr
          by_cases hc : c = slash
          · simp [hc]
          · simp only [ne_eq, hc, not_false_eq_true, if_true]
            cases hw : st.wd with
            | nil => rw [hw] at hwd; cases hwd
            | cons a w => rw [hw] at hwd; simpa using hwd
  · intro p hp habs
    simp only [Fchdir, hp, Option.getD_some]
    exact habs

/-! ### Operations that are not implemented -/

/-- C21: `Chmod`, `Fchmod`, `Chown`, `Fchown`, `Lchown`, `Dup`, `Dup2`, `Pipe`, `Fsync`
and `ReadDirent` return `ENOSYS` (code 52, message `"Not implemented on " + GOOS`) for
every argument and every host, make no host call, and leave the working directory and
the descriptor-path table as they are; `Dup` and `ReadDirent` return 0 beside the
error. -/
theorem not_implemented_ops (h : Host) (st : FsState) (path : GoString) (buf : List Byte)
    (fd newfd uid gid : Int) (fds : List Int) (mode : Nat) (goos : GoString) :
    (ENOSYS = 52 ∧ errorstr goos ENOSYS = str "Not implemented on " ++ goos) ∧
    Chmod h st path mode = ⟨some ENOSYS, st, []⟩ ∧
    Fchmod h st fd mode = ⟨some ENOSYS, st, []⟩ ∧
    Chown h st path uid gid = ⟨some ENOSYS, st, []⟩ ∧
    Fchown h st fd uid gid = ⟨some ENOSYS, st, []⟩ ∧
    Lchown h st path uid gid = ⟨some ENOSYS, st, []⟩ ∧
    Dup h st fd = (0, ⟨some ENOSYS, st, []⟩) ∧
    Dup2 h st fd newfd = ⟨some ENOSYS, st, []⟩ ∧
    Pipe h st fds = ⟨some ENOSYS, st, []⟩ ∧
    Fsync h st fd = ⟨some ENOSYS, st, []⟩ ∧
    ReadDirent h st fd buf = (0, ⟨some ENOSYS, st, []⟩) :=
  ⟨⟨rfl, rfl⟩, rfl, rfl, rfl, rfl, rfl, rfl, rfl, rfl, rfl, rfl⟩

/-! ### `itoa` -/

set_option maxRecDepth 100000 in
theorem itoa_small :
    ∀ n : Nat, n < 100 → itoa (n : Int) = .ret (decimalRepr n) ∧
      (decimalRepr n).length = (if n < 10 then 1 else 2) ∧
      (n ≠ 0 → (decimalRepr n).head? ≠ some 48) := by
  decide

set_option maxRecDepth 100000 in
theorem smallsString_length : smallsString.length = 200 := by decide

/-- C29: for `0 ≤ i ≤ 99`, `itoa(i)` returns the decimal representation of `i`, of one
digit for `i < 10` and of two digits otherwise, with no leading zero; for every other
Go `int` (`i < 0` or `i ≥ 100`) it panics. -/
theorem itoa_spec (i : Int) (hlo : -2 ^ 63 ≤ i) (hhi : i < 2 ^ 63) :
    (0 ≤ i → i ≤ 99 →
      itoa i = .ret (decimalRepr i.toNat) ∧
      (decimalRepr i.toNat).length = (if i < 10 then 1 else 2) ∧
      (i ≠ 0 → (decimalRepr i.toNat).head? ≠ some 48)) ∧
    (i < 0 ∨ 100 ≤ i → itoa i = .panic) := by
  constructor
  · intro h0 h99
    obtain ⟨n, rfl⟩ := Int.eq_ofNat_of_zero_le h0
    have hn : n < 100 := by omega
    obtain ⟨h1, h2, h3⟩ := itoa_small n hn
    refine ⟨h1, ?_, ?_⟩
    · simp only [Int.toNat_ofNat, h2]
      by_cases h10 : n < 10
      · rw [if_pos h10, if_pos (by omega)]
      · rw [if_neg h10, if_neg (by omega)]
    · intro hne
      exact h3 (by omega)
  · intro hout
    rcases hout with hneg | hbig
    · have h10 : i < 10 := by omega
      rw [itoa, if_pos h10, sliceStr, if_neg (by omega)]
    · have h10 : ¬ i < 10 := by omega
      rw [itoa, if_neg h10, sliceStr, if_neg]
      rw [smallsString_length]
      simp only [wrapInt]
      omega

/-- C29, at `i = 42` and at `i = 100`. -/
theorem itoa_spec_witness : itoa 42 = .ret (str "42") ∧ itoa 100 = .panic :=
  ⟨((itoa_spec 42 (by decide) (by decide)).1 (by decide) (by decide)).1,
   (itoa_spec 100 (by decide) (by decide)).2 (Or.inr (by decide))⟩

/-! ### Host data that makes the loops panic -/

theorem wrapRecord_bytes :
    wrapRecord = [1, 0, 0, 0, 0, 0, 0, 0, 10, 0, 0, 0, 0, 0, 0, 0,
      0xE8, 0xFF, 0xFF, 0xFF, 4, 0, 0, 0] := by
  decide

theorem drain_wrapRecord (fuel : Nat) (c : Nat) (n : Int) (names : List GoString)
    (hn : n ≠ 0) : drain (fuel + 1) ⟨wrapRecord, c⟩ n names = .panic := by
  have hlen : wrapRecord.length = 24 := by decide
  have h32 : readUint32 (wrapRecord.drop 16) = .ret 4294967272 := by decide
  have h64 : readUint64 wrapRecord = .ret 1 := by decide
  rw [drain, if_neg hn]
  simp only [hlen, lt_irrefl, if_false, h32, h64]
  norm_num

/-- C26 fails on the code: a host read that writes one 24-byte record whose name-length
field holds `2^32 - 24` makes `24 + namelen` wrap to `0` in `uint32`; the length test
`len(d.data) < int(24+namelen)` passes, and the slice `d.data[24 : 24+namelen]`, that is
`d.data[24:0]`, panics, for every `n` (on an open descriptor; a count that `make` does
not allocate panics before the read). -/
theorem readdirnames_namelen_wraps :
    wrapRecord.length = 24 ∧
    readUint32 (wrapRecord.drop 16) = .ret (2 ^ 32 - 24) ∧
    (∀ (fuel c : Nat) (n : Int) (names : List GoString), n ≠ 0 →
      drain (fuel + 1) ⟨wrapRecord, c⟩ n names = .panic) ∧
    ∀ (fuel : Nat) (n : Int), readdirnames openEnv wrapHost (fuel + 1) none n = .panic := by
  refine ⟨by decide, by decide, fun fuel c n names hn => drain_wrapRecord fuel c n names hn, ?_⟩
  intro fuel n
  have hlen : wrapRecord.length = 24 := by decide
  have hpoll : pollReadDir openEnv wrapHost blockSize 0 (fuel + 1)
      = .ret (24, wrapRecord, none) := by
    rw [pollReadDir_ok openEnv wrapHost blockSize 0 fuel rfl rfl]
    simp only [wrapHost, hlen]
  have hn : (if n ≤ 0 then (-1 : Int) else n) ≠ 0 := by
    split_ifs <;> omega
  have hloop : readLoop openEnv wrapHost (fuel + 1) ⟨[], 0⟩ (if n ≤ 0 then (-1 : Int) else n) []
      = .panic := by
    rw [readLoop, if_neg hn]
    simp only [List.length_nil, if_true, hpoll]
    have hb : ¬ blockSize < 24 := by decide
    rw [if_neg hb]
    simp only [List.take_of_length_le (le_of_eq hlen), hlen]
    rw [drain_wrapRecord 24 0 _ [] hn]
  simp only [readdirnames, hloop]
  split_ifs <;> rfl

theorem readlink_emptyTarget (x : GoString) :
    readlink emptyTarget (dot :: x) = .ret ([], none) := by
  simp [readlink, readlinkLoop, emptyTarget]

theorem expandLoop_emptyTarget (fuel : Nat) (x : GoString) :
    expandLoop emptyTarget (fuel + 1) x = .panic := by
  rw [expandLoop, readlink_emptyTarget]

/-- A part whose expansion loop panics makes the walk over the parts panic. -/
theorem walkParts_panic (host : ReadlinkHost) (follow : Bool) (fuel : Nat)
    (part : GoString) (rest : List GoString) (acc : GoString)
    (hres : ¬ (rest.isEmpty && !follow) = true)
    (hloop : expandLoop host fuel (acc ++ slash :: part) = .panic) :
    walkParts host follow fuel (part :: rest) acc = .panic := by
  rw [walkParts]
  simp only [hres, hloop, Bool.false_eq_true, if_false]

/-- C27 fails on the code: on a host whose readlink succeeds reporting zero bytes used,
the helper `readlink` returns the empty string without error, and `dest[0]` panics:
`preparePath("/a", true)` and `preparePath("/a/b", false)` panic, for every working
directory. -/
theorem preparePath_empty_target (wd : GoString) (fuel : Nat) :
    emptyTarget (str "./a") 128 = (0, []) ∧
    readlink emptyTarget (str "./a") = .ret ([], none) ∧
    preparePath emptyTarget wd (fuel + 1) (str "/a") true = .panic ∧
    preparePath emptyTarget wd (fuel + 1) (str "/a/b") false = .panic := by
  have habs1 : ¬ (str "/a" = [] ∨ (str "/a").head? ≠ some slash) := by decide
  have habs2 : ¬ (str "/a/b" = [] ∨ (str "/a/b").head? ≠ some slash) := by decide
  have hs1 : split slash ((str "/a").drop 1) = [str "a"] := by decide
  have hs2 : split slash ((str "/a/b").drop 1) = [str "a", str "b"] := by decide
  have hw1 := walkParts_panic emptyTarget true (fuel + 1) (str "a") [] [] (by decide)
    (expandLoop_emptyTarget fuel _)
  have hw2 := walkParts_panic emptyTarget false (fuel + 1) (str "a") [str "b"] [] (by decide)
    (expandLoop_emptyTarget fuel _)
  refine ⟨rfl, readlink_emptyTarget _, ?_, ?_⟩
  · simp only [preparePath, if_neg habs1, hs1, hw1]
  · simp only [preparePath, if_neg habs2, hs2, hw2]

/-! ### Little-endian reads -/

theorem readUint32_bytes (b0 b1 b2 b3 : Byte) (rest : List Byte) :
    readUint32 (b0 :: b1 :: b2 :: b3 :: rest)
      = .ret (b0.toNat + 2 ^ 8 * b1.toNat + 2 ^ 16 * b2.toNat + 2 ^ 24 * b3.toNat) := by
  have h0 := UInt8.toNat_lt b0
  have h1 := UInt8.toNat_lt b1
  have h2 := UInt8.toNat_lt b2
  simp only [readUint32]
  congr 1
  rw [or_shiftLeft _ _ 8 h0, or_shiftLeft _ _ 16 (by norm_num at *; omega),
    or_shiftLeft _ _ 24 (by norm_num at *; omega)]
  norm_num
  omega

theorem readUint32_leValue (b : List Byte) (hb : 4 ≤ b.length) :
    readUint32 b = .ret (leValue (b.take 4)) := by
  match b, hb with
  | b0 :: b1 :: b2 :: b3 :: rest, _ =>
    rw [readUint32_bytes]
    simp only [List.take_succ_cons, List.take_zero, leValue]
    congr 1
    omega

theorem readUint64_leValue (b : List Byte) (hb : 8 ≤ b.length) :
    readUint64 b = .ret (leValue (b.take 8)) := by
  match b, hb with
  | b0 :: b1 :: b2 :: b3 :: b4 :: b5 :: b6 :: b7 :: rest, _ =>
    have h0 := UInt8.toNat_lt b0
    have h1 := UInt8.toNat_lt b1
    have h2 := UInt8.toNat_lt b2
    have h3 := UInt8.toNat_lt b3
    have h4 := UInt8.toNat_lt b4
    have h5 := UInt8.toNat_lt b5
    have h6 := UInt8.toNat_lt b6
    simp only [readUint64, List.take_succ_cons, List.take_zero, leValue]
    congr 1
    rw [or_shiftLeft _ _ 8 h0, or_shiftLeft _ _ 16 (by norm_num at *; omega),
      or_shiftLeft _ _ 24 (by norm_num at *; omega),
      or_shiftLeft _ _ 32 (by norm_num at *; omega),
      or_shiftLeft _ _ 40 (by norm_num at *; omega),
      or_shiftLeft _ _ 48 (by norm_num at *; omega),
      or_shiftLeft _ _ 56 (by norm_num at *; omega)]
    norm_num
    omega

/-- C25: `readUint32` returns `b0 + 2^8*b1 + 2^16*b2 + 2^24*b3`, the little-endian value
of the first 4 bytes, for every slice of at least 4 bytes, and `readUint64` the
little-endian value of the first 8 bytes for every slice of at least 8 bytes. One round
of the inner loop of `readdirnames` on at least 24 unread bytes takes the name length
from bytes 16 to 19 and the next cookie from bytes 0 to 7. -/
theorem readUint_little_endian :
    (∀ (b0 b1 b2 b3 : Byte) (rest : List Byte),
      readUint32 (b0 :: b1 :: b2 :: b3 :: rest)
        = .ret (b0.toNat + 2 ^ 8 * b1.toNat + 2 ^ 16 * b2.toNat + 2 ^ 24 * b3.toNat)) ∧
    (∀ b : List Byte, 4 ≤ b.length → readUint32 b = .ret (leValue (b.take 4))) ∧
    (∀ b : List Byte, 8 ≤ b.length → readUint64 b = .ret (leValue (b.take 8))) ∧
    (∀ (fuel : Nat) (d : dirInfo) (n : Int) (names : List GoString),
      n ≠ 0 → 24 ≤ d.data.length →
      drain (fuel + 1) d n names =
        let namelen := leValue ((d.data.drop 16).take 4)
        let cookie := leValue (d.data.take 8)
        let recLen := (24 + namelen) % 2 ^ 32
        if d.data.length < recLen then .ret ({ d with data := [] }, n, names)
        else if recLen < 24 then .panic
        else
          let name := (d.data.take recLen).drop 24
          if isDotName name then drain fuel ⟨d.data.drop recLen, cookie⟩ n names
          else drain fuel ⟨d.data.drop recLen, cookie⟩ (n - 1) (names ++ [name])) := by
  refine ⟨readUint32_bytes, readUint32_leValue, readUint64_leValue, ?_⟩
  intro fuel d n names hn hlen
  have h32 := readUint32_leValue (d.data.drop 16) (by rw [List.length_drop]; omega)
  have h64 := readUint64_leValue d.data (by omega)
  rw [drain, if_neg hn, if_neg (by omega)]
  simp only [h32, h64]

/-- C25, at the bytes `78 56 34 12` and at a record named `"a"` with next-cookie 3. -/
theorem readUint_little_endian_witness :
    readUint32 [0x78, 0x56, 0x34, 0x12] = .ret 0x12345678 ∧
    drain 2 ⟨(⟨3, 12, 4, str "a"⟩ : Dirent).encode, 0⟩ (-1) []
      = .ret (⟨[], 3⟩, -2, [str "a"]) :=
  ⟨(readUint_little_endian.2.1 [0x78, 0x56, 0x34, 0x12] (by decide)).trans (by decide),
   (readUint_little_endian.2.2.2 1 ⟨(⟨3, 12, 4, str "a"⟩ : Dirent).encode, 0⟩ (-1) []
      (by decide) (by decide)).trans (by decide)⟩

/-! ### The helper `readlink` -/

theorem readlinkLoop_fail (host : ReadlinkHost) (path : GoString) (hp : path ≠ [])
    (fuel k : Nat) (hfail : (host path (128 * 2 ^ k)).1 ≠ 0) :
    readlinkLoop host path (fuel + 1) (128 * 2 ^ k)
      = .ret ([], some (host path (128 * 2 ^ k)).1) ∧
    readlinkLoopLog host path (fuel + 1) (128 * 2 ^ k) = [readlinkCall path k] := by
  have hpos : 0 < 2 ^ k := Nat.pow_pos (by decide)
  have hne : 128 * 2 ^ k ≠ 0 := by omega
  constructor
  · rw [readlinkLoop, if_neg hp, if_neg hne]
    simp only [hfail, ne_eq, not_false_eq_true, if_true, errnoErr_of_ne_zero hfail]
  · rw [readlinkLoopLog, if_neg hp, if_neg hne]
    simp only [hfail, ne_eq, not_false_eq_true, if_true, readlinkCall]

theorem readlinkLoop_short (host : ReadlinkHost) (path : GoString) (hp : path ≠ [])
    (fuel k : Nat) (hok : (host path (128 * 2 ^ k)).1 = 0)
    (hshort : (host path (128 * 2 ^ k)).2.length < 128 * 2 ^ k) :
    readlinkLoop host path (fuel + 1) (128 * 2 ^ k)
      = .ret ((host path (128 * 2 ^ k)).2, none) ∧
    readlinkLoopLog host path (fuel + 1) (128 * 2 ^ k) = [readlinkCall path k] := by
  have hpos : 0 < 2 ^ k := Nat.pow_pos (by decide)
  have hne : 128 * 2 ^ k ≠ 0 := by omega
  constructor
  · rw [readlinkLoop, if_neg hp, if_neg hne]
    simp only [hok, ne_eq, not_true_eq_false, if_false, hshort, if_true]
  · rw [readlinkLoopLog, if_neg hp, if_neg hne]
    simp only [hok, ne_eq, not_true_eq_false, if_false, hshort, if_true, readlinkCall]

/-- While the host fills the buffer completely, the loop of `readlink` doubles it. -/
theorem readlinkLoop_filled (host : ReadlinkHost) (path : GoString) (hp : path ≠ []) :
    ∀ (m fuel k : Nat), k + m ≤ 24 →
      (∀ j, j < m → (host path (128 * 2 ^ (k + j))).1 = 0 ∧
        128 * 2 ^ (k + j) ≤ (host path (128 * 2 ^ (k + j))).2.length) →
      readlinkLoop host path (fuel + m) (128 * 2 ^ k)
        = readlinkLoop host path fuel (128 * 2 ^ (k + m)) ∧
      readlinkLoopLog host path (fuel + m) (128 * 2 ^ k)
        = (List.range m).map (fun j => readlinkCall path (k + j)) ++
            readlinkLoopLog host path fuel (128 * 2 ^ (k + m)) := by
  intro m
  induction m with
  | zero => intro fuel k _ _; simp
  | succ m ih =>
    intro fuel k hk hfill
    have hpos : 0 < 2 ^ k := Nat.pow_pos (by decide)
    have hne : 128 * 2 ^ k ≠ 0 := by omega
    obtain ⟨h0, hfull⟩ := hfill 0 (by omega)
    simp only [Nat.add_zero] at h0 hfull
    have hle : 2 ^ (k + 1) ≤ 2 ^ 24 := Nat.pow_le_pow_right (by decide) (by omega)
    have hmod : 128 * 2 ^ k * 2 % 2 ^ 32 = 128 * 2 ^ (k + 1) := by
      have hs : (2 : Nat) ^ (k + 1) = 2 ^ k * 2 := pow_succ 2 k
      rw [hs] at hle ⊢
      rw [Nat.mod_eq_of_lt (by norm_num at *; omega)]
      omega
    obtain ⟨ih1, ih2⟩ := ih fuel (k + 1) (by omega) (fun j hj => by
      have := hfill (j + 1) (by omega)
      have he : k + (j + 1) = k + 1 + j := by omega
      rw [he] at this
      exact this)
    have hkm : k + 1 + m = k + (m + 1) := by omega
    rw [hkm] at ih1 ih2
    have hfm : fuel + (m + 1) = (fuel + m) + 1 := by omega
    constructor
    · rw [hfm, readlinkLoop, if_neg hp, if_neg hne]
      simp only [h0, ne_eq, not_true_eq_false, if_false]
      rw [if_neg (by omega), hmod]
      exact ih1
    · rw [hfm, readlinkLoopLog, if_neg hp, if_neg hne]
      simp only [h0, ne_eq, not_true_eq_false, if_false]
      rw [if_neg (by omega), hmod, ih2, List.range_succ_eq_map]
      simp only [List.map_cons, List.map_map, Nat.add_zero, List.cons_append, readlinkCall]
      congr 2
      apply List.map_congr_left
      intro j _
      simp only [Function.comp, Nat.succ_eq_add_one]
      rw [show k + (j + 1) = k + 1 + j by omega]

/-- The first `k` rounds of `readlink`, in each of which the host fills the buffer. -/
theorem readlink_rounds (host : ReadlinkHost) (path : GoString) (hp : path ≠ [])
    (k : Nat) (hk : k ≤ 24)
    (hfill : ∀ j, j < k → (host path (128 * 2 ^ j)).1 = 0 ∧
      128 * 2 ^ j ≤ (host path (128 * 2 ^ j)).2.length) :
    readlink host path = readlinkLoop host path (25 - k + 1) (128 * 2 ^ k) ∧
    readlinkLog host path
      = (List.range k).map (readlinkCall path) ++
          readlinkLoopLog host path (25 - k + 1) (128 * 2 ^ k) := by
  obtain ⟨h1, h2⟩ := readlinkLoop_filled host path hp k (25 - k + 1) 0 (by omega)
    (fun j hj => by simpa using hfill j hj)
  have hf : 25 - k + 1 + k = 26 := by omega
  simp only [hf, pow_zero, Nat.mul_one, Nat.zero_add] at h1 h2
  exact ⟨h1, h2⟩

/-- C28: for a host that writes `min(L, buflen)` bytes of the `L`-byte target `t` of the
symlink `path` and reports that count, with `L < 2^31`, the helper `readlink` returns
the whole of `t`; its calls are those with the buffers `128, 256, ..., 128 * 2^k`, `k`
being the first round whose buffer is longer than `L` (a target of exactly the buffer
length makes the loop double once more). And when the host fills the buffers of the
rounds before `k` and fails in round `k`, `readlink` returns that error, the failed call
being the last one. -/
theorem readlink_complete (host : ReadlinkHost) (path : GoString) (hp : path ≠ []) :
    (∀ t : GoString, (∀ n, host path n = (0, t.take n)) → t.length < 2 ^ 31 →
      readlink host path = .ret (t, none) ∧
      ∃ k, k ≤ 24 ∧ t.length < 128 * 2 ^ k ∧ (∀ j, j < k → 128 * 2 ^ j ≤ t.length) ∧
        readlinkLog host path = (List.range (k + 1)).map (readlinkCall path)) ∧
    (∀ k, k ≤ 24 →
      (∀ j, j < k → (host path (128 * 2 ^ j)).1 = 0 ∧
        128 * 2 ^ j ≤ (host path (128 * 2 ^ j)).2.length) →
      (host path (128 * 2 ^ k)).1 ≠ 0 →
      readlink host path = .ret ([], some (host path (128 * 2 ^ k)).1) ∧
      readlinkLog host path = (List.range (k + 1)).map (readlinkCall path)) := by
  constructor
  · intro t hhost ht
    have hex : ∃ k, t.length < 128 * 2 ^ k := ⟨24, by norm_num at *; omega⟩
    have hk24 : Nat.find hex ≤ 24 := Nat.find_min' hex (by norm_num at *; omega)
    have hlt : t.length < 128 * 2 ^ Nat.find hex := Nat.find_spec hex
    have hmin : ∀ j, j < Nat.find hex → 128 * 2 ^ j ≤ t.length := fun j hj =>
      Nat.le_of_not_lt (Nat.find_min hex hj)
    generalize Nat.find hex = k at hk24 hlt hmin
    obtain ⟨h1, h2⟩ := readlink_rounds host path hp k hk24 (fun j hj => by
      rw [hhost]
      exact ⟨rfl, by simp only [List.length_take]; exact le_min (le_refl _) (hmin j hj)⟩)
    obtain ⟨h3, h4⟩ := readlinkLoop_short host path hp (25 - k) k (by rw [hhost])
      (by rw [hhost]; simp only [List.length_take]; exact lt_of_le_of_lt (min_le_right _ _) hlt)
    refine ⟨?_, k, hk24, hlt, hmin, ?_⟩
    · rw [h1, h3, hhost]
      simp only [List.take_of_length_le (le_of_lt hlt)]
    · rw [h2, h4, List.range_succ, List.map_append]
      rfl
  · intro k hk hfill hfail
    obtain ⟨h1, h2⟩ := readlink_rounds host path hp k hk hfill
    obtain ⟨h3, h4⟩ := readlinkLoop_fail host path hp (25 - k) k hfail
    refine ⟨by rw [h1, h3], ?_⟩
    rw [h2, h4, List.range_succ, List.map_append]
    rfl

/-- C28, at a symlink `"./a"` whose target has exactly 128 bytes (two rounds), and at a
host without symlinks (the error of the first call is returned). -/
theorem readlink_complete_witness :
    readlink (oneLink (str "./a") (List.replicate 128 97)) (str "./a")
      = .ret (List.replicate 128 97, none) ∧
    readlink noLinks (str "./a") = .ret ([], some ENOENT) ∧
    readlinkLog noLinks (str "./a") = [readlinkCall (str "./a") 0] :=
  ⟨((readlink_complete (oneLink (str "./a") (List.replicate 128 97)) (str "./a")
      (by decide)).1 (List.replicate 128 97) (fun n => by simp [oneLink])
      (by simp)).1,
   ((readlink_complete noLinks (str "./a") (by decide)).2 0 (by decide)
      (fun j hj => absurd hj (Nat.not_lt_zero j)) (by decide)).1,
   ((readlink_complete noLinks (str "./a") (by decide)).2 0 (by decide)
      (fun j hj => absurd hj (Nat.not_lt_zero j)) (by decide)).2⟩

/-! ### Operations that leave the descriptor-path table alone -/

theorem pathOp_state (h : Host) (fuel : Nat) (st : FsState) (path : GoString) (follow : Bool)
    (call : GoString → Nat → HostCall) (status : GoString → Nat → Errno) (r : OpResult)
    (hr : pathOp h fuel st path follow call status = .ret r) : r.state = st := by
  obtain ⟨_, _, _, _, _, hs⟩ := pathOp_ret h fuel st path follow call status r hr
  exact hs

theorem twoPathOp_state (h : Host) (fuel : Nat) (st : FsState) (old new : GoString)
    (call : GoString → Nat → GoString → Nat → HostCall)
    (status : GoString → Nat → GoString → Nat → Errno) (r : OpResult)
    (hr : twoPathOp h fuel st old new call status = .ret r) : r.state = st := by
  unfold twoPathOp at hr
  split at hr
  · cases hr
  · cases hr
  · split at hr
    · cases hr
    · cases hr
    · cases hr
      rfl

theorem Symlink_state (h : Host) (fuel : Nat) (st : FsState) (path link : GoString)
    (r : OpResult) (hr : Symlink h fuel st path link = .ret r) : r.state = st := by
  unfold Symlink at hr
  split at hr
  · cases hr
  · cases hr
  · split_ifs at hr
    cases hr
    rfl

theorem Readlink_state (h : Host) (fuel : Nat) (st : FsState) (path : GoString)
    (buflen : Nat) (r : ReadlinkResult) (hr : Readlink h fuel st path buflen = .ret r) :
    r.state = st := by
  unfold Readlink at hr
  split at hr
  · cases hr
  · cases hr
  · split_ifs at hr
    cases hr
    rfl

/-- On a host without symlinks `preparePath` returns the path it was given, made
absolute, after one round of the inner loop per segment. -/
theorem preparePath_noLinks (host : ReadlinkHost) (wd p : GoString) (follow : Bool)
    (fuel : Nat) (hfail : ∀ q n, (host q n).1 ≠ 0) :
    ∃ q, preparePath host wd (fuel + 1) p follow = .ret (dot :: slash :: q,
      (1 + (slash :: q).length) % 2 ^ 32) ∧
      q = (if p = [] ∨ p.head? ≠ some slash then wd ++ slash :: p else p).drop 1 := by
  refine ⟨_, ?_, rfl⟩
  have hw := walkParts_notLink host follow fuel
    (split slash ((if p = [] ∨ p.head? ≠ some slash then wd ++ slash :: p else p).drop 1)) []
    (fun k _ _ _ n => hfail _ n)
  simp only [preparePath, hw, List.nil_append, joinSegs_split]

/-- C22: `Mkdir`, `Rmdir`, `Stat`, `Lstat`, `Unlink`, `Rename`, `Link`, `Symlink` and
`Readlink`, whenever they return, and `Fchdir` leave every entry of the descriptor-path
table as it was, for every host. `Mkdir("/a/b")` followed by `Rmdir("/a/b")` leaves the
table as it was before, and on a host without symlinks both calls return, with the
status of their host call. -/
theorem fdPaths_frame (h : Host) (fuel : Nat) (st : FsState) (path other : GoString)
    (perm buflen : Nat) (fd : Int) :
    (∀ r, Mkdir h fuel st path perm = .ret r → r.state.fdPaths = st.fdPaths) ∧
    (∀ r, Rmdir h fuel st path = .ret r → r.state.fdPaths = st.fdPaths) ∧
    (∀ r, Stat h fuel st path = .ret r → r.state.fdPaths = st.fdPaths) ∧
    (∀ r, Lstat h fuel st path = .ret r → r.state.fdPaths = st.fdPaths) ∧
    (∀ r, Unlink h fuel st path = .ret r → r.state.fdPaths = st.fdPaths) ∧
    (∀ r, Rename h fuel st path other = .ret r → r.state.fdPaths = st.fdPaths) ∧
    (∀ r, Link h fuel st path other = .ret r → r.state.fdPaths = st.fdPaths) ∧
    (∀ r, Symlink h fuel st path other = .ret r → r.state.fdPaths = st.fdPaths) ∧
    (∀ r, Readlink h fuel st path buflen = .ret r → r.state.fdPaths = st.fdPaths) ∧
    (Fchdir st fd).state.fdPaths = st.fdPaths ∧
    (∀ r1 r2, Mkdir h fuel st (str "/a/b") perm = .ret r1 →
      Rmdir h fuel r1.state (str "/a/b") = .ret r2 → r2.state.fdPaths = st.fdPaths) ∧
    ((∀ q n, (h.path_readlink q n).1 ≠ 0) →
      ∃ r1 r2, Mkdir h (fuel + 1) st (str "/a/b") perm = .ret r1 ∧
        Rmdir h (fuel + 1) r1.state (str "/a/b") = .ret r2 ∧
        r1.err = errnoErr (h.path_create_directory (str "./a/b") 5) ∧
        r2.err = errnoErr (h.path_remove_directory (str "./a/b") 5) ∧
        r2.state.fdPaths = st.fdPaths) := by
  refine ⟨?_, ?_, ?_, ?_, ?_, ?_, ?_, ?_, ?_, rfl, ?_, ?_⟩
  · intro r hr; rw [pathOp_state h fuel st path false _ _ r hr]
  · intro r hr; rw [pathOp_state h fuel st path false _ _ r hr]
  · intro r hr; rw [pathOp_state h fuel st path true _ _ r hr]
  · intro r hr; rw [pathOp_state h fuel st path false _ _ r hr]
  · intro r hr; rw [pathOp_state h fuel st path false _ _ r hr]
  · intro r hr; rw [twoPathOp_state h fuel st path other _ _ r hr]
  · intro r hr; rw [twoPathOp_state h fuel st path other _ _ r hr]
  · intro r hr; rw [Symlink_state h fuel st path other r hr]
  · intro r hr; rw [Readlink_state h fuel st path buflen r hr]
  · intro r1 r2 h1 h2
    have e1 := pathOp_state h fuel st _ false _ _ r1 h1
    rw [e1] at h2
    rw [pathOp_state h fuel st _ false _ _ r2 h2]
  · intro hno
    obtain ⟨q, hq, hq'⟩ := preparePath_noLinks h.path_readlink st.wd (str "/a/b") false fuel hno
    have habs : ¬ (str "/a/b" = [] ∨ (str "/a/b").head? ≠ some slash) := by decide
    have hq2 : q = str "a/b" := by rw [hq', if_neg habs]; decide
    subst hq2
    have h5 : (1 + (slash :: str "a/b").length) % 2 ^ 32 = 5 := by decide
    have hs : slash :: str "a/b" = str "/a/b" := by decide
    rw [h5] at hq
    refine ⟨_, _, by simp only [Mkdir, pathOp, hq]; rfl, by simp only [Rmdir, pathOp, hq]; rfl,
      ?_, ?_, rfl⟩
    · rfl
    · rfl

/-- C22, at `Mkdir("/a/b")` then `Rmdir("/a/b")` on a host where every call succeeds,
from a state that records descriptor 5. -/
theorem fdPaths_frame_witness :
    ∃ r1 r2, Mkdir okHost 1 dState (str "/a/b") 0 = .ret r1 ∧
      Rmdir okHost 1 r1.state (str "/a/b") = .ret r2 ∧
      r1.err = errnoErr (okHost.path_create_directory (str "./a/b") 5) ∧
      r2.err = errnoErr (okHost.path_remove_directory (str "./a/b") 5) ∧
      r2.state.fdPaths = dState.fdPaths :=
  (fdPaths_frame okHost 0 dState [] [] 0 0 0).2.2.2.2.2.2.2.2.2.2.2
    (fun _ _ => by simp [okHost, noLinks, ENOENT])

/-! ### `Chdir` -/

/-- C24: for a non-empty path `p`, let `target` be `p` when `p` is absolute and
`wd + "/" + p` when it is relative. When the resolution of `target` returns `(q, n)`,
`Chdir(p)` returns after the host stat call on `(q, n)`: if that call fails, `Chdir`
returns its error and the package variables are unchanged; if it succeeds, `Chdir`
returns no error, `Getwd` afterwards returns `target`, and the descriptor-path table is
unchanged. When the resolution panics or does not return, neither does `Chdir`
return. -/
theorem Chdir_atomic (h : Host) (fuel : Nat) (st : FsState) (p target : GoString)
    (hp : p ≠ [])
    (htarget : (p.head? = some slash ∧ target = p) ∨
      (p.head? ≠ some slash ∧ target = st.wd ++ slash :: p)) :
    (∀ q n, preparePath h.path_readlink st.wd fuel target true = .ret (q, n) →
      (h.path_filestat_get q n ≠ 0 →
        ∃ r, Chdir h fuel st p = .ret r ∧ r.err = some (h.path_filestat_get q n) ∧
          r.state = st ∧ Getwd r.state = (st.wd, none) ∧
          r.calls.getLast? = some (HostCall.path_filestat_get rootFD 0 q n)) ∧
      (h.path_filestat_get q n = 0 →
        ∃ r, Chdir h fuel st p = .ret r ∧ r.err = none ∧
          Getwd r.state = (target, none) ∧ r.state.fdPaths = st.fdPaths ∧
          r.calls.getLast? = some (HostCall.path_filestat_get rootFD 0 q n))) ∧
    (preparePath h.path_readlink st.wd fuel target true = .panic →
      Chdir h fuel st p = .panic) ∧
    (preparePath h.path_readlink st.wd fuel target true = .fuelOut →
      Chdir h fuel st p = .fuelOut) := by
  obtain ⟨c, rest, rfl⟩ : ∃ c rest, p = c :: rest := by
    cases p with
    | nil => exact absurd rfl hp
    | cons c rest => exact ⟨c, rest, rfl⟩
  have ht : (if c ≠ slash then st.wd ++ slash :: c :: rest else c :: rest) = target := by
    rcases htarget with ⟨ha, rfl⟩ | ⟨hr, rfl⟩
    · simp only [List.head?_cons, Option.some.injEq] at ha
      rw [if_neg (by simpa using ha)]
    · simp only [List.head?_cons, ne_eq, Option.some.injEq] at hr
      rw [if_pos hr]
  refine ⟨?_, ?_, ?_⟩
  · intro q n hprep
    constructor
    · intro hfail
      refine ⟨⟨some (h.path_filestat_get q n), st,
        preparePathLog h.path_readlink st.wd fuel target true ++
          [HostCall.path_filestat_get rootFD 0 q n]⟩, ?_, rfl, rfl, rfl, by simp⟩
      simp only [Chdir, ht, Stat, pathOp, hprep, errnoErr_of_ne_zero hfail]
    · intro hok
      refine ⟨⟨none, { st with wd := target },
        preparePathLog h.path_readlink st.wd fuel target true ++
          [HostCall.path_filestat_get rootFD 0 q n]⟩, ?_, rfl, rfl, rfl, by simp⟩
      have he : errnoErr (h.path_filestat_get q n) = none := by rw [hok]; rfl
      simp only [Chdir, ht, Stat, pathOp, hprep, he]
  · intro hprep
    simp only [Chdir, ht, Stat, pathOp, hprep]
  · intro hprep
    simp only [Chdir, ht, Stat, pathOp, hprep]

/-- C24, at `Chdir("d")` from the working directory `"/w"`: on a host whose stat
succeeds the working directory becomes `"/w/d"`. -/
theorem Chdir_atomic_witness :
    ∃ r, Chdir okHost 1 wState (str "d") = .ret r ∧ r.err = none ∧
      Getwd r.state = (str "/w/d", none) ∧ r.state.fdPaths = wState.fdPaths ∧
      r.calls.getLast? = some (HostCall.path_filestat_get rootFD 0 (str "./w/d") 5) :=
  ((Chdir_atomic okHost 1 wState (str "d") (str "/w/d") (by decide)
    (Or.inr ⟨by decide, by decide⟩)).1 (str "./w/d") 5 (by decide)).2 rfl

/-! ### Following the final segment -/

theorem split_snoc (a : GoString) {s : GoString} (hs : slash ∉ s) :
    split slash (a ++ slash :: s) = split slash a ++ [s] := by
  induction a with
  | nil => simp [split, split_of_not_mem hs]
  | cons c cs ih =>
    rw [List.cons_append, split, split]
    by_cases hc : c = slash
    · rw [if_pos hc, if_pos hc, ih]
      rfl
    · rw [if_neg hc, if_neg hc, ih]
      cases hsp : split slash cs with
      | nil => exact absurd hsp (split_ne_nil _ _)
      | cons x xs => rfl

theorem joinSegs_take_length_lt (segs : List GoString) (k : Nat) (hk : k < segs.length) :
    (joinSegs (segs.take k)).length < (joinSegs segs).length := by
  conv_rhs => rw [← List.take_append_drop k segs, joinSegs_append]
  rw [List.length_append]
  cases hd : segs.drop k with
  | nil =>
    have := congrArg List.length hd
    simp only [List.length_drop, List.length_nil] at this
    omega
  | cons x xs =>
    rw [joinSegs_cons]
    simp only [List.cons_append, List.length_cons, List.length_append]
    omega

/-- Without following the final segment, an absolute path none of whose proper prefixes
is a symlink resolves to itself, whether or not the path itself is a symlink. -/
theorem preparePath_nofollow_final (host : ReadlinkHost) (wd p : GoString) (fuel : Nat)
    (habs : p.head? = some slash)
    (hother : ∀ q, q ≠ dot :: p → notLink host q) :
    preparePath host wd (fuel + 1) p false = .ret (dot :: p, (1 + p.length) % 2 ^ 32) := by
  cases p with
  | nil => simp at habs
  | cons c q =>
    simp only [List.head?_cons, Option.some.injEq] at habs
    subst habs
    have hw := walkParts_notLink host false fuel (split slash q) [] (fun k _ _ hlt => by
      apply hother
      intro hc
      have hk : k < (split slash q).length := by
        rcases hlt with h | h
        · exact h
        · exact absurd h (by decide)
      have hlen := joinSegs_take_length_lt (split slash q) k hk
      rw [joinSegs_split] at hlen
      have := congrArg List.length hc
      simp only [List.nil_append, List.length_cons] at this hlen
      omega)
    have hd : List.drop 1 (slash :: q) = q := rfl
    simp only [preparePath, List.head?_cons, ne_eq, not_true_eq_false, or_false]
    rw [if_neg (by simp), hd, hw, List.nil_append, joinSegs_split]

/-- Following the final segment `s` of the absolute path `pre + "/" + s`, the only
symlink of the host, gives the path its target stands for. -/
theorem preparePath_follow_final (host : ReadlinkHost) (wd pre s t : GoString) (fuel : Nat)
    (hpre : pre = [] ∨ pre.head? = some slash) (hs : slash ∉ s)
    (hlink : ∀ n, host (dot :: (pre ++ slash :: s)) n = (0, t.take n))
    (hother : ∀ q, q ≠ dot :: (pre ++ slash :: s) → notLink host q)
    (ht : t ≠ []) (htlen : t.length < 2 ^ 31)
    (hT : substituted pre t ≠ pre ++ slash :: s) :
    preparePath host wd (fuel + 2) (pre ++ slash :: s) true
      = .ret (dot :: substituted pre t, (1 + (substituted pre t).length) % 2 ^ 32) := by
  have habs : ¬ (pre ++ slash :: s = [] ∨ (pre ++ slash :: s).head? ≠ some slash) := by
    rcases hpre with h | h
    · subst h; simp
    · cases pre with
      | nil => simp
      | cons c cs => simpa using h
  obtain ⟨ds, hsplit, hjoin⟩ : ∃ ds, split slash ((pre ++ slash :: s).drop 1) = ds ++ [s] ∧
      joinSegs ds = pre := by
    cases pre with
    | nil => exact ⟨[], by simpa using split_of_not_mem hs, rfl⟩
    | cons c a =>
      have hc : c = slash := by
        rcases hpre with h | h
        · cases h
        · simpa using h
      subst hc
      refine ⟨split slash a, ?_, joinSegs_split a⟩
      simp only [List.cons_append, List.drop_succ_cons, List.drop_zero]
      exact split_snoc a hs
  have hwalk1 : walkParts host true (fuel + 2) (ds ++ [s]) []
      = walkParts host true (fuel + 2) [s] ([] ++ joinSegs ds) := by
    apply walkParts_prefix host true (fuel + 1) [s] (by simp) ds []
    intro k _ _
    apply hother
    intro hc
    have hlen := congrArg List.length hc
    have := joinSegs_length_take_le ds k
    rw [hjoin] at this
    simp only [List.nil_append, List.length_cons, List.length_append] at hlen
    omega
  have hexp := expandLoop_oneLink host pre s t fuel hs hlink hother ht htlen hT
  have hwalk : walkParts host true (fuel + 2) (ds ++ [s]) [] = .ret (substituted pre t) := by
    rw [hwalk1, hjoin, walkParts]
    simp only [List.nil_append, List.isEmpty_nil, Bool.not_true, Bool.and_false,
      Bool.false_eq_true, if_false]
    rw [hexp]
    simp only [walkParts]
  simp only [preparePath, if_neg habs, hsplit, hwalk]

/-- C23 as stated fails when the target is the symlink itself: on a host whose only
symlink is `"./a"` with the absolute target `"/a"`, `Stat("/a")` never returns, so no
path is passed to the host's stat. -/
theorem follow_symlink_counterexample :
    (str "/a").head? = some slash ∧
    (∀ n, (linkHost (str "./a") (str "/a")).path_readlink (str "./a") n
      = (0, (str "/a").take n)) ∧
    (∀ q, q ≠ str "./a" → notLink (linkHost (str "./a") (str "/a")).path_readlink q) ∧
    ¬ ∃ fuel r, Stat (linkHost (str "./a") (str "/a")) fuel wState (str "/a") = .ret r := by
  refine ⟨by decide, fun n => by simp [linkHost, oneLink], ?_, ?_⟩
  · intro q hq n
    simp [linkHost, oneLink, hq, EINVAL]
  · rintro ⟨fuel, r, hr⟩
    have hrl : readlink (oneLink (str "./a") (str "/a")) (dot :: slash :: str "a")
        = .ret (slash :: str "a", none) := by decide
    have hloop := expandLoop_self (oneLink (str "./a") (str "/a")) (str "a") hrl
    have hw := walkParts_stuck (oneLink (str "./a") (str "/a")) true fuel (str "a") [] []
      (by decide) (hloop fuel).1
    have habs : ¬ (str "/a" = [] ∨ (str "/a").head? ≠ some slash) := by decide
    have hs : split slash ((str "/a").drop 1) = [str "a"] := by decide
    have hprep : preparePath (oneLink (str "./a") (str "/a")) wState.wd fuel (str "/a") true
        = .fuelOut := by
      simp only [preparePath, if_neg habs, hs, hw.1]
    have hstat : Stat (linkHost (str "./a") (str "/a")) fuel wState (str "/a") = .fuelOut := by
      simp only [Stat, pathOp, linkHost, hprep]
    rw [hstat] at hr
    cases hr

/-- C23 (amended): the absolute path `p = pre + "/" + s` with final segment `s` is the
only symlink of the host, its target `t` is non-empty and shorter than `2^31` bytes, and
the path `T` the target stands for (`t` itself when `t` is absolute, `pre + "/" + t`
otherwise) is not `p` again. Then `Stat` and `Open` pass the host `"." + T`, and
`Lstat`, `Unlink`, `Rmdir`, `Readlink` and, whenever they return, `Rename` and `Link`
(for either argument) pass the host `"." + p`. -/
theorem follow_trailing_symlink (fl : OpenFlags) (h : Host) (R fuel : Nat) (st : FsState)
    (pre s t p T : GoString) (openmode : Int) (perm : Nat)
    (hp : p = pre ++ slash :: s) (hT : T = substituted pre t)
    (hpre : pre = [] ∨ pre.head? = some slash) (hs : slash ∉ s)
    (hlink : ∀ n, h.path_readlink (dot :: p) n = (0, t.take n))
    (hother : ∀ q, q ≠ dot :: p → notLink h.path_readlink q)
    (ht : t ≠ []) (htlen : t.length < 2 ^ 31)
    (hne : T ≠ p) :
    (t.head? = some slash → T = t) ∧
    (∃ r, Stat h (fuel + 2) st p = .ret r ∧
      r.calls.getLast? = some (HostCall.path_filestat_get rootFD 0 (dot :: T)
        ((1 + T.length) % 2 ^ 32))) ∧
    (∃ o args, Open fl h.path_readlink h.path_open R (fuel + 2) st p openmode perm = .ret o ∧
      o.call = some args ∧ args.path = dot :: T ∧ args.path_len = (1 + T.length) % 2 ^ 32) ∧
    (∃ r, Lstat h (fuel + 2) st p = .ret r ∧
      r.calls.getLast? = some (HostCall.path_filestat_get rootFD 0 (dot :: p)
        ((1 + p.length) % 2 ^ 32))) ∧
    (∃ r, Unlink h (fuel + 2) st p = .ret r ∧
      r.calls.getLast? = some (HostCall.path_unlink_file rootFD (dot :: p)
        ((1 + p.length) % 2 ^ 32))) ∧
    (∃ r, Rmdir h (fuel + 2) st p = .ret r ∧
      r.calls.getLast? = some (HostCall.path_remove_directory rootFD (dot :: p)
        ((1 + p.length) % 2 ^ 32))) ∧
    (∀ buflen, buflen ≠ 0 → ∃ r, Readlink h (fuel + 2) st p buflen = .ret r ∧
      r.calls.getLast? = some (HostCall.path_readlink rootFD (dot :: p)
        ((1 + p.length) % 2 ^ 32) (buflen % 2 ^ 32))) ∧
    (∀ other r, Rename h (fuel + 2) st p other = .ret r →
      ∃ np nl, r.calls.getLast? = some (HostCall.path_rename rootFD (dot :: p)
        ((1 + p.length) % 2 ^ 32) rootFD np nl)) ∧
    (∀ other r, Rename h (fuel + 2) st other p = .ret r →
      ∃ op ol, r.calls.getLast? = some (HostCall.path_rename rootFD op ol rootFD (dot :: p)
        ((1 + p.length) % 2 ^ 32))) ∧
    (∀ other r, Link h (fuel + 2) st p other = .ret r →
      ∃ np nl, r.calls.getLast? = some (HostCall.path_link rootFD 0 (dot :: p)
        ((1 + p.length) % 2 ^ 32) rootFD np nl)) ∧
    (∀ other r, Link h (fuel + 2) st other p = .ret r →
      ∃ op ol, r.calls.getLast? = some (HostCall.path_link rootFD 0 op ol rootFD (dot :: p)
        ((1 + p.length) % 2 ^ 32))) := by
  subst hp hT
  have hhead : (pre ++ slash :: s).head? = some slash := by
    rcases hpre with h' | h'
    · subst h'; simp
    · cases pre with
      | nil => simp
      | cons c cs => simpa using h'
  have hA := preparePath_follow_final h.path_readlink st.wd pre s t fuel hpre hs hlink hother
    ht htlen hne
  have hB := preparePath_nofollow_final h.path_readlink st.wd (pre ++ slash :: s) (fuel + 1)
    hhead hother
  refine ⟨fun habs => by simp [substituted, habs], ?_, ?_, ?_, ?_, ?_, ?_, ?_, ?_, ?_, ?_⟩
  · exact ⟨_, by simp only [Stat, pathOp, hA]; rfl, by simp⟩
  · have hnil : pre ++ slash :: s ≠ [] := by simp
    have hif : (if (pre ++ slash :: s).head? ≠ some slash then st.wd ++ slash :: (pre ++ slash :: s)
        else pre ++ slash :: s) = pre ++ slash :: s := by
      rw [if_neg (by simp [hhead])]
    refine ⟨_, _, by simp only [Open, if_neg hnil, hif, hA]; rfl, rfl, rfl, rfl⟩
  · exact ⟨_, by simp only [Lstat, pathOp, hB]; rfl, by simp⟩
  · exact ⟨_, by simp only [Unlink, pathOp, hB]; rfl, by simp⟩
  · exact ⟨_, by simp only [Rmdir, pathOp, hB]; rfl, by simp⟩
  · intro buflen hb
    exact ⟨_, by simp only [Readlink, hB, if_neg hb]; rfl, by simp⟩
  · intro other r hr
    simp only [Rename, twoPathOp, hB] at hr
    split at hr
    · cases hr
    · cases hr
    · cases hr
      exact ⟨_, _, List.getLast?_concat _⟩
  · intro other r hr
    simp only [Rename, twoPathOp, hB] at hr
    split at hr
    · cases hr
    · cases hr
    · cases hr
      exact ⟨_, _, List.getLast?_concat _⟩
  · intro other r hr
    simp only [Link, twoPathOp, hB] at hr
    split at hr
    · cases hr
    · cases hr
    · cases hr
      exact ⟨_, _, List.getLast?_concat _⟩
  · intro other r hr
    simp only [Link, twoPathOp, hB] at hr
    split at hr
    · cases hr
    · cases hr
    · cases hr
      exact ⟨_, _, List.getLast?_concat _⟩

/-- C23 (amended), at `"/a"` a symlink to `"/x"`: `Stat("/a")` passes `"./x"` and
`Lstat("/a")` passes `"./a"`. -/
theorem follow_trailing_symlink_witness :
    (∃ r, Stat (linkHost (str "./a") (str "/x")) 2 wState (str "/a") = .ret r ∧
      r.calls.getLast? = some (HostCall.path_filestat_get rootFD 0 (dot :: str "/x")
        ((1 + (str "/x").length) % 2 ^ 32))) ∧
    (∃ r, Lstat (linkHost (str "./a") (str "/x")) 2 wState (str "/a") = .ret r ∧
      r.calls.getLast? = some (HostCall.path_filestat_get rootFD 0 (dot :: str "/a")
        ((1 + (str "/a").length) % 2 ^ 32))) :=
  ⟨(follow_trailing_symlink sampleFlags (linkHost (str "./a") (str "/x")) allRights 0 wState
      [] (str "a") (str "/x") (str "/a") (str "/x") 0 0 (by decide) (by decide)
      (Or.inl rfl) (by decide)
      (fun n => by
        have he : dot :: str "/a" = str "./a" := by decide
        rw [he]
        simp [linkHost, oneLink])
      (fun q hq n => by
        have he : dot :: str "/a" = str "./a" := by decide
        rw [he] at hq
        simp [linkHost, oneLink, hq, EINVAL])
      (by decide) (by decide) (by decide)).2.1,
   (follow_trailing_symlink sampleFlags (linkHost (str "./a") (str "/x")) allRights 0 wState
      [] (str "a") (str "/x") (str "/a") (str "/x") 0 0 (by decide) (by decide)
      (Or.inl rfl) (by decide)
      (fun n => by
        have he : dot :: str "/a" = str "./a" := by decide
        rw [he]
        simp [linkHost, oneLink])
      (fun q hq n => by
        have he : dot :: str "/a" = str "./a" := by decide
        rw [he] at hq
        simp [linkHost, oneLink, hq, EINVAL])
      (by decide) (by decide) (by decide)).2.2.2.1⟩

end Wasi
